import Mathlib

/-!
# Cuesheet parsing (`src/scan-cue.c`)

A shallow embedding of the cuesheet parser of forked-daapd and theorems about it.

Conventions of the embedding.

* A C string is the list of its characters before the terminating NUL; a `char *` that may
  be `NULL` is an `Option (List Char)`.
* The parser tokenises its buffer in place.  A token is returned together with what the
  buffer holds behind it (`Token`), which is all the later code can observe of the writes.
* `int` is 32 bits wide and `long` 64 bits wide.  `atoi` is `(int) strtol(s, NULL, 10)`:
  the value is saturated to the range of `long` (`clampLong`) and then converted to `int`
  (`wrapInt32`).  The frame arithmetic of `msf_to_sample_offset` is reduced with
  `wrapInt32`.  The index arithmetic on `track` (`track - 1`, `track - 2`) is exact.
* An access outside the track table and a `NULL` dereference have no defined result: the
  functions that can perform one return `Option`, and `none` stands for that.
-/

namespace ScanCue

/-! ## C integers and the C library -/

/-- Reduction of an integer to the range of a 32-bit two's complement `int`. -/
def wrapInt32 (x : Int) : Int :=
  (x + 2147483648) % 4294967296 - 2147483648

/-- Characters `isspace` accepts in the C locale. -/
def isspace (c : Char) : Bool :=
  c = ' ' || c = '\t' || c = '\n' || c = '\x0b' || c = '\x0c' || c = '\r'

/-- Value of a decimal digit character. -/
def digitVal (c : Char) : Nat := c.toNat - 48

/-- Accumulates the leading decimal digits of a string onto `acc`. -/
def atoi_digits (acc : Nat) : List Char → Nat
  | [] => acc
  | c :: cs => if c.isDigit then atoi_digits (10 * acc + digitVal c) cs else acc

/-- Saturation of an integer to the range of a 64-bit `long`: what `strtol` returns for a
value above `LONG_MAX` or below `LONG_MIN`. -/
def clampLong (x : Int) : Int :=
  if x > 9223372036854775807 then 9223372036854775807
  else if x < -9223372036854775808 then -9223372036854775808
  else x

/-- The C library's `atoi`, which is `(int) strtol(s, NULL, 10)`: leading white space, an
optional sign, then decimal digits up to the first other character.  `strtol` saturates a
value outside the range of `long` to `LONG_MAX` or `LONG_MIN`; the conversion to `int` keeps
the low 32 bits.  So a token of magnitude `2^63` or more reads as `-1` (positive) or `0`
(negative), and a smaller value outside the range of `int` is reduced to 32 bits. -/
def atoi (s : List Char) : Int :=
  match s.dropWhile isspace with
  | [] => 0
  | c :: cs =>
    if c = '-' then wrapInt32 (clampLong (-(atoi_digits 0 cs : Int)))
    else if c = '+' then wrapInt32 (clampLong (atoi_digits 0 cs : Int))
    else wrapInt32 (clampLong (atoi_digits 0 (c :: cs) : Int))

/-- The test `strcasecmp(a, b) == 0`: equality up to the case of ASCII letters. -/
def strcasecmp_eq (a b : List Char) : Bool :=
  a.map Char.toLower == b.map Char.toLower

/-- The C library's `strchr(s, c)` for `c` other than NUL: the text before the first `c` and
the text after it, or `none` (a `NULL` result) when `c` does not occur. -/
def strchr (c : Char) : List Char → Option (List Char × List Char)
  | [] => none
  | x :: xs =>
    if x = c then some ([], xs)
    else
      match strchr c xs with
      | none => none
      | some (before, after) => some (x :: before, after)

/-! ## Tokenizer (`read_token`) and `unquote` -/

/-- White space of the tokenizer: space, tab, CR, LF. -/
def isBlank (c : Char) : Bool :=
  c = ' ' || c = '\t' || c = '\r' || c = '\n'

/-- Result of `read_token`.  `token` is the string at the returned pointer.  `term` is the
character the call overwrote with NUL to end the token (`none` when the token ran up to the
end of the string and nothing was written), `gap` the white space skipped behind it and
`rest` the string `*str` points to on return.  The buffer behind the token start is thus
`token ++ [NUL] ++ gap ++ rest` when `term` is `some _`, and `token` alone otherwise. -/
structure Token where
  token : List Char
  term : Option Char
  gap : List Char
  rest : List Char
deriving DecidableEq, Repr

/-- Loop of `read_token` over the inside of a quoted token: the characters passed over, and
the string left at the closing quote or at the end.  A backslash takes the following
character with it. -/
def scan_quoted : List Char → List Char × List Char
  | [] => ([], [])
  | c :: cs =>
    if c = '"' then ([], c :: cs)
    else if c = '\\' then
      match cs with
      | [] => ([c], [])
      | d :: ds =>
        let r := scan_quoted ds
        (c :: d :: r.1, r.2)
    else
      let r := scan_quoted cs
      (c :: r.1, r.2)

/-- Loop of `read_token` over an unquoted token: up to the next white space. -/
def scan_plain : List Char → List Char × List Char
  | [] => ([], [])
  | c :: cs =>
    if isBlank c then ([], c :: cs)
    else
      let r := scan_plain cs
      (c :: r.1, r.2)

/-- Leading white space of a string and what follows it. -/
def skip_blank : List Char → List Char × List Char
  | [] => ([], [])
  | c :: cs =>
    if isBlank c then
      let r := skip_blank cs
      (c :: r.1, r.2)
    else ([], c :: cs)

/-- Body of a token whose first character is `c`, followed by `cs` in the buffer: the
rest of the token and the string behind it. -/
def token_body (c : Char) (cs : List Char) : List Char × List Char :=
  if c = '"' then
    match scan_quoted cs with
    | (inner, []) => (inner, [])
    | (inner, q :: tl) => (inner ++ [q], tl)
  else scan_plain cs

/-- The tokenizer `read_token(&str)` on a non-`NULL` string: `none` when only white space is
left, else the next token with the state of the buffer behind it. -/
def read_token (str : List Char) : Option Token :=
  match (skip_blank str).2 with
  | [] => none
  | c :: cs =>
    match token_body c cs with
    | (body, []) => some ⟨c :: body, none, [], []⟩
    | (body, t :: tl) => some ⟨c :: body, some t, (skip_blank tl).1, (skip_blank tl).2⟩

/-- Loop of `unquote`: copies up to the next unescaped quote, dropping each escaping
backslash. -/
def unquote_loop : List Char → List Char
  | [] => []
  | c :: cs =>
    if c = '"' then []
    else if c = '\\' then
      match cs with
      | [] => []
      | d :: ds => d :: unquote_loop ds
    else c :: unquote_loop cs

/-- The unquoter `unquote(quoted)`: `NULL` for `NULL`, else the string with one leading
quote removed, cut at the next unescaped quote and with the escapes resolved. -/
def unquote (quoted : Option (List Char)) : Option (List Char) :=
  match quoted with
  | none => none
  | some [] => some []
  | some (c :: cs) => if c = '"' then some (unquote_loop cs) else some (unquote_loop (c :: cs))

/-! ## Records -/

/-- Modelled from the spec: `struct media_file_info` (`MP3FILE`), declared in `db.h`, which
is not among the sources.  The fields are the ones `scan-cue.c` names.  String fields are
`char *` (`none` is `NULL`).  `year`, `track` and `total_tracks` are the unsigned 32-bit
fields the source reaches through `uint32_t *`.  The spec gives the timing fields and the
sample rate no width: they are integers and arithmetic on them is exact. -/
structure MP3FILE where
  title : Option (List Char) := none
  artist : Option (List Char) := none
  album : Option (List Char) := none
  album_artist : Option (List Char) := none
  genre : Option (List Char) := none
  comment : Option (List Char) := none
  composer : Option (List Char) := none
  year : Nat := 0
  track : Nat := 0
  total_tracks : Nat := 0
  samplerate : Int := 0
  song_length : Int := 0
  sample_count : Int := 0
  sample_offset : Int := 0
  subtrack : Nat := 0
  disabled : Nat := 0
deriving DecidableEq, Repr

/-- A record after `memset(..., 0, sizeof(MP3FILE))`. -/
def MP3FILE.zero : MP3FILE := {}

/-- Conversion of an `int` to an unsigned 32-bit field. -/
def toUInt32 (x : Int) : Nat := (x % 4294967296).toNat

/-- Entry `cuesheet_tracks[i]`, `none` when `i` is outside the table. -/
def getTrack (cuesheet_tracks : List MP3FILE) (i : Int) : Option MP3FILE :=
  if 0 ≤ i then cuesheet_tracks[i.toNat]? else none

/-- Store into `cuesheet_tracks[i]`, for `i` inside the table. -/
def setTrack (cuesheet_tracks : List MP3FILE) (i : Int) (r : MP3FILE) : List MP3FILE :=
  cuesheet_tracks.set i.toNat r

/-- Read-modify-write of `cuesheet_tracks[i]`: `none` when `i` is outside the table. -/
def updTrack (cuesheet_tracks : List MP3FILE) (i : Int) (f : MP3FILE → MP3FILE) :
    Option (List MP3FILE) :=
  match getTrack cuesheet_tracks i with
  | none => none
  | some r => some (setTrack cuesheet_tracks i (f r))

/-! ## Timecode resolver -/

/-- The function `msf_to_sample_offset(msf, pmp3, cuesheet_track)`: the track record after the call.
`frame` is computed in `int`.  The scaled offset, which the source computes in 64 bits,
is computed exactly. -/
def msf_to_sample_offset (msf : List Char) (pmp3 : MP3FILE) (cuesheet_track : MP3FILE) :
    MP3FILE :=
  match strchr ':' msf with
  | none => cuesheet_track
  | some (m, start) =>
    let minute := atoi m
    match strchr ':' start with
    | none => cuesheet_track
    | some (s, start) =>
      let second := atoi s
      let frame := atoi start
      let frame :=
        wrapInt32 (wrapInt32 (wrapInt32 (wrapInt32 (minute * 60) + second) * 75) + frame)
      if pmp3.samplerate > 0 then
        { cuesheet_track with sample_offset := Int.tdiv (pmp3.samplerate * frame) 75 }
      else
        { cuesheet_track with sample_offset := frame }

/-! ## Metadata key tables -/

/-- String fields of a record a key table entry can address. -/
inductive StrField where
  | title | artist | album | album_artist | genre | comment | composer
deriving DecidableEq, Repr

/-- Unsigned 32-bit fields of a record a key table entry can address. -/
inductive IntField where
  | year | track | total_tracks
deriving DecidableEq, Repr

/-- The field an entry assigns: the members `as_int` and `offset` of `struct metadata_map`
taken together (`str` for `as_int == 0`, `int` otherwise). -/
inductive FieldRef where
  | str (f : StrField)
  | int (f : IntField)
deriving DecidableEq, Repr

/-- Value of a string field. -/
def MP3FILE.getStr (r : MP3FILE) : StrField → Option (List Char)
  | .title => r.title
  | .artist => r.artist
  | .album => r.album
  | .album_artist => r.album_artist
  | .genre => r.genre
  | .comment => r.comment
  | .composer => r.composer

/-- Store of a string (`strdup`) into a string field. -/
def MP3FILE.setStr (r : MP3FILE) (f : StrField) (v : List Char) : MP3FILE :=
  match f with
  | .title => { r with title := some v }
  | .artist => { r with artist := some v }
  | .album => { r with album := some v }
  | .album_artist => { r with album_artist := some v }
  | .genre => { r with genre := some v }
  | .comment => { r with comment := some v }
  | .composer => { r with composer := some v }

/-- Value of an unsigned 32-bit field. -/
def MP3FILE.getInt (r : MP3FILE) : IntField → Nat
  | .year => r.year
  | .track => r.track
  | .total_tracks => r.total_tracks

/-- Store into an unsigned 32-bit field. -/
def MP3FILE.setInt (r : MP3FILE) (f : IntField) (v : Nat) : MP3FILE :=
  match f with
  | .year => { r with year := v }
  | .track => { r with track := v }
  | .total_tracks => { r with total_tracks := v }

/-- Entry of a key table (`struct metadata_map`).  A handler receives the record and the
value string (possibly `NULL`) and yields the record it leaves. -/
structure metadata_map where
  key : List Char
  field : FieldRef
  handler_function : Option (MP3FILE → Option (List Char) → MP3FILE)

/-- Modelled from the spec: the key tables `md_map_generic` and `md_map_vorbis` (declared
`extern`) and `safe_atou32` (from `misc.h`), none of which is defined among the sources.
The tables are lists without the closing `NULL` entry.  `safe_atou32 s` is `some v` when
the call stores `v` and `none` when it fails and stores nothing. -/
structure Env where
  md_map_generic : List metadata_map
  md_map_vorbis : List metadata_map
  safe_atou32 : List Char → Option Nat

/-- Write-once string assignment `if (*strval == NULL) *strval = strdup(val);`. -/
def assign_str (r : MP3FILE) (f : StrField) (val : Option (List Char)) : Option MP3FILE :=
  match r.getStr f with
  | some _ => some r
  | none =>
    match val with
    | none => none
    | some v => some (r.setStr f v)

/-- Write-once integer assignment `if (*intval == 0) safe_atou32(val, intval);`. -/
def assign_int (env : Env) (r : MP3FILE) (f : IntField) (val : Option (List Char)) :
    Option MP3FILE :=
  if r.getInt f = 0 then
    match val with
    | none => none
    | some v =>
      match env.safe_atou32 v with
      | none => some r
      | some n => some (r.setInt f n)
  else some r

/-- Body of a key loop once an entry matches: the handler if there is one, else the typed
write-once assignment, of `sval` to a string field or of `ival` to an integer field. -/
def apply_entry (env : Env) (e : metadata_map) (r : MP3FILE)
    (sval ival : Option (List Char)) : Option MP3FILE :=
  match e.handler_function with
  | some h => some (h r sval)
  | none =>
    match e.field with
    | .str f => assign_str r f sval
    | .int f => assign_int env r f ival

/-- One key loop `for (i = 0; map[i].key != NULL; i++)` over a table: the first entry whose
key matches is applied to `cuesheet_tracks[track - 1]` and ends the loop. -/
def key_loop (env : Env) (key : List Char) (sval ival : Option (List Char)) (track : Int)
    (cuesheet_tracks : List MP3FILE) : List metadata_map → Option (List MP3FILE)
  | [] => some cuesheet_tracks
  | e :: es =>
    if strcasecmp_eq e.key key then
      match getTrack cuesheet_tracks (track - 1) with
      | none => none
      | some r =>
        match apply_entry env e r sval ival with
        | none => none
        | some r1 => some (setTrack cuesheet_tracks (track - 1) r1)
    else key_loop env key sval ival track cuesheet_tracks es

/-- The two key loops in the order of the source: `md_map_generic`, then `md_map_vorbis`.
The integer assignment of the second loop reads `ival2`. -/
def resolve_key (env : Env) (key : List Char) (sval ival ival2 : Option (List Char))
    (track : Int) (cuesheet_tracks : List MP3FILE) : Option (List MP3FILE) :=
  match key_loop env key sval ival track cuesheet_tracks env.md_map_generic with
  | none => none
  | some ts => key_loop env key sval ival2 track ts env.md_map_vorbis

/-! ## Directive dispatcher (`parse_cuesheet`) -/

/-- State of the line loop of `parse_cuesheet`: the locals `track` and `index`, the track
table (whose length is the local `tracks`) and the album record `*pmp3`. -/
structure ParseState where
  track : Int
  index : Int
  cuesheet_tracks : List MP3FILE
  pmp3 : MP3FILE
deriving DecidableEq, Repr

/-- The test of the `for` loops over a token: every character is in `A`..`Z`. -/
def all_caps (val : List Char) : Bool :=
  val.all (fun c => decide ('A' ≤ c) && decide (c ≤ 'Z'))

/-- The `FLAGS` loop: reads tokens until one is `DATA` while a track is current.  `fuel`
bounds the number of tokens read. -/
def flags_loop (track : Int) (cuesheet_tracks : List MP3FILE) :
    Nat → List Char → Option (List MP3FILE)
  | 0, _ => some cuesheet_tracks
  | fuel + 1, line =>
    match read_token line with
    | none => some cuesheet_tracks
    | some t =>
      if strcasecmp_eq t.token "data".toList && decide (track ≠ 0) then
        updTrack cuesheet_tracks (track - 1) (fun r => { r with disabled := 1 })
      else flags_loop track cuesheet_tracks fuel t.rest

/-- Branch `FLAGS`. -/
def do_flags (line : List Char) (st : ParseState) : Option ParseState :=
  match flags_loop st.track st.cuesheet_tracks (line.length + 1) line with
  | none => none
  | some ts => some { st with cuesheet_tracks := ts }

/-- Duration of a track from its sample count, as both the `INDEX` branch and the end of
`parse_cuesheet` derive it. -/
def set_length (pmp3 : MP3FILE) (r : MP3FILE) : MP3FILE :=
  if pmp3.samplerate > 0 then
    { r with song_length := Int.tdiv (r.sample_count * 1000) pmp3.samplerate }
  else r

/-- Branch `INDEX`.  The second token is read over the first before `atoi` sees it. -/
def do_index (line : List Char) (st : ParseState) : Option ParseState :=
  if st.track ≠ 0 ∧ st.index = 0 then
    match read_token line with
    | none => some st
    | some t1 =>
      match read_token t1.rest with
      | none => none
      | some t2 =>
        if atoi t2.token = 1 then
          match read_token t2.rest with
          | none => some { st with index := 1 }
          | some t3 =>
            match getTrack st.cuesheet_tracks (st.track - 1) with
            | none => none
            | some cur =>
              let cur := msf_to_sample_offset t3.token st.pmp3 { cur with subtrack := 1 }
              let ts := setTrack st.cuesheet_tracks (st.track - 1) cur
              if st.track > 1 then
                match getTrack ts (st.track - 2) with
                | none => none
                | some prev =>
                  let prev :=
                    { prev with sample_count := cur.sample_offset - prev.sample_offset }
                  let ts2 := setTrack ts (st.track - 2) (set_length st.pmp3 prev)
                  some { st with index := 1, cuesheet_tracks := ts2 }
              else some { st with index := 1, cuesheet_tracks := ts }
        else some st
  else some st

/-- Write-once store of a non-`NULL` string: `if (*strval == NULL) *strval = strdup(val);`. -/
def strdup_once (r : MP3FILE) (f : StrField) (val : List Char) : MP3FILE :=
  match r.getStr f with
  | some _ => r
  | none => r.setStr f val

/-- Branch `PERFORMER`. -/
def do_performer (line : List Char) (st : ParseState) : Option ParseState :=
  match unquote ((read_token line).map Token.token) with
  | none => some st
  | some val =>
    if st.track ≠ 0 then
      match updTrack st.cuesheet_tracks (st.track - 1)
          (fun r => strdup_once r StrField.artist val) with
      | none => none
      | some ts => some { st with cuesheet_tracks := ts }
    else
      let p := strdup_once st.pmp3 StrField.artist val
      some { st with pmp3 := strdup_once p StrField.album_artist val }

/-- Branch `SONGWRITER`. -/
def do_songwriter (line : List Char) (st : ParseState) : Option ParseState :=
  match unquote ((read_token line).map Token.token) with
  | none => some st
  | some val =>
    if st.track ≠ 0 then
      match updTrack st.cuesheet_tracks (st.track - 1)
          (fun r => strdup_once r StrField.composer val) with
      | none => none
      | some ts => some { st with cuesheet_tracks := ts }
    else
      some { st with pmp3 := strdup_once st.pmp3 StrField.composer val }

/-- Branch `TITLE`. -/
def do_title (line : List Char) (st : ParseState) : Option ParseState :=
  match unquote ((read_token line).map Token.token) with
  | none => some st
  | some val =>
    if st.track ≠ 0 then
      match updTrack st.cuesheet_tracks (st.track - 1)
          (fun r => strdup_once r StrField.title val) with
      | none => none
      | some ts => some { st with cuesheet_tracks := ts }
    else
      some { st with pmp3 := strdup_once st.pmp3 StrField.album val }

/-- The table after `if (track > tracks) { realloc; memset of the new entries }`: the old
table, followed by all-zero records up to `track` entries when `track` exceeds its length. -/
def grown (ts : List MP3FILE) (track : Int) : List MP3FILE :=
  if track > (ts.length : Int) then
    ts ++ List.replicate (track.toNat - ts.length) MP3FILE.zero
  else ts

/-- Branch `TRACK`. -/
def do_track (line : List Char) (st : ParseState) : Option ParseState :=
  match read_token line with
  | none => some st
  | some t =>
    let track := atoi t.token
    let ts := grown st.cuesheet_tracks track
    match getTrack ts (track - 1) with
    | none => none
    | some r =>
      let r1 := if r.track = 0 then { r with track := toUInt32 track } else r
      let ts1 := setTrack ts (track - 1) r1
      some { st with track := track, index := 0, cuesheet_tracks := ts1 }

/-- Write-once store of the rest of the line into a string field of the current track or,
in album scope, of the album record (`REM COMMENT`, `REM GENRE`). -/
def rem_text (f : StrField) (line : List Char) (st : ParseState) : Option ParseState :=
  if st.track ≠ 0 then
    match updTrack st.cuesheet_tracks (st.track - 1) (fun r => strdup_once r f line) with
    | none => none
    | some ts => some { st with cuesheet_tracks := ts }
  else
    some { st with pmp3 := strdup_once st.pmp3 f line }

/-- Write-once store `if (*intval == 0) safe_atou32(line, intval);` into `year`. -/
def year_once (env : Env) (r : MP3FILE) (line : List Char) : MP3FILE :=
  if r.year = 0 then
    match env.safe_atou32 line with
    | none => r
    | some n => { r with year := n }
  else r

/-- Branch `REM DATE`. -/
def rem_date (env : Env) (line : List Char) (st : ParseState) : Option ParseState :=
  if st.track ≠ 0 then
    match updTrack st.cuesheet_tracks (st.track - 1) (fun r => year_once env r line) with
    | none => none
    | some ts => some { st with cuesheet_tracks := ts }
  else
    some { st with pmp3 := year_once env st.pmp3 line }

/-- Key loop of a free-form `REM`: appends each further all-capitals token to `key` behind
a space and stops at the first other token, which it returns (`none` at the end of the
line).  `fuel` bounds the number of tokens read. -/
def rem_key_loop : Nat → List Char → List Char → List Char × Option Token
  | 0, key, _ => (key, none)
  | fuel + 1, key, line =>
    match read_token line with
    | none => (key, none)
    | some t =>
      if all_caps t.token then rem_key_loop fuel (key ++ ' ' :: t.token) t.rest
      else (key, some t)

/-- The string at `val` after `val[strlen(val)] = ' '`.  The space replaces the terminator
of the token.  When `read_token` wrote that terminator, the string runs on over the skipped
white space to the end of the line; when the token ended the line, the terminator is the
one that replaced the newline, and the string runs on over `after`, the text of the buffer
behind this line. -/
def resplice (t : Token) (after : List Char) : List Char :=
  match t.term with
  | some _ => t.token ++ ' ' :: (t.gap ++ t.rest)
  | none => t.token ++ ' ' :: after

/-- A free-form `REM` key: the key loop, the re-spliced value and the two table loops. -/
def rem_freeform (env : Env) (val line after : List Char) (st : ParseState) :
    Option ParseState :=
  let r := rem_key_loop (line.length + 1) val line
  let v := r.2.map (fun t => resplice t after)
  match resolve_key env r.1 v v v st.track st.cuesheet_tracks with
  | none => none
  | some ts => some { st with cuesheet_tracks := ts }

/-- The scan `for (c = val; *c != '\0'; c++)` of the quoted `REM` key for a quote not
behind a backslash: the string at `c` when the scan stops at a quote, `none` when it runs
to the end. -/
def find_quote : List Char → Option (List Char)
  | [] => none
  | c :: cs =>
    if c = '\\' then
      match cs with
      | [] => none
      | _ :: ds => find_quote ds
    else if c = '"' then some (c :: cs)
    else find_quote cs

/-- A `REM` whose first token starts with a quote.  The scan starts at the opening quote
itself.  The integer assignment of the second table loop reads the key, as line 511 of the
source does. -/
def rem_quoted (env : Env) (val : List Char) (st : ParseState) : Option ParseState :=
  match find_quote val with
  | some (_ :: x :: tail) =>
    if x = ' ' ∨ x = '=' then
      let key := unquote (some (val.take (val.length - (tail.length + 1))))
      match resolve_key env (key.getD []) (some tail) (some tail) key
          st.track st.cuesheet_tracks with
      | none => none
      | some ts => some { st with cuesheet_tracks := ts }
    else some st
  | _ => some st

/-- Branch `REM`. -/
def do_rem (env : Env) (line after : List Char) (st : ParseState) : Option ParseState :=
  match read_token line with
  | none => some st
  | some t =>
    if all_caps t.token then
      if strcasecmp_eq t.token "comment".toList then rem_text StrField.comment t.rest st
      else if strcasecmp_eq t.token "date".toList then rem_date env t.rest st
      else if strcasecmp_eq t.token "discid".toList then some st
      else if strcasecmp_eq t.token "genre".toList then rem_text StrField.genre t.rest st
      else rem_freeform env t.token t.rest after st
    else if t.token.head? = some '"' then rem_quoted env t.token st
    else some st

/-- Body of the line loop of `parse_cuesheet` for one line: `line` is the text before the
newline, `after` the text of the buffer behind the newline. -/
def parse_line (env : Env) (line after : List Char) (st : ParseState) : Option ParseState :=
  match read_token line with
  | none => some st
  | some d =>
    if strcasecmp_eq d.token "catalog".toList then some st
    else if strcasecmp_eq d.token "cdtextfile".toList then some st
    else if strcasecmp_eq d.token "file".toList then some st
    else if strcasecmp_eq d.token "flags".toList then do_flags d.rest st
    else if strcasecmp_eq d.token "index".toList then do_index d.rest st
    else if strcasecmp_eq d.token "isrc".toList then some st
    else if strcasecmp_eq d.token "performer".toList then do_performer d.rest st
    else if strcasecmp_eq d.token "postgap".toList then some st
    else if strcasecmp_eq d.token "pregap".toList then some st
    else if strcasecmp_eq d.token "rem".toList then do_rem env d.rest after st
    else if strcasecmp_eq d.token "songwriter".toList then do_songwriter d.rest st
    else if strcasecmp_eq d.token "title".toList then do_title d.rest st
    else if strcasecmp_eq d.token "track".toList then do_track d.rest st
    else some st

/-- The lines the loop `while ((end = strchr(line, '\n')) != NULL)` visits: each
newline-terminated line with the text behind its newline.  Text behind the last newline is
not a line. -/
def cut_lines : List Char → List (List Char × List Char)
  | [] => []
  | c :: cs =>
    if c = '\n' then ([], cs) :: cut_lines cs
    else
      match cut_lines cs with
      | [] => []
      | (l, after) :: more => (c :: l, after) :: more

/-- The line loop over a list of lines. -/
def parse_lines (env : Env) : List (List Char × List Char) → ParseState → Option ParseState
  | [], st => some st
  | (line, after) :: more, st =>
    match parse_line env line after st with
    | none => none
    | some st1 => parse_lines env more st1

/-- What `parse_cuesheet` hands back: the returned count, the track table stored in
`pmp3->cuesheet_tracks`, and the album record. -/
structure ParseResult where
  ret : Int
  cuesheet_tracks : List MP3FILE
  pmp3 : MP3FILE
deriving DecidableEq, Repr

/-- End of `parse_cuesheet`, behind the line loop: stores `total_tracks`, fixes the sample
count of track `track` and returns `track`. -/
def finish (st : ParseState) : Option ParseResult :=
  let pmp3 := { st.pmp3 with total_tracks := toUInt32 st.track }
  if pmp3.sample_count > 0 then
    match getTrack st.cuesheet_tracks (st.track - 1) with
    | none => none
    | some r =>
      let r1 := { r with sample_count := pmp3.sample_count - r.sample_offset }
      some ⟨st.track, setTrack st.cuesheet_tracks (st.track - 1) (set_length pmp3 r1), pmp3⟩
  else some ⟨st.track, st.cuesheet_tracks, pmp3⟩

/-- The function `parse_cuesheet(cuesheet, tracks, cuesheet_tracks, pmp3)`, where `tracks` is the
length of the table passed in. -/
def parse_cuesheet (env : Env) (cuesheet : List Char) (cuesheet_tracks : List MP3FILE)
    (pmp3 : MP3FILE) : Option ParseResult :=
  match parse_lines env (cut_lines cuesheet) ⟨0, 0, cuesheet_tracks, pmp3⟩ with
  | none => none
  | some st => finish st

/-! ## Texts and records used in the statements -/

/-- A string with a backslash put before each double quote and each backslash. -/
def quote_escape : List Char → List Char
  | [] => []
  | c :: cs =>
    if c = '"' ∨ c = '\\' then '\\' :: c :: quote_escape cs else c :: quote_escape cs

/-- Decimal value of a string of digits, most significant digit first. -/
def decimal (s : List Char) : Nat :=
  Nat.ofDigits 10 (s.reverse.map digitVal)

/-- Number of a `TRACK` line: the `atoi` of the token behind the directive.  `none` for a
line that is not a `TRACK` directive with an argument. -/
def track_number (line : List Char) : Option Int :=
  match read_token line with
  | none => none
  | some d =>
    if strcasecmp_eq d.token "track".toList then
      (read_token d.rest).map (fun t => atoi t.token)
    else none

/-- Numbers of the `TRACK` lines of a cuesheet, in the order of the text. -/
def track_numbers (cuesheet : List Char) : List Int :=
  (cut_lines cuesheet).filterMap (fun l => track_number l.1)

/-- The cuesheet of the end-to-end scenario. -/
def cue_scenario : List Char :=
  ("TITLE \"Album\"\nPERFORMER \"Artist\"\n" ++
   "TRACK 01 AUDIO\nTITLE \"Song One\"\nINDEX 01 00:00:00\n" ++
   "TRACK 02 AUDIO\nTITLE \"Song Two\"\nINDEX 01 03:00:00\n").toList

/-- An album record of 6 minutes at 44100 samples per second. -/
def album_scenario : MP3FILE :=
  { samplerate := 44100, sample_count := 15876000 }

/-- Key tables with direct assignments only, and a reader of unsigned decimal numbers. -/
def env_direct : Env where
  md_map_generic :=
    [⟨"title".toList, FieldRef.str StrField.title, none⟩,
     ⟨"artist".toList, FieldRef.str StrField.artist, none⟩,
     ⟨"year".toList, FieldRef.int IntField.year, none⟩]
  md_map_vorbis :=
    [⟨"albumartist".toList, FieldRef.str StrField.album_artist, none⟩]
  safe_atou32 := fun s =>
    if s ≠ [] ∧ s.all Char.isDigit ∧ decimal s < 4294967296 then some (decimal s) else none

/-! ## Relations and predicates used in the statements and proofs -/

/-- A table related to a later one: the later one is at least as long, and every entry of
the earlier one is related by `R` to the entry at the same place. -/
def TableRel (R : MP3FILE → MP3FILE → Prop) (ts ts1 : List MP3FILE) : Prop :=
  ts.length ≤ ts1.length ∧
    ∀ (i : Nat) (r : MP3FILE), ts[i]? = some r → ∃ r1, ts1[i]? = some r1 ∧ R r r1

/-- What a relation between records needs to hold across the writes to the album record. -/
structure AlbumRel (env : Env) (R : MP3FILE → MP3FILE → Prop) : Prop where
  refl : ∀ r, R r r
  trans : ∀ a b c, R a b → R b c → R a c
  strdup : ∀ r f v, R r (strdup_once r f v)
  year : ∀ r l, R r (year_once env r l)

/-- What a relation between records needs to hold across the writes to a track record. -/
structure TrackRel (env : Env) (R : MP3FILE → MP3FILE → Prop) extends AlbumRel env R : Prop where
  disabled : ∀ r, R r { r with disabled := 1 }
  index : ∀ r tok pmp3, R r (msf_to_sample_offset tok pmp3 { r with subtrack := 1 })
  count : ∀ r x pmp3, R r (set_length pmp3 { r with sample_count := x })
  track : ∀ r v, r.track = 0 → R r { r with track := v }
  entry : ∀ e, e ∈ env.md_map_generic ∨ e ∈ env.md_map_vorbis →
    ∀ r r1 sval ival, apply_entry env e r sval ival = some r1 → R r r1

/-- A line step relates the tables by `RT` and the album records by `RA`. -/
def StepRel (RT RA : MP3FILE → MP3FILE → Prop) (st st1 : ParseState) : Prop :=
  TableRel RT st.cuesheet_tracks st1.cuesheet_tracks ∧ RA st.pmp3 st1.pmp3

/-- The relation that holds between any two records. -/
def anyRel : MP3FILE → MP3FILE → Prop := fun _ _ => True

/-- Two records with the same sample rate and the same sample count. -/
def sameTiming (a b : MP3FILE) : Prop :=
  b.samplerate = a.samplerate ∧ b.sample_count = a.sample_count

/-- The current track is 0 or lies inside the table. -/
def TrackInTable (st : ParseState) : Prop :=
  st.track = 0 ∨ (1 ≤ st.track ∧ st.track ≤ st.cuesheet_tracks.length)

/-- Every descriptive field that is set in `a` (a string field that is not `NULL`, an
integer field that is not 0) has the same value in `b`. -/
def keeps (a b : MP3FILE) : Prop :=
  (∀ f v, a.getStr f = some v → b.getStr f = some v) ∧
  (∀ f, a.getInt f ≠ 0 → b.getInt f = a.getInt f)

/-- The tokens `read_token` yields from a line, one call after the other.  `fuel` bounds
their number. -/
def tokens : Nat → List Char → List (List Char)
  | 0, _ => []
  | fuel + 1, line =>
    match read_token line with
    | none => []
    | some t => t.token :: tokens fuel t.rest

/-- One of the tokens of the line is `DATA`, compared without regard to case. -/
def has_data (line : List Char) : Bool :=
  (tokens (line.length + 1) line).any (fun tok => strcasecmp_eq tok "data".toList)

/-! ## Embedded metadata (`scan_get_cuesheet`)

The function reads the metadata blocks of a FLAC file through the FLAC library.  The
embedding takes the decoded blocks as given: the entries of a comment block as strings, and
the tracks of a cue block with the fields the source reads. -/

/-- The test `strncasecmp(a, b, n) == 0`: equality of the first `n` characters up to the
case of ASCII letters. -/
def strncasecmp_eq (a b : List Char) (n : Nat) : Bool :=
  strcasecmp_eq (a.take n) (b.take n)

/-- One key loop of the comment scan (lines 680-715, and 716-751 for the second table): the
first entry whose key matches `name` grows the table to `track` entries if need be, is
applied to `cuesheet_tracks[track - 1]` with the value `val`, and ends the loop. -/
def cue_track_loop (env : Env) (name val : List Char) (track : Int)
    (cuesheet_tracks : List MP3FILE) : List metadata_map → Option (List MP3FILE)
  | [] => some cuesheet_tracks
  | e :: es =>
    if strcasecmp_eq e.key name then
      let ts := grown cuesheet_tracks track
      match getTrack ts (track - 1) with
      | none => none
      | some r =>
        match apply_entry env e r (some val) (some val) with
        | none => none
        | some r1 => some (setTrack ts (track - 1) r1)
    else cue_track_loop env name val track cuesheet_tracks es

/-- The locals of `scan_get_cuesheet` the comment scan works on: the track table (whose
length is the local `tracks`) and the text of an embedded cuesheet (`NULL` at first). -/
structure ScanState where
  cuesheet_tracks : List MP3FILE
  cuesheet : Option (List Char)
deriving DecidableEq, Repr

/-- Body of the loop over the entries of a comment block (lines 650-759) for one entry. -/
def scan_comment (env : Env) (entry : List Char) (st : ScanState) : Option ScanState :=
  if strncasecmp_eq "cue_track".toList entry 9 then
    let trackStr := entry.drop 9
    let digits := trackStr.takeWhile (fun c => decide ('0' ≤ c) && decide (c ≤ '9'))
    let name := trackStr.dropWhile (fun c => decide ('0' ≤ c) && decide (c ≤ '9'))
    match name with
    | [] => some st
    | c :: name1 =>
      if c ≠ '_' ∨ digits = [] then some st
      else
        let track := atoi digits
        match strchr '=' name1 with
        | none => some st
        | some (tag, val) =>
          if tag = [] then some st
          else
            match cue_track_loop env tag val track st.cuesheet_tracks env.md_map_generic with
            | none => none
            | some ts =>
              match cue_track_loop env tag val track ts env.md_map_vorbis with
              | none => none
              | some ts1 => some { st with cuesheet_tracks := ts1 }
  else if strncasecmp_eq "cuesheet".toList entry 8 then
    if entry[8]? = some '=' then some { st with cuesheet := some (entry.drop 9) }
    else some st
  else some st

/-- The loop over the entries of a comment block. -/
def scan_comments (env : Env) : List (List Char) → ScanState → Option ScanState
  | [], st => some st
  | entry :: more, st =>
    match scan_comment env entry st with
    | none => none
    | some st1 => scan_comments env more st1

/-- An index point of a track of a cue block (`FLAC__StreamMetadata_CueSheet_Index`). -/
structure CueIndex where
  offset : Nat
  number : Nat
deriving DecidableEq, Repr

/-- A track of a cue block (`FLAC__StreamMetadata_CueSheet_Track`), with the fields the
source reads: the offset, the type flag (1 for a track that is not audio) and the index
points. -/
structure CueTrack where
  offset : Nat
  type : Nat
  indices : List CueIndex
deriving DecidableEq, Repr

/-- The loop `for (j = 0; j < cue_track->num_indices; j++)`: the offset of the first index
point whose number is 1, or 0 when there is none. -/
def index_one_offset : List CueIndex → Nat
  | [] => 0
  | x :: xs => if x.number = 1 then x.offset else index_one_offset xs

/-- The offset the cue-block scan stores for a track: the offset of the track plus the
offset of its index point number 1. -/
def stored_offset (c : CueTrack) : Int :=
  (c.offset : Int) + (index_one_offset c.indices : Int)

/-- The loop `for (i = 0; i < num_tracks; i++)` over the tracks of a cue block (lines
781-814), from track `i` on, with `prev_offset` as it stands.  The last track of the block
is the lead-out. -/
def cue_block_loop (pmp3 : MP3FILE) :
    List CueTrack → Nat → Int → List MP3FILE → Option (List MP3FILE)
  | [], _, _, ts => some ts
  | [leadout], i, prev_offset, ts =>
    updTrack ts ((i : Int) - 1)
      (fun r => { r with sample_count := (leadout.offset : Int) - prev_offset })
  | c :: c1 :: more, i, prev_offset, ts =>
    match getTrack ts i with
    | none => none
    | some r =>
      let r1 := if r.track = 0 then { r with track := i + 1 } else r
      let r2 := { r1 with subtrack := 1, sample_offset := stored_offset c }
      let ts1 := setTrack ts i r2
      let prev :=
        if i ≠ 0 then
          updTrack ts1 ((i : Int) - 1)
            (fun p => set_length pmp3
              { p with sample_count := r2.sample_offset - prev_offset })
        else some ts1
      match prev with
      | none => none
      | some ts2 =>
        if c.type = 1 then
          match updTrack ts2 i (fun r => { r with disabled := 1 }) with
          | none => none
          | some ts3 => cue_block_loop pmp3 (c1 :: more) (i + 1) prev_offset ts3
        else cue_block_loop pmp3 (c1 :: more) (i + 1) r2.sample_offset ts2

/-- The scan of a cue block (lines 763-817): the table grown to the number of tracks of the
block less one, then the loop over the tracks.  A block without any track has no defined
result (`num_tracks - 1` is then the largest unsigned number). -/
def scan_cue_block (pmp3 : MP3FILE) (block : List CueTrack) (cuesheet_tracks : List MP3FILE) :
    Option (List MP3FILE) :=
  match block with
  | [] => none
  | _ :: _ =>
    cue_block_loop pmp3 block 0 0 (grown cuesheet_tracks ((block.length : Int) - 1))

/-- The first entry of a key table whose key matches `key` without regard to case. -/
def first_match (tbl : List metadata_map) (key : List Char) : Option metadata_map :=
  tbl.find? (fun e => strcasecmp_eq e.key key)

/-- Application of one entry, if any, to `cuesheet_tracks[track - 1]`. -/
def apply_match (env : Env) (m : Option metadata_map) (sval ival : Option (List Char))
    (track : Int) (cuesheet_tracks : List MP3FILE) : Option (List MP3FILE) :=
  match m with
  | none => some cuesheet_tracks
  | some e =>
    match getTrack cuesheet_tracks (track - 1) with
    | none => none
    | some r =>
      match apply_entry env e r sval ival with
      | none => none
      | some r1 => some (setTrack cuesheet_tracks (track - 1) r1)

/-- Key tables in which the key `artist` occurs in both: the generic table assigns it to
the artist, the format-specific table to the album artist. -/
def env_both : Env where
  md_map_generic := [⟨"artist".toList, FieldRef.str StrField.artist, none⟩]
  md_map_vorbis := [⟨"artist".toList, FieldRef.str StrField.album_artist, none⟩]
  safe_atou32 := fun _ => none

/-- The value of `prev_offset` after the cue-block loop has gone over the tracks `cs`,
starting from `prev`: the offset stored for the last of them that is audio, or `prev` when
none is. -/
def last_audio (prev : Int) : List CueTrack → Int
  | [] => prev
  | c :: cs => last_audio (if c.type = 1 then prev else stored_offset c) cs

/-- A cue block with an audio track, a track that is not audio, an audio track and the
lead-out. -/
def block_mixed : List CueTrack :=
  [⟨0, 0, []⟩, ⟨1000, 1, []⟩, ⟨2000, 0, [⟨0, 0⟩, ⟨500, 1⟩]⟩, ⟨4000, 0, []⟩]

/-- The offset that ends track `k` of the real tracks `cs` of a cue block: the offset stored
for the next track or, for the last one, the offset of the lead-out. -/
def next_offset (cs : List CueTrack) (leadout : CueTrack) (k : Nat) : Int :=
  match cs[k + 1]? with
  | some c => stored_offset c
  | none => (leadout.offset : Int)

/-- The directives `parse_cuesheet` recognises, in lower case. -/
def directives : List (List Char) :=
  ["catalog", "cdtextfile", "file", "flags", "index", "isrc", "performer", "postgap",
   "pregap", "rem", "songwriter", "title", "track"].map String.toList

/-! ## Accesses to the track table

The entries of the track table `parse_cuesheet` goes to, in the order of the source.  Each
function follows the branch of the same name above and lists, in place of the effect of a
store or load `cuesheet_tracks[i]`, the index `i` with the number of entries the table has
at that moment. -/

/-- An access `cuesheet_tracks[index]` made while the table has `tracks` entries. -/
structure Access where
  index : Int
  tracks : Nat
deriving DecidableEq, Repr

/-- The index of an access lies inside the table. -/
def Access.in_table (a : Access) : Bool :=
  decide (0 ≤ a.index) && decide (a.index < (a.tracks : Int))

/-- The access `cuesheet_tracks[track - 1]` behind the test `if (track)`. -/
def current_entry (st : ParseState) : List Access :=
  if st.track ≠ 0 then [⟨st.track - 1, st.cuesheet_tracks.length⟩] else []

/-- Accesses of one key loop: `cuesheet_tracks[track - 1]` at the first entry whose key
matches, with no test of `track`. -/
def key_loop_accesses (key : List Char) (track : Int) (tracks : Nat) :
    List metadata_map → List Access
  | [] => []
  | e :: es =>
    if strcasecmp_eq e.key key then [⟨track - 1, tracks⟩]
    else key_loop_accesses key track tracks es

/-- Accesses of the two key loops. -/
def resolve_key_accesses (env : Env) (key : List Char) (track : Int) (tracks : Nat) :
    List Access :=
  key_loop_accesses key track tracks env.md_map_generic ++
    key_loop_accesses key track tracks env.md_map_vorbis

/-- Accesses of the `FLAGS` loop. -/
def flags_accesses (track : Int) (tracks : Nat) : Nat → List Char → List Access
  | 0, _ => []
  | fuel + 1, line =>
    match read_token line with
    | none => []
    | some t =>
      if strcasecmp_eq t.token "data".toList && decide (track ≠ 0) then [⟨track - 1, tracks⟩]
      else flags_accesses track tracks fuel t.rest

/-- Accesses of branch `INDEX`: entry `track - 1` and, for `track > 1`, entry `track - 2`. -/
def index_accesses (line : List Char) (st : ParseState) : List Access :=
  if st.track ≠ 0 ∧ st.index = 0 then
    match read_token line with
    | none => []
    | some t1 =>
      match read_token t1.rest with
      | none => []
      | some t2 =>
        if atoi t2.token = 1 then
          match read_token t2.rest with
          | none => []
          | some _ =>
            ⟨st.track - 1, st.cuesheet_tracks.length⟩ ::
              (if st.track > 1 then [⟨st.track - 2, st.cuesheet_tracks.length⟩] else [])
        else []
  else []

/-- Accesses of the branches `PERFORMER`, `SONGWRITER` and `TITLE`. -/
def text_accesses (line : List Char) (st : ParseState) : List Access :=
  match unquote ((read_token line).map Token.token) with
  | none => []
  | some _ => current_entry st

/-- Accesses of branch `TRACK`: when the table grows, the new entries `tracks`, ...,
`track - 1` that `memset` clears, then entry `track - 1` of the table, grown or not. -/
def track_accesses (line : List Char) (st : ParseState) : List Access :=
  match read_token line with
  | none => []
  | some t =>
    let track := atoi t.token
    let tracks := st.cuesheet_tracks.length
    let grown_tracks := (grown st.cuesheet_tracks track).length
    (if track > (tracks : Int) then
        (List.range' tracks (track.toNat - tracks)).map (fun i => ⟨(i : Int), grown_tracks⟩)
      else []) ++
      [⟨track - 1, grown_tracks⟩]

/-- Accesses of a `REM` with a quoted key. -/
def rem_quoted_accesses (env : Env) (val : List Char) (st : ParseState) : List Access :=
  match find_quote val with
  | some (_ :: x :: tail) =>
    if x = ' ' ∨ x = '=' then
      resolve_key_accesses env
        ((unquote (some (val.take (val.length - (tail.length + 1))))).getD [])
        st.track st.cuesheet_tracks.length
    else []
  | _ => []

/-- Accesses of branch `REM`. -/
def rem_accesses (env : Env) (line : List Char) (st : ParseState) : List Access :=
  match read_token line with
  | none => []
  | some t =>
    if all_caps t.token then
      if strcasecmp_eq t.token "comment".toList then current_entry st
      else if strcasecmp_eq t.token "date".toList then current_entry st
      else if strcasecmp_eq t.token "discid".toList then []
      else if strcasecmp_eq t.token "genre".toList then current_entry st
      else
        resolve_key_accesses env (rem_key_loop (t.rest.length + 1) t.token t.rest).1
          st.track st.cuesheet_tracks.length
    else if t.token.head? = some '"' then rem_quoted_accesses env t.token st
    else []

/-- Accesses of the body of the line loop for one line. -/
def line_accesses (env : Env) (line : List Char) (st : ParseState) : List Access :=
  match read_token line with
  | none => []
  | some d =>
    if strcasecmp_eq d.token "catalog".toList then []
    else if strcasecmp_eq d.token "cdtextfile".toList then []
    else if strcasecmp_eq d.token "file".toList then []
    else if strcasecmp_eq d.token "flags".toList then
      flags_accesses st.track st.cuesheet_tracks.length (d.rest.length + 1) d.rest
    else if strcasecmp_eq d.token "index".toList then index_accesses d.rest st
    else if strcasecmp_eq d.token "isrc".toList then []
    else if strcasecmp_eq d.token "performer".toList then text_accesses d.rest st
    else if strcasecmp_eq d.token "postgap".toList then []
    else if strcasecmp_eq d.token "pregap".toList then []
    else if strcasecmp_eq d.token "rem".toList then rem_accesses env d.rest st
    else if strcasecmp_eq d.token "songwriter".toList then text_accesses d.rest st
    else if strcasecmp_eq d.token "title".toList then text_accesses d.rest st
    else if strcasecmp_eq d.token "track".toList then track_accesses d.rest st
    else []

/-- Accesses of the end of `parse_cuesheet`: entry `track - 1`, with no test of `track`, when
the sample count of the album is `> 0`. -/
def finish_accesses (st : ParseState) : List Access :=
  if st.pmp3.sample_count > 0 then [⟨st.track - 1, st.cuesheet_tracks.length⟩] else []

/-- Accesses of the line loop over a list of lines, followed by those of the end of
`parse_cuesheet`.  The list ends with the accesses of a line that has no defined result. -/
def lines_accesses (env : Env) : List (List Char × List Char) → ParseState → List Access
  | [], st => finish_accesses st
  | (line, after) :: more, st =>
    line_accesses env line st ++
      match parse_line env line after st with
      | none => []
      | some st1 => lines_accesses env more st1

/-- Accesses of `parse_cuesheet(cuesheet, tracks, cuesheet_tracks, pmp3)`. -/
def parse_cuesheet_accesses (env : Env) (cuesheet : List Char) (cuesheet_tracks : List MP3FILE)
    (pmp3 : MP3FILE) : List Access :=
  lines_accesses env (cut_lines cuesheet) ⟨0, 0, cuesheet_tracks, pmp3⟩

/-! ## Kinds of `REM` lines -/

/-- The token behind the directive of a `REM` line: `none` for a line with another
directive and for a `REM` without a token behind it. -/
def rem_token (line : List Char) : Option (List Char) :=
  match read_token line with
  | none => none
  | some d =>
    if strcasecmp_eq d.token "rem".toList then (read_token d.rest).map Token.token else none

/-- The token is a free-form key: all capitals and none of `COMMENT`, `DATE`, `DISCID`,
`GENRE`. -/
def freeform_key (val : List Char) : Bool :=
  all_caps val && !strcasecmp_eq val "comment".toList && !strcasecmp_eq val "date".toList &&
    !strcasecmp_eq val "discid".toList && !strcasecmp_eq val "genre".toList

/-- The token is a quoted key: not all capitals and starting with a double quote. -/
def quoted_key (val : List Char) : Bool :=
  !all_caps val && decide (val.head? = some '"')

/-- The line is a `REM` line with a free-form key. -/
def freeform_rem (line : List Char) : Bool :=
  match rem_token line with
  | none => false
  | some val => freeform_key val

/-- The line is a `REM` line with a free-form or a quoted key. -/
def keyed_rem (line : List Char) : Bool :=
  match rem_token line with
  | none => false
  | some val => freeform_key val || quoted_key val

/-- No `REM` line with a free-form or quoted key stands before the first `TRACK` line that
carries a number. -/
def album_scope_plain : List (List Char) → Bool
  | [] => true
  | l :: more =>
    if (track_number l).isSome then true else !keyed_rem l && album_scope_plain more

/-- No branch of the line is handed a missing token: an `INDEX` line has no token or at
least two tokens behind the directive, and the key of a free-form `REM` line is followed by
a value. -/
def args_present (line : List Char) : Bool :=
  match read_token line with
  | none => true
  | some d =>
    if strcasecmp_eq d.token "index".toList then
      match read_token d.rest with
      | none => true
      | some t1 => (read_token t1.rest).isSome
    else if strcasecmp_eq d.token "rem".toList then
      match read_token d.rest with
      | none => true
      | some t =>
        !freeform_key t.token || (rem_key_loop (t.rest.length + 1) t.token t.rest).2.isSome
    else true

/-- Key tables in which the key `title` is a direct assignment to the title in the generic
table and has a handler in the format-specific table; the handler stores `handled` as the
title whatever the value. -/
def env_handler : Env where
  md_map_generic := [⟨"title".toList, FieldRef.str StrField.title, none⟩]
  md_map_vorbis :=
    [⟨"title".toList, FieldRef.str StrField.title,
      some (fun r _ => { r with title := some "handled".toList })⟩]
  safe_atou32 := fun _ => none

/-- Key tables in which the generic table holds the key `title` twice: first as a direct
assignment to the artist, then as a direct assignment to the title. -/
def env_shadow : Env where
  md_map_generic :=
    [⟨"title".toList, FieldRef.str StrField.artist, none⟩,
     ⟨"title".toList, FieldRef.str StrField.title, none⟩]
  md_map_vorbis := []
  safe_atou32 := fun _ => none

/-! ## Theorems -/

/-- C1 (evaluation).  On the cuesheet of the end-to-end scenario, from an empty table and a
6-minute album at 44100 Hz, `parse_cuesheet` returns 2 and a table of 2 entries, but no
`INDEX 01` line has taken effect: both tracks keep `subtrack` 0 and `sample_offset` 0,
track 1 keeps `sample_count` 0 and track 2 gets the whole album, 15876000 samples. -/
theorem parse_cuesheet_scenario (env : Env) :
    (parse_cuesheet env cue_scenario [] album_scenario).map
        (fun r => (r.ret, r.cuesheet_tracks.map
          (fun t => (t.subtrack, t.sample_offset, t.sample_count)))) =
      some (2, [(0, 0, 0), (0, 0, 15876000)]) := by
  rfl

/-- C7 (evaluation).  In the state `TRACK 1` leaves, the line `INDEX 01 00:02:00` changes
nothing: track 1 keeps `subtrack` 0 and `sample_offset` 0, although the timecode resolver
gives 88200 for `00:02:00` at 44100 Hz. -/
theorem index_01_no_effect (env : Env) :
    parse_line env "INDEX 01 00:02:00".toList []
        ⟨1, 0, [{ track := 1 }], { samplerate := 44100 }⟩ =
      some ⟨1, 0, [{ track := 1 }], { samplerate := 44100 }⟩ ∧
    (msf_to_sample_offset "00:02:00".toList { samplerate := 44100 }
        { track := 1, subtrack := 1 }).sample_offset = 88200 := by
  constructor
  · rfl
  · decide

/-- C8 (evaluation).  With track 2 current and no index seen, the pregap line
`INDEX 00 01:58:30` sets the seen-first-index flag: `atoi` is applied to the timecode, whose
minute is 1. -/
theorem index_00_sets_flag (env : Env) :
    parse_line env "INDEX 00 01:58:30".toList []
        ⟨2, 0, [{ track := 1 }, { track := 2 }], { samplerate := 44100 }⟩ =
      some ⟨2, 1, [{ track := 1 }, { track := 2 }], { samplerate := 44100 }⟩ := by
  rfl

/-- C10 (evaluation).  On `TRACK 05 AUDIO`, `TRACK 03 AUDIO`, from an empty table,
`parse_cuesheet` returns 3 and stores 3 in `total_tracks`, and hands back a table of 5
entries. -/
theorem parse_cuesheet_returns_last_track (env : Env) :
    (parse_cuesheet env "TRACK 05 AUDIO\nTRACK 03 AUDIO\n".toList [] {}).map
        (fun r => (r.ret, r.pmp3.total_tracks, r.cuesheet_tracks.length)) =
      some (3, 3, 5) := by
  rfl

theorem scan_quoted_cons (c : Char) (cs : List Char) :
    scan_quoted (c :: cs) =
      if c = '"' then ([], c :: cs)
      else if c = '\\' then
        match cs with
        | [] => ([c], [])
        | d :: ds => (c :: d :: (scan_quoted ds).1, (scan_quoted ds).2)
      else (c :: (scan_quoted cs).1, (scan_quoted cs).2) := by
  cases cs <;> simp [scan_quoted]

theorem unquote_loop_cons (c : Char) (cs : List Char) :
    unquote_loop (c :: cs) =
      if c = '"' then []
      else if c = '\\' then
        match cs with
        | [] => []
        | d :: ds => d :: unquote_loop ds
      else c :: unquote_loop cs := by
  cases cs <;> simp [unquote_loop]

theorem scan_quoted_escape (s tl : List Char) :
    scan_quoted (quote_escape s ++ '"' :: tl) = (quote_escape s, '"' :: tl) := by
  induction s with
  | nil => simp [quote_escape, scan_quoted_cons]
  | cons c cs ih =>
    by_cases h : c = '"' ∨ c = '\\'
    · simp only [quote_escape, if_pos h, List.cons_append, scan_quoted_cons, ih]
      simp
    · have h1 : c ≠ '"' := fun e => h (Or.inl e)
      have h2 : c ≠ '\\' := fun e => h (Or.inr e)
      simp [quote_escape, h, scan_quoted_cons, h1, h2, ih]

theorem unquote_loop_escape (s tl : List Char) :
    unquote_loop (quote_escape s ++ '"' :: tl) = s := by
  induction s with
  | nil => simp [quote_escape, unquote_loop_cons]
  | cons c cs ih =>
    by_cases h : c = '"' ∨ c = '\\'
    · simp only [quote_escape, if_pos h, List.cons_append, unquote_loop_cons, ih]
      simp
    · have h1 : c ≠ '"' := fun e => h (Or.inl e)
      have h2 : c ≠ '\\' := fun e => h (Or.inr e)
      simp [quote_escape, h, unquote_loop_cons, h1, h2, ih]

theorem skip_blank_of_head (r : List Char) (h : ∀ c, r.head? = some c → isBlank c = false) :
    skip_blank r = ([], r) := by
  cases r with
  | nil => rfl
  | cons c cs => simp [skip_blank, h c rfl]

/-- C6.  Quoted-token round trip: for every string `s` and every remainder `r` that does not
start with white space, `read_token` on the buffer made of a quote, `s` with its quotes and
backslashes escaped, a quote, one space and `r` returns a token whose `unquote` is `s`, and
leaves `r` as the remaining buffer. -/
theorem read_token_unquote_round_trip (s r : List Char)
    (hr : ∀ c, r.head? = some c → isBlank c = false) :
    ∃ t, read_token ('"' :: (quote_escape s ++ '"' :: ' ' :: r)) = some t ∧
      unquote (some t.token) = some s ∧ t.rest = r := by
  refine ⟨⟨'"' :: (quote_escape s ++ ['"']), some ' ', [], r⟩, ?_, ?_, rfl⟩
  · simp [read_token, skip_blank, isBlank, token_body, scan_quoted_escape,
      skip_blank_of_head r hr]
  · simp only [unquote]
    simpa using unquote_loop_escape s []

/-- Witness of C6 on the buffer `"a \"quoted\" value" rest`. -/
theorem read_token_unquote_round_trip_witness :
    (∀ c, "rest".toList.head? = some c → isBlank c = false) ∧
    ∃ t, read_token "\"a \\\"quoted\\\" value\" rest".toList = some t ∧
      unquote (some t.token) = some "a \"quoted\" value".toList ∧ t.rest = "rest".toList :=
  ⟨by decide,
    read_token_unquote_round_trip "a \"quoted\" value".toList "rest".toList (by decide)⟩

/-! ### Timecodes -/

theorem isDigit_ne {c d : Char} (hc : c.isDigit = true) (hd : d.isDigit = false) : c ≠ d := by
  intro e
  rw [e, hd] at hc
  exact Bool.noConfusion hc

theorem strchr_append (c : Char) (m rest : List Char) (h : ∀ x ∈ m, x ≠ c) :
    strchr c (m ++ c :: rest) = some (m, rest) := by
  induction m with
  | nil => simp [strchr]
  | cons x xs ih =>
    have hx : x ≠ c := h x (List.mem_cons_self _ _)
    have ih1 := ih (fun y hy => h y (List.mem_cons_of_mem _ hy))
    simp [strchr, hx, ih1]

theorem wrapInt32_of_range (x : Int) (h0 : -2147483648 ≤ x) (h1 : x < 2147483648) :
    wrapInt32 x = x := by
  unfold wrapInt32
  omega

theorem decimal_cons (c : Char) (cs : List Char) :
    decimal (c :: cs) = digitVal c * 10 ^ cs.length + decimal cs := by
  simp [decimal, Nat.ofDigits_append, Nat.ofDigits_singleton]
  ring

theorem atoi_digits_eq (m : List Char) (hm : ∀ c ∈ m, c.isDigit = true) (acc : Nat) :
    atoi_digits acc m = acc * 10 ^ m.length + decimal m := by
  induction m generalizing acc with
  | nil => simp [atoi_digits, decimal]
  | cons c cs ih =>
    have hc : c.isDigit = true := hm c (List.mem_cons_self _ _)
    have ih1 := ih (fun y hy => hm y (List.mem_cons_of_mem _ hy)) (10 * acc + digitVal c)
    simp only [atoi_digits, hc, if_true, ih1, decimal_cons, List.length_cons]
    ring

theorem clampLong_of_range (x : Int) (h0 : -9223372036854775808 ≤ x)
    (h1 : x ≤ 9223372036854775807) : clampLong x = x := by
  unfold clampLong
  rw [if_neg (by omega), if_neg (by omega)]

theorem atoi_of_digits (m : List Char) (hm : ∀ c ∈ m, c.isDigit = true)
    (hb : decimal m < 9223372036854775808) :
    atoi m = wrapInt32 (decimal m) := by
  cases m with
  | nil => simp [atoi, decimal, wrapInt32]
  | cons c cs =>
    have hc : c.isDigit = true := hm c (List.mem_cons_self _ _)
    have h1 : isspace c = false := by
      cases h : isspace c
      · rfl
      · exfalso
        simp only [isspace, Bool.or_eq_true, decide_eq_true_eq] at h
        rcases h with ((((h | h) | h) | h) | h) | h <;> (rw [h] at hc; revert hc; decide)
    have h2 : c ≠ '-' := isDigit_ne hc (by decide)
    have h3 : c ≠ '+' := isDigit_ne hc (by decide)
    have h4 := atoi_digits_eq (c :: cs) hm 0
    simp only [atoi, List.dropWhile, h1, if_neg h2, if_neg h3, h4]
    simp only [Nat.zero_mul, Nat.zero_add]
    rw [clampLong_of_range _ (by omega) (by omega)]

/-- Values of `atoi` outside the range of `int`: reduction to 32 bits below `2^63`,
saturation to `LONG_MAX` or `LONG_MIN`, read as `-1` or `0`, from `2^63` on. -/
theorem atoi_out_of_range :
    atoi "2147483648".toList = -2147483648 ∧ atoi "4294967297".toList = 1 ∧
    atoi "9223372036854775807".toList = -1 ∧ atoi "9223372036854775808".toList = -1 ∧
    atoi "18446744073709551617".toList = -1 ∧ atoi "-9223372036854775809".toList = 0 ∧
    atoi "-18446744073709551617".toList = 0 ∧ atoi " +12abc".toList = 12 ∧
    atoi "-7".toList = -7 := by
  decide

/-- C2 (amended).  For digit strings `m`, `s`, `f` whose frame count
`(M*60+S)*75+F` is below `2^31`, `msf_to_sample_offset` on `m:s:f` stores
`floor(R*frames/75)` into `sample_offset` when the sample rate `R` is `> 0`, and the frame
count itself otherwise, and changes no other field. -/
theorem msf_to_sample_offset_in_range (m s f : List Char) (pmp3 cuesheet_track : MP3FILE)
    (hm : ∀ c ∈ m, c.isDigit = true) (hs : ∀ c ∈ s, c.isDigit = true)
    (hf : ∀ c ∈ f, c.isDigit = true)
    (hb : (decimal m * 60 + decimal s) * 75 + decimal f < 2147483648) :
    msf_to_sample_offset (m ++ ':' :: (s ++ ':' :: f)) pmp3 cuesheet_track =
      { cuesheet_track with
        sample_offset :=
          if pmp3.samplerate > 0 then
            ⌊((pmp3.samplerate * (((decimal m * 60 + decimal s) * 75 + decimal f : Nat) : Int)
                : Int) : ℚ) / 75⌋
          else (((decimal m * 60 + decimal s) * 75 + decimal f : Nat) : Int) } := by
  have c1 : ∀ x ∈ m, x ≠ ':' := fun x hx => isDigit_ne (hm x hx) (by decide)
  have c2 : ∀ x ∈ s, x ≠ ':' := fun x hx => isDigit_ne (hs x hx) (by decide)
  have e1 : wrapInt32 (wrapInt32 (wrapInt32 (wrapInt32 (wrapInt32 (decimal m) * 60) +
      wrapInt32 (decimal s)) * 75) + wrapInt32 (decimal f)) =
      (((decimal m * 60 + decimal s) * 75 + decimal f : Nat) : Int) := by
    have hM : wrapInt32 (decimal m) = decimal m := wrapInt32_of_range _ (by omega) (by omega)
    have hS : wrapInt32 (decimal s) = decimal s := wrapInt32_of_range _ (by omega) (by omega)
    have hF : wrapInt32 (decimal f) = decimal f := wrapInt32_of_range _ (by omega) (by omega)
    rw [hM, hS, hF]
    rw [wrapInt32_of_range ((decimal m : Int) * 60) (by omega) (by omega)]
    rw [wrapInt32_of_range ((decimal m : Int) * 60 + decimal s) (by omega) (by omega)]
    rw [wrapInt32_of_range (((decimal m : Int) * 60 + decimal s) * 75) (by omega) (by omega)]
    rw [wrapInt32_of_range _ (by omega) (by omega)]
    push_cast
    ring
  simp only [msf_to_sample_offset, strchr_append ':' m _ c1, strchr_append ':' s _ c2,
    atoi_of_digits m hm (by omega), atoi_of_digits s hs (by omega),
    atoi_of_digits f hf (by omega), e1]
  by_cases hR : pmp3.samplerate > 0
  · simp only [if_pos hR]
    have h75 : ((75 : ℚ)) = ((75 : ℕ) : ℚ) := by norm_num
    rw [h75, Rat.floor_intCast_div_natCast]
    rw [Int.tdiv_eq_ediv (Int.mul_nonneg (le_of_lt hR) (Int.ofNat_nonneg _)) (by norm_num)]
    rfl
  · simp only [if_neg hR]

/-- Witness of C2 (amended): the timecode `03:00:00` at 44100 samples per second. -/
theorem msf_to_sample_offset_in_range_witness :
    (decimal "03".toList * 60 + decimal "00".toList) * 75 + decimal "00".toList < 2147483648 ∧
    msf_to_sample_offset ("03".toList ++ ':' :: ("00".toList ++ ':' :: "00".toList))
        { samplerate := 44100 } {} =
      { ({} : MP3FILE) with
        sample_offset :=
          if ({ samplerate := 44100 } : MP3FILE).samplerate > 0 then
            ⌊((({ samplerate := 44100 } : MP3FILE).samplerate *
                (((decimal "03".toList * 60 + decimal "00".toList) * 75 +
                  decimal "00".toList : Nat) : Int) : Int) : ℚ) / 75⌋
          else (((decimal "03".toList * 60 + decimal "00".toList) * 75 +
                  decimal "00".toList : Nat) : Int) } :=
  ⟨by decide,
    msf_to_sample_offset_in_range "03".toList "00".toList "00".toList
      { samplerate := 44100 } {} (by decide) (by decide) (by decide) (by decide)⟩

/-- Counterexample to C2 as stated: on the well-formed timecode `500000:00:00`, with no sample
rate, the frame count is 2250000000 but the value stored is -2044967296, the frame count
having left the range of `int`. -/
theorem msf_to_sample_offset_overflow :
    (decimal "500000".toList * 60 + decimal "00".toList) * 75 + decimal "00".toList =
      2250000000 ∧
    (msf_to_sample_offset "500000:00:00".toList { samplerate := 0 } {}).sample_offset =
      -2044967296 := by
  decide

/-! ### The track table under a line step -/

theorem getTrack_some {ts : List MP3FILE} {i : Int} {r : MP3FILE} (h : getTrack ts i = some r) :
    0 ≤ i ∧ i.toNat < ts.length ∧ ts[i.toNat]? = some r := by
  unfold getTrack at h
  split at h
  · rename_i h0
    refine ⟨h0, ?_, h⟩
    by_contra hlt
    rw [List.getElem?_eq_none (by omega)] at h
    exact Option.noConfusion h
  · exact Option.noConfusion h

theorem getTrack_of_range (ts : List MP3FILE) (i : Int) (h0 : 0 ≤ i) (h1 : i < ts.length) :
    ∃ r, getTrack ts i = some r := by
  have hlt : i.toNat < ts.length := by omega
  exact ⟨ts[i.toNat], by simp [getTrack, h0, List.getElem?_eq_getElem hlt]⟩

theorem tableRel_refl {R : MP3FILE → MP3FILE → Prop} (hR : ∀ r, R r r) (ts : List MP3FILE) :
    TableRel R ts ts :=
  ⟨le_refl _, fun _ r h => ⟨r, h, hR r⟩⟩

theorem tableRel_trans {R : MP3FILE → MP3FILE → Prop} (hR : ∀ a b c, R a b → R b c → R a c)
    {ts ts1 ts2 : List MP3FILE} (h1 : TableRel R ts ts1) (h2 : TableRel R ts1 ts2) :
    TableRel R ts ts2 := by
  refine ⟨le_trans h1.1 h2.1, fun i r h => ?_⟩
  obtain ⟨r1, e1, p1⟩ := h1.2 i r h
  obtain ⟨r2, e2, p2⟩ := h2.2 i r1 e1
  exact ⟨r2, e2, hR _ _ _ p1 p2⟩

theorem tableRel_setTrack {R : MP3FILE → MP3FILE → Prop} (hR : ∀ r, R r r)
    {ts : List MP3FILE} {i : Int} {r r1 : MP3FILE} (h : getTrack ts i = some r) (hr : R r r1) :
    TableRel R ts (setTrack ts i r1) := by
  obtain ⟨_, hlt, he⟩ := getTrack_some h
  refine ⟨by simp [setTrack], fun j x hx => ?_⟩
  by_cases hj : i.toNat = j
  · subst hj
    rw [he] at hx
    cases hx
    exact ⟨r1, by simp [setTrack, List.getElem?_set_self, hlt], hr⟩
  · exact ⟨x, by simp [setTrack, List.getElem?_set_ne hj, hx], hR x⟩

theorem tableRel_updTrack {R : MP3FILE → MP3FILE → Prop} (hR : ∀ r, R r r)
    {ts ts1 : List MP3FILE} {i : Int} {f : MP3FILE → MP3FILE} (hf : ∀ r, R r (f r))
    (h : updTrack ts i f = some ts1) : TableRel R ts ts1 := by
  unfold updTrack at h
  split at h
  · exact Option.noConfusion h
  · rename_i r hg
    cases h
    exact tableRel_setTrack hR hg (hf r)

theorem tableRel_append {R : MP3FILE → MP3FILE → Prop} (hR : ∀ r, R r r)
    (ts xs : List MP3FILE) : TableRel R ts (ts ++ xs) := by
  refine ⟨by simp, fun i r h => ⟨r, ?_, hR r⟩⟩
  have hlt : i < ts.length := by
    by_contra hc
    rw [List.getElem?_eq_none (by omega)] at h
    exact Option.noConfusion h
  rw [List.getElem?_append_left hlt]
  exact h

theorem stepRel_refl {env : Env} {RT RA : MP3FILE → MP3FILE → Prop} (hT : TrackRel env RT)
    (hA : AlbumRel env RA) (st : ParseState) : StepRel RT RA st st :=
  ⟨tableRel_refl hT.refl _, hA.refl _⟩

theorem key_loop_rel {env : Env} {R : MP3FILE → MP3FILE → Prop} (hR : ∀ r, R r r)
    (key : List Char) (sval ival : Option (List Char)) (track : Int) (ts ts1 : List MP3FILE)
    (tbl : List metadata_map)
    (hE : ∀ e ∈ tbl, ∀ r r1, apply_entry env e r sval ival = some r1 → R r r1)
    (h : key_loop env key sval ival track ts tbl = some ts1) : TableRel R ts ts1 := by
  induction tbl with
  | nil =>
    simp only [key_loop] at h
    cases h
    exact tableRel_refl hR _
  | cons e es ih =>
    simp only [key_loop] at h
    split at h
    · split at h
      · exact Option.noConfusion h
      · rename_i r hg
        split at h
        · exact Option.noConfusion h
        · rename_i r1 ha
          cases h
          exact tableRel_setTrack hR hg (hE e (List.mem_cons_self _ _) r r1 ha)
    · exact ih (fun e1 he1 => hE e1 (List.mem_cons_of_mem _ he1)) h

theorem resolve_key_rel {env : Env} {R : MP3FILE → MP3FILE → Prop} (hT : TrackRel env R)
    (key : List Char) (sval ival ival2 : Option (List Char)) (track : Int)
    (ts ts1 : List MP3FILE)
    (h : resolve_key env key sval ival ival2 track ts = some ts1) : TableRel R ts ts1 := by
  simp only [resolve_key] at h
  split at h
  · exact Option.noConfusion h
  · rename_i ts0 h0
    exact tableRel_trans hT.trans
      (key_loop_rel hT.refl key sval ival track ts ts0 _
        (fun e he r r1 ha => hT.entry e (Or.inl he) r r1 sval ival ha) h0)
      (key_loop_rel hT.refl key sval ival2 track ts0 ts1 _
        (fun e he r r1 ha => hT.entry e (Or.inr he) r r1 sval ival2 ha) h)

theorem flags_loop_rel {env : Env} {R : MP3FILE → MP3FILE → Prop} (hT : TrackRel env R)
    (track : Int) (ts ts1 : List MP3FILE) (fuel : Nat) (line : List Char)
    (h : flags_loop track ts fuel line = some ts1) : TableRel R ts ts1 := by
  induction fuel generalizing line with
  | zero =>
    simp only [flags_loop] at h
    cases h
    exact tableRel_refl hT.refl _
  | succ n ih =>
    simp only [flags_loop] at h
    split at h
    · cases h
      exact tableRel_refl hT.refl _
    · split at h
      · exact tableRel_updTrack hT.refl (fun r => hT.disabled r) h
      · exact ih _ h

theorem do_flags_rel {env : Env} {RT RA : MP3FILE → MP3FILE → Prop} (hT : TrackRel env RT)
    (hA : AlbumRel env RA) (line : List Char) (st st1 : ParseState)
    (h : do_flags line st = some st1) : StepRel RT RA st st1 ∧ st1.track = st.track := by
  simp only [do_flags] at h
  split at h
  · exact Option.noConfusion h
  · rename_i ts hl
    cases h
    exact ⟨⟨flags_loop_rel hT _ _ _ _ _ hl, hA.refl _⟩, rfl⟩

theorem do_index_rel {env : Env} {RT RA : MP3FILE → MP3FILE → Prop} (hT : TrackRel env RT)
    (hA : AlbumRel env RA) (line : List Char) (st st1 : ParseState)
    (h : do_index line st = some st1) : StepRel RT RA st st1 ∧ st1.track = st.track := by
  simp only [do_index] at h
  split at h
  · split at h
    · cases h
      exact ⟨stepRel_refl hT hA st, rfl⟩
    · split at h
      · exact Option.noConfusion h
      · split at h
        · split at h
          · cases h
            exact ⟨stepRel_refl hT hA st, rfl⟩
          · rename_i t3 _
            split at h
            · exact Option.noConfusion h
            · rename_i cur hc
              have h1 := tableRel_setTrack hT.refl hc
                (hT.index cur t3.token st.pmp3)
              split at h
              · split at h
                · exact Option.noConfusion h
                · rename_i prev hp
                  cases h
                  exact ⟨⟨tableRel_trans hT.trans h1
                    (tableRel_setTrack hT.refl hp (hT.count prev _ st.pmp3)), hA.refl _⟩, rfl⟩
              · cases h
                exact ⟨⟨h1, hA.refl _⟩, rfl⟩
        · cases h
          exact ⟨stepRel_refl hT hA st, rfl⟩
  · cases h
    exact ⟨stepRel_refl hT hA st, rfl⟩

theorem do_performer_rel {env : Env} {RT RA : MP3FILE → MP3FILE → Prop} (hT : TrackRel env RT)
    (hA : AlbumRel env RA) (line : List Char) (st st1 : ParseState)
    (h : do_performer line st = some st1) : StepRel RT RA st st1 ∧ st1.track = st.track := by
  simp only [do_performer] at h
  split at h
  · cases h
    exact ⟨stepRel_refl hT hA st, rfl⟩
  · split at h
    · split at h
      · exact Option.noConfusion h
      · rename_i ts hu
        cases h
        exact ⟨⟨tableRel_updTrack hT.refl (fun r => hT.strdup r _ _) hu, hA.refl _⟩, rfl⟩
    · cases h
      exact ⟨⟨tableRel_refl hT.refl _, hA.trans _ _ _ (hA.strdup _ _ _) (hA.strdup _ _ _)⟩, rfl⟩

theorem do_songwriter_rel {env : Env} {RT RA : MP3FILE → MP3FILE → Prop}
    (hT : TrackRel env RT) (hA : AlbumRel env RA) (line : List Char) (st st1 : ParseState)
    (h : do_songwriter line st = some st1) : StepRel RT RA st st1 ∧ st1.track = st.track := by
  simp only [do_songwriter] at h
  split at h
  · cases h
    exact ⟨stepRel_refl hT hA st, rfl⟩
  · split at h
    · split at h
      · exact Option.noConfusion h
      · rename_i ts hu
        cases h
        exact ⟨⟨tableRel_updTrack hT.refl (fun r => hT.strdup r _ _) hu, hA.refl _⟩, rfl⟩
    · cases h
      exact ⟨⟨tableRel_refl hT.refl _, hA.strdup _ _ _⟩, rfl⟩

theorem do_title_rel {env : Env} {RT RA : MP3FILE → MP3FILE → Prop} (hT : TrackRel env RT)
    (hA : AlbumRel env RA) (line : List Char) (st st1 : ParseState)
    (h : do_title line st = some st1) : StepRel RT RA st st1 ∧ st1.track = st.track := by
  simp only [do_title] at h
  split at h
  · cases h
    exact ⟨stepRel_refl hT hA st, rfl⟩
  · split at h
    · split at h
      · exact Option.noConfusion h
      · rename_i ts hu
        cases h
        exact ⟨⟨tableRel_updTrack hT.refl (fun r => hT.strdup r _ _) hu, hA.refl _⟩, rfl⟩
    · cases h
      exact ⟨⟨tableRel_refl hT.refl _, hA.strdup _ _ _⟩, rfl⟩

theorem grown_rel {R : MP3FILE → MP3FILE → Prop} (hR : ∀ r, R r r) (ts : List MP3FILE)
    (track : Int) : TableRel R ts (grown ts track) := by
  unfold grown
  split
  · exact tableRel_append hR _ _
  · exact tableRel_refl hR _

theorem do_track_eq (line : List Char) (st : ParseState) :
    do_track line st =
      match read_token line with
      | none => some st
      | some t =>
        match getTrack (grown st.cuesheet_tracks (atoi t.token)) (atoi t.token - 1) with
        | none => none
        | some r =>
          some ⟨atoi t.token, 0,
            setTrack (grown st.cuesheet_tracks (atoi t.token)) (atoi t.token - 1)
              (if r.track = 0 then { r with track := toUInt32 (atoi t.token) } else r),
            st.pmp3⟩ := by
  rfl

theorem do_track_rel {env : Env} {RT RA : MP3FILE → MP3FILE → Prop} (hT : TrackRel env RT)
    (hA : AlbumRel env RA) (line : List Char) (st st1 : ParseState)
    (h : do_track line st = some st1) : StepRel RT RA st st1 := by
  rw [do_track_eq] at h
  split at h
  · cases h
    exact stepRel_refl hT hA st
  · rename_i t _
    split at h
    · exact Option.noConfusion h
    · rename_i r hg
      cases h
      refine ⟨tableRel_trans hT.trans (grown_rel hT.refl _ _)
        (tableRel_setTrack hT.refl hg ?_), hA.refl _⟩
      split
      · rename_i h0
        exact hT.track r _ h0
      · exact hT.refl r

theorem rem_text_rel {env : Env} {RT RA : MP3FILE → MP3FILE → Prop} (hT : TrackRel env RT)
    (hA : AlbumRel env RA) (f : StrField) (line : List Char) (st st1 : ParseState)
    (h : rem_text f line st = some st1) : StepRel RT RA st st1 ∧ st1.track = st.track := by
  simp only [rem_text] at h
  split at h
  · split at h
    · exact Option.noConfusion h
    · rename_i ts hu
      cases h
      exact ⟨⟨tableRel_updTrack hT.refl (fun r => hT.strdup r _ _) hu, hA.refl _⟩, rfl⟩
  · cases h
    exact ⟨⟨tableRel_refl hT.refl _, hA.strdup _ _ _⟩, rfl⟩

theorem rem_date_rel {env : Env} {RT RA : MP3FILE → MP3FILE → Prop} (hT : TrackRel env RT)
    (hA : AlbumRel env RA) (line : List Char) (st st1 : ParseState)
    (h : rem_date env line st = some st1) : StepRel RT RA st st1 ∧ st1.track = st.track := by
  simp only [rem_date] at h
  split at h
  · split at h
    · exact Option.noConfusion h
    · rename_i ts hu
      cases h
      exact ⟨⟨tableRel_updTrack hT.refl (fun r => hT.year r _) hu, hA.refl _⟩, rfl⟩
  · cases h
    exact ⟨⟨tableRel_refl hT.refl _, hA.year _ _⟩, rfl⟩

theorem rem_freeform_rel {env : Env} {RT RA : MP3FILE → MP3FILE → Prop}
    (hT : TrackRel env RT) (hA : AlbumRel env RA) (val line after : List Char)
    (st st1 : ParseState) (h : rem_freeform env val line after st = some st1) :
    StepRel RT RA st st1 ∧ st1.track = st.track := by
  simp only [rem_freeform] at h
  split at h
  · exact Option.noConfusion h
  · rename_i ts hr
    cases h
    exact ⟨⟨resolve_key_rel hT _ _ _ _ _ _ _ hr, hA.refl _⟩, rfl⟩

theorem rem_quoted_rel {env : Env} {RT RA : MP3FILE → MP3FILE → Prop} (hT : TrackRel env RT)
    (hA : AlbumRel env RA) (val : List Char) (st st1 : ParseState)
    (h : rem_quoted env val st = some st1) : StepRel RT RA st st1 ∧ st1.track = st.track := by
  simp only [rem_quoted] at h
  split at h
  · split at h
    · split at h
      · exact Option.noConfusion h
      · rename_i ts hr
        cases h
        exact ⟨⟨resolve_key_rel hT _ _ _ _ _ _ _ hr, hA.refl _⟩, rfl⟩
    · cases h
      exact ⟨stepRel_refl hT hA st, rfl⟩
  · cases h
    exact ⟨stepRel_refl hT hA st, rfl⟩

theorem do_rem_rel {env : Env} {RT RA : MP3FILE → MP3FILE → Prop} (hT : TrackRel env RT)
    (hA : AlbumRel env RA) (line after : List Char) (st st1 : ParseState)
    (h : do_rem env line after st = some st1) : StepRel RT RA st st1 ∧ st1.track = st.track := by
  simp only [do_rem] at h
  split at h
  · cases h
    exact ⟨stepRel_refl hT hA st, rfl⟩
  · split at h
    · split at h
      · exact rem_text_rel hT hA _ _ _ _ h
      · split at h
        · exact rem_date_rel hT hA _ _ _ h
        · split at h
          · cases h
            exact ⟨stepRel_refl hT hA st, rfl⟩
          · split at h
            · exact rem_text_rel hT hA _ _ _ _ h
            · exact rem_freeform_rel hT hA _ _ _ _ _ h
    · split at h
      · exact rem_quoted_rel hT hA _ _ _ h
      · cases h
        exact ⟨stepRel_refl hT hA st, rfl⟩

/-- Every line step relates the state before to the state after. -/
theorem parse_line_rel {env : Env} {RT RA : MP3FILE → MP3FILE → Prop} (hT : TrackRel env RT)
    (hA : AlbumRel env RA) (line after : List Char) (st st1 : ParseState)
    (h : parse_line env line after st = some st1) : StepRel RT RA st st1 := by
  unfold parse_line at h
  split at h
  · cases h
    exact stepRel_refl hT hA st
  · rename_i d _
    by_cases c0 : strcasecmp_eq d.token "catalog".toList = true
    · rw [if_pos c0] at h
      cases h
      exact stepRel_refl hT hA st
    rw [if_neg c0] at h
    by_cases c1 : strcasecmp_eq d.token "cdtextfile".toList = true
    · rw [if_pos c1] at h
      cases h
      exact stepRel_refl hT hA st
    rw [if_neg c1] at h
    by_cases c2 : strcasecmp_eq d.token "file".toList = true
    · rw [if_pos c2] at h
      cases h
      exact stepRel_refl hT hA st
    rw [if_neg c2] at h
    by_cases c3 : strcasecmp_eq d.token "flags".toList = true
    · rw [if_pos c3] at h
      exact (do_flags_rel hT hA _ _ _ h).1
    rw [if_neg c3] at h
    by_cases c4 : strcasecmp_eq d.token "index".toList = true
    · rw [if_pos c4] at h
      exact (do_index_rel hT hA _ _ _ h).1
    rw [if_neg c4] at h
    by_cases c5 : strcasecmp_eq d.token "isrc".toList = true
    · rw [if_pos c5] at h
      cases h
      exact stepRel_refl hT hA st
    rw [if_neg c5] at h
    by_cases c6 : strcasecmp_eq d.token "performer".toList = true
    · rw [if_pos c6] at h
      exact (do_performer_rel hT hA _ _ _ h).1
    rw [if_neg c6] at h
    by_cases c7 : strcasecmp_eq d.token "postgap".toList = true
    · rw [if_pos c7] at h
      cases h
      exact stepRel_refl hT hA st
    rw [if_neg c7] at h
    by_cases c8 : strcasecmp_eq d.token "pregap".toList = true
    · rw [if_pos c8] at h
      cases h
      exact stepRel_refl hT hA st
    rw [if_neg c8] at h
    by_cases c9 : strcasecmp_eq d.token "rem".toList = true
    · rw [if_pos c9] at h
      exact (do_rem_rel hT hA _ _ _ _ h).1
    rw [if_neg c9] at h
    by_cases c10 : strcasecmp_eq d.token "songwriter".toList = true
    · rw [if_pos c10] at h
      exact (do_songwriter_rel hT hA _ _ _ h).1
    rw [if_neg c10] at h
    by_cases c11 : strcasecmp_eq d.token "title".toList = true
    · rw [if_pos c11] at h
      exact (do_title_rel hT hA _ _ _ h).1
    rw [if_neg c11] at h
    by_cases c12 : strcasecmp_eq d.token "track".toList = true
    · rw [if_pos c12] at h
      exact do_track_rel hT hA _ _ _ h
    rw [if_neg c12] at h
    cases h
    exact stepRel_refl hT hA st
theorem parse_lines_rel {env : Env} {RT RA : MP3FILE → MP3FILE → Prop} (hT : TrackRel env RT)
    (hA : AlbumRel env RA) (ls : List (List Char × List Char)) (st st1 : ParseState)
    (h : parse_lines env ls st = some st1) : StepRel RT RA st st1 := by
  induction ls generalizing st with
  | nil =>
    simp only [parse_lines] at h
    cases h
    exact stepRel_refl hT hA _
  | cons l more ih =>
    obtain ⟨line, after⟩ := l
    simp only [parse_lines] at h
    split at h
    · exact Option.noConfusion h
    · rename_i st0 h0
      have s1 := parse_line_rel hT hA line after st st0 h0
      have s2 := ih st0 h
      exact ⟨tableRel_trans hT.trans s1.1 s2.1, hA.trans _ _ _ s1.2 s2.2⟩

theorem anyRel_track (env : Env) : TrackRel env anyRel where
  refl := fun _ => trivial
  trans := fun _ _ _ _ _ => trivial
  strdup := fun _ _ _ => trivial
  year := fun _ _ => trivial
  disabled := fun _ => trivial
  index := fun _ _ _ => trivial
  count := fun _ _ _ => trivial
  track := fun _ _ _ => trivial
  entry := fun _ _ _ _ _ _ _ => trivial

theorem anyRel_album (env : Env) : AlbumRel env anyRel := (anyRel_track env).toAlbumRel

theorem strdup_once_timing (r : MP3FILE) (f : StrField) (v : List Char) :
    sameTiming r (strdup_once r f v) := by
  unfold strdup_once
  split
  · exact ⟨rfl, rfl⟩
  · cases f <;> exact ⟨rfl, rfl⟩

theorem year_once_timing (env : Env) (r : MP3FILE) (l : List Char) :
    sameTiming r (year_once env r l) := by
  unfold year_once
  split
  · split <;> exact ⟨rfl, rfl⟩
  · exact ⟨rfl, rfl⟩

theorem sameTiming_album (env : Env) : AlbumRel env sameTiming where
  refl := fun _ => ⟨rfl, rfl⟩
  trans := fun _ _ _ h1 h2 => ⟨h2.1.trans h1.1, h2.2.trans h1.2⟩
  strdup := strdup_once_timing
  year := year_once_timing env

theorem strcasecmp_eq_congr {a b : List Char} (h : strcasecmp_eq a b = true) (c : List Char) :
    strcasecmp_eq a c = strcasecmp_eq b c := by
  simp only [strcasecmp_eq, beq_iff_eq] at h
  simp only [strcasecmp_eq, h]

/-! ### The current track under a line step -/

theorem do_track_track (line : List Char) (st st1 : ParseState)
    (h : do_track line st = some st1) :
    (read_token line = none ∧ st1 = st) ∨
    ∃ t, read_token line = some t ∧ st1.track = atoi t.token ∧
      1 ≤ st1.track ∧ st1.track ≤ st1.cuesheet_tracks.length := by
  rw [do_track_eq] at h
  split at h
  · rename_i hn
    cases h
    exact Or.inl ⟨hn, rfl⟩
  · rename_i t ht
    split at h
    · exact Option.noConfusion h
    · rename_i r hg
      cases h
      obtain ⟨h0, hlt, _⟩ := getTrack_some hg
      refine Or.inr ⟨t, ht, rfl, ?_, ?_⟩
      · show 1 ≤ atoi t.token
        omega
      · show atoi t.token ≤ ((setTrack _ _ _ : List MP3FILE).length : Int)
        simp only [setTrack, List.length_set]
        omega

/-- The current track after a line step is the number of the line when it is a `TRACK`
line, which then lies inside the table, and is unchanged otherwise. -/
theorem parse_line_track (env : Env) (line after : List Char) (st st1 : ParseState)
    (h : parse_line env line after st = some st1) :
    st1.track = (track_number line).getD st.track ∧
    (∀ K, track_number line = some K → 1 ≤ K ∧ K ≤ st1.cuesheet_tracks.length) := by
  unfold parse_line at h
  unfold track_number
  cases hd : read_token line with
  | none =>
    rw [hd] at h
    cases h
    simp
  | some d =>
    rw [hd] at h
    simp only []
    simp only [] at h
    by_cases ct : strcasecmp_eq d.token "track".toList = true
    · have e : ∀ c, strcasecmp_eq d.token c = strcasecmp_eq "track".toList c :=
        strcasecmp_eq_congr ct
      rw [e "catalog".toList, e "cdtextfile".toList, e "file".toList, e "flags".toList,
        e "index".toList, e "isrc".toList, e "performer".toList, e "postgap".toList,
        e "pregap".toList, e "rem".toList, e "songwriter".toList, e "title".toList,
        e "track".toList] at h
      have h1 : do_track d.rest st = some st1 := h
      rw [if_pos ct]
      rcases do_track_track _ _ _ h1 with ⟨hn, hs⟩ | ⟨t, ht, h2, h3, h4⟩
      · simp [hn, hs]
      · simp only [ht, Option.map_some', Option.getD_some, Option.some.injEq]
        refine ⟨h2, fun K hK => ?_⟩
        rw [← hK, ← h2]
        exact ⟨h3, h4⟩
    · rw [if_neg ct]
      simp only [Option.getD_none]
      refine ⟨?_, fun K hK => Option.noConfusion hK⟩
      rw [if_neg ct] at h
      by_cases c0 : strcasecmp_eq d.token "catalog".toList = true
      · rw [if_pos c0] at h
        cases h
        rfl
      rw [if_neg c0] at h
      by_cases c1 : strcasecmp_eq d.token "cdtextfile".toList = true
      · rw [if_pos c1] at h
        cases h
        rfl
      rw [if_neg c1] at h
      by_cases c2 : strcasecmp_eq d.token "file".toList = true
      · rw [if_pos c2] at h
        cases h
        rfl
      rw [if_neg c2] at h
      by_cases c3 : strcasecmp_eq d.token "flags".toList = true
      · rw [if_pos c3] at h
        exact (do_flags_rel (anyRel_track env) (anyRel_album env) _ _ _ h).2
      rw [if_neg c3] at h
      by_cases c4 : strcasecmp_eq d.token "index".toList = true
      · rw [if_pos c4] at h
        exact (do_index_rel (anyRel_track env) (anyRel_album env) _ _ _ h).2
      rw [if_neg c4] at h
      by_cases c5 : strcasecmp_eq d.token "isrc".toList = true
      · rw [if_pos c5] at h
        cases h
        rfl
      rw [if_neg c5] at h
      by_cases c6 : strcasecmp_eq d.token "performer".toList = true
      · rw [if_pos c6] at h
        exact (do_performer_rel (anyRel_track env) (anyRel_album env) _ _ _ h).2
      rw [if_neg c6] at h
      by_cases c7 : strcasecmp_eq d.token "postgap".toList = true
      · rw [if_pos c7] at h
        cases h
        rfl
      rw [if_neg c7] at h
      by_cases c8 : strcasecmp_eq d.token "pregap".toList = true
      · rw [if_pos c8] at h
        cases h
        rfl
      rw [if_neg c8] at h
      by_cases c9 : strcasecmp_eq d.token "rem".toList = true
      · rw [if_pos c9] at h
        exact (do_rem_rel (anyRel_track env) (anyRel_album env) _ _ _ _ h).2
      rw [if_neg c9] at h
      by_cases c10 : strcasecmp_eq d.token "songwriter".toList = true
      · rw [if_pos c10] at h
        exact (do_songwriter_rel (anyRel_track env) (anyRel_album env) _ _ _ h).2
      rw [if_neg c10] at h
      by_cases c11 : strcasecmp_eq d.token "title".toList = true
      · rw [if_pos c11] at h
        exact (do_title_rel (anyRel_track env) (anyRel_album env) _ _ _ h).2
      rw [if_neg c11] at h
      cases h
      rfl

theorem parse_line_inTable (env : Env) (line after : List Char) (st st1 : ParseState)
    (h : parse_line env line after st = some st1) (hi : TrackInTable st) :
    TrackInTable st1 := by
  obtain ⟨h1, h2⟩ := parse_line_track env line after st st1 h
  have hlen := (parse_line_rel (anyRel_track env) (anyRel_album env) line after st st1 h).1.1
  cases hk : track_number line with
  | none =>
    rw [hk] at h1
    simp only [Option.getD_none] at h1
    unfold TrackInTable at hi ⊢
    rw [h1]
    omega
  | some K =>
    rw [hk] at h1
    simp only [Option.getD_some] at h1
    have := h2 K hk
    unfold TrackInTable
    rw [h1]
    exact Or.inr this

theorem parse_lines_track (env : Env) (ls : List (List Char × List Char))
    (st st1 : ParseState) (h : parse_lines env ls st = some st1) :
    st1.track = ((ls.filterMap (fun l => track_number l.1)).getLast?).getD st.track ∧
    (TrackInTable st → TrackInTable st1) := by
  induction ls generalizing st with
  | nil =>
    simp only [parse_lines] at h
    cases h
    simp
  | cons l more ih =>
    obtain ⟨line, after⟩ := l
    simp only [parse_lines] at h
    split at h
    · exact Option.noConfusion h
    · rename_i st0 h0
      obtain ⟨i1, i2⟩ := ih st0 h
      have t1 := (parse_line_track env line after st st0 h0).1
      refine ⟨?_, fun hi => i2 (parse_line_inTable env line after st st0 h0 hi)⟩
      rw [i1, t1]
      cases hk : track_number line with
      | none => simp [List.filterMap_cons, hk]
      | some K =>
        simp only [List.filterMap_cons, hk, Option.getD_some, List.getLast?_cons]

theorem set_length_fields (pmp3 r : MP3FILE) :
    (set_length pmp3 r).sample_offset = r.sample_offset ∧
    (set_length pmp3 r).sample_count = r.sample_count ∧
    (pmp3.samplerate > 0 →
      (set_length pmp3 r).song_length = Int.tdiv (r.sample_count * 1000) pmp3.samplerate) ∧
    (¬ pmp3.samplerate > 0 → (set_length pmp3 r).song_length = r.song_length) := by
  unfold set_length
  split
  · rename_i h
    exact ⟨rfl, rfl, fun _ => rfl, fun hc => absurd h hc⟩
  · rename_i h
    exact ⟨rfl, rfl, fun hc => absurd hc h, fun _ => rfl⟩

theorem getTrack_setTrack_self {ts : List MP3FILE} {i : Int} {r : MP3FILE} (r1 : MP3FILE)
    (h : getTrack ts i = some r) : getTrack (setTrack ts i r1) i = some r1 := by
  obtain ⟨h0, hlt, _⟩ := getTrack_some h
  simp [getTrack, setTrack, h0, hlt]

theorem parse_line_index (env : Env) (line after : List Char) (st : ParseState) (d : Token)
    (hd : read_token line = some d) (hc : strcasecmp_eq d.token "index".toList = true) :
    parse_line env line after st = do_index d.rest st := by
  have e : ∀ c, strcasecmp_eq d.token c = strcasecmp_eq "index".toList c :=
    strcasecmp_eq_congr hc
  unfold parse_line
  rw [hd]
  simp only []
  rw [e "catalog".toList, e "cdtextfile".toList, e "file".toList, e "flags".toList,
    e "index".toList]
  rfl

theorem getTrack_setTrack_ne {ts : List MP3FILE} {i j : Int} (r1 : MP3FILE)
    (hi : 0 ≤ i) (hj : 0 ≤ j) (hne : i ≠ j) :
    getTrack (setTrack ts i r1) j = getTrack ts j := by
  have : i.toNat ≠ j.toNat := by omega
  simp [getTrack, setTrack, hj, List.getElem?_set_ne this]

/-- C5.  Duration derivation for adjacent tracks.  When an `INDEX` line reaches the store of
a `sample_offset` for the current track `k > 1` (first index of the track, a token whose
`atoi` is 1 in second place and a timecode token `t3` behind it), track `k` gets the offset
the timecode resolver gives, and track `k-1` gets
`sample_count = sample_offset(k) - sample_offset(k-1)` and, when the sample rate `R` is
`> 0`, `song_length = sample_count * 1000 / R` (truncating), `song_length` being left
unchanged when `R` is not `> 0`. -/
theorem index_sets_previous_duration (env : Env) (line after : List Char) (st : ParseState)
    (d t1 t2 t3 : Token) (cur prev : MP3FILE)
    (hd : read_token line = some d) (hc : strcasecmp_eq d.token "index".toList = true)
    (hk : st.track > 1) (hidx : st.index = 0)
    (h1 : read_token d.rest = some t1) (h2 : read_token t1.rest = some t2)
    (h3 : atoi t2.token = 1) (h4 : read_token t2.rest = some t3)
    (hcur : getTrack st.cuesheet_tracks (st.track - 1) = some cur)
    (hprev : getTrack st.cuesheet_tracks (st.track - 2) = some prev) :
    ∃ st1 cur1 prev1, parse_line env line after st = some st1 ∧
      getTrack st1.cuesheet_tracks (st.track - 1) = some cur1 ∧
      getTrack st1.cuesheet_tracks (st.track - 2) = some prev1 ∧
      cur1 = msf_to_sample_offset t3.token st.pmp3 { cur with subtrack := 1 } ∧
      prev1.sample_count = cur1.sample_offset - prev.sample_offset ∧
      prev1.sample_offset = prev.sample_offset ∧
      (st.pmp3.samplerate > 0 →
        prev1.song_length = Int.tdiv (prev1.sample_count * 1000) st.pmp3.samplerate) ∧
      (¬ st.pmp3.samplerate > 0 → prev1.song_length = prev.song_length) := by
  have hk0 : st.track ≠ 0 := by omega
  obtain ⟨p0, _, _⟩ := getTrack_some hprev
  have hp2 : getTrack (setTrack st.cuesheet_tracks (st.track - 1)
      (msf_to_sample_offset t3.token st.pmp3 { cur with subtrack := 1 })) (st.track - 2) =
      some prev := by
    rw [getTrack_setTrack_ne _ (by omega) (by omega) (by omega)]
    exact hprev
  have hf := set_length_fields st.pmp3
    { prev with sample_count :=
        (msf_to_sample_offset t3.token st.pmp3 { cur with subtrack := 1 }).sample_offset -
          prev.sample_offset }
  obtain ⟨f1, f2, f3, f4⟩ := hf
  refine ⟨⟨st.track, 1,
      setTrack (setTrack st.cuesheet_tracks (st.track - 1)
        (msf_to_sample_offset t3.token st.pmp3 { cur with subtrack := 1 })) (st.track - 2)
        (set_length st.pmp3
          { prev with sample_count :=
              (msf_to_sample_offset t3.token st.pmp3
                { cur with subtrack := 1 }).sample_offset - prev.sample_offset }),
      st.pmp3⟩,
    msf_to_sample_offset t3.token st.pmp3 { cur with subtrack := 1 },
    set_length st.pmp3
      { prev with sample_count :=
          (msf_to_sample_offset t3.token st.pmp3 { cur with subtrack := 1 }).sample_offset -
            prev.sample_offset }, ?_, ?_, ?_, rfl, f2, f1, ?_, f4⟩
  · rw [parse_line_index env line after st d hd hc]
    simp only [do_index, hk0, hidx, ne_eq, not_false_eq_true, and_self, if_true, h1, h2, h3,
      h4, hcur, hp2, hk]
  · simp only []
    rw [getTrack_setTrack_ne _ (by omega) (by omega) (by omega)]
    exact getTrack_setTrack_self _ hcur
  · simp only []
    exact getTrack_setTrack_self _ hp2
  · intro h
    rw [f2]
    exact f3 h

/-- Witness of C5: track 1 at offset 0, track 2 current, 44100 samples per second and an
`INDEX` line that stores the offset of `00:04:00`, 176400: track 1 gets `sample_count`
176400 and `song_length` 4000. -/
theorem index_sets_previous_duration_witness :
    ∃ st1, parse_line env_direct "INDEX 01 1 00:04:00".toList []
        ⟨2, 0, [{ track := 1, subtrack := 1 }, { track := 2 }], { samplerate := 44100 }⟩ =
        some st1 ∧
      st1.cuesheet_tracks.map (fun t => (t.sample_offset, t.sample_count, t.song_length)) =
        [(0, 176400, 4000), (176400, 0, 0)] := by
  obtain ⟨st1, cur1, prev1, e0, e1, e2, e3, e4, e5, e6, e7⟩ :=
    index_sets_previous_duration env_direct "INDEX 01 1 00:04:00".toList []
      ⟨2, 0, [{ track := 1, subtrack := 1 }, { track := 2 }], { samplerate := 44100 }⟩
      ⟨"INDEX".toList, some ' ', [], "01 1 00:04:00".toList⟩
      ⟨"01".toList, some ' ', [], "1 00:04:00".toList⟩
      ⟨"1".toList, some ' ', [], "00:04:00".toList⟩
      ⟨"00:04:00".toList, none, [], []⟩
      { track := 2 } { track := 1, subtrack := 1 }
      (by decide) (by decide) (by decide) (by decide) (by decide) (by decide) (by decide)
      (by decide) (by decide) (by decide)
  refine ⟨st1, e0, ?_⟩
  have e0' : parse_line env_direct "INDEX 01 1 00:04:00".toList []
      ⟨2, 0, [{ track := 1, subtrack := 1 }, { track := 2 }], { samplerate := 44100 }⟩ =
      some ⟨2, 1, [{ track := 1, subtrack := 1, sample_count := 176400, song_length := 4000 },
        { track := 2, subtrack := 1, sample_offset := 176400 }], { samplerate := 44100 }⟩ := by
    rfl
  rw [e0'] at e0
  cases e0
  rfl

/-! ### Growth of the track table -/

theorem keeps_refl (r : MP3FILE) : keeps r r :=
  ⟨fun _ _ h => h, fun _ _ => rfl⟩

theorem keeps_trans (a b c : MP3FILE) (h1 : keeps a b) (h2 : keeps b c) : keeps a c := by
  refine ⟨fun f v h => h2.1 f v (h1.1 f v h), fun f h => ?_⟩
  have e1 := h1.2 f h
  have e2 := h2.2 f (by rw [e1]; exact h)
  rw [e2, e1]

theorem keeps_of_fields (a b : MP3FILE)
    (hs : ∀ f, b.getStr f = a.getStr f) (hi : ∀ f, b.getInt f = a.getInt f) : keeps a b :=
  ⟨fun f v h => by rw [hs f]; exact h, fun f _ => hi f⟩

theorem getStr_setStr (r : MP3FILE) (f g : StrField) (v : List Char) :
    (r.setStr f v).getStr g = if g = f then some v else r.getStr g := by
  cases f <;> cases g <;> rfl

theorem getInt_setStr (r : MP3FILE) (f : StrField) (g : IntField) (v : List Char) :
    (r.setStr f v).getInt g = r.getInt g := by
  cases f <;> cases g <;> rfl

theorem getInt_setInt (r : MP3FILE) (f g : IntField) (v : Nat) :
    (r.setInt f v).getInt g = if g = f then v else r.getInt g := by
  cases f <;> cases g <;> rfl

theorem getStr_setInt (r : MP3FILE) (f : IntField) (g : StrField) (v : Nat) :
    (r.setInt f v).getStr g = r.getStr g := by
  cases f <;> cases g <;> rfl

theorem keeps_setStr (r : MP3FILE) (f : StrField) (v : List Char) (h : r.getStr f = none) :
    keeps r (r.setStr f v) := by
  refine ⟨fun g w hg => ?_, fun g _ => getInt_setStr r f g v⟩
  rw [getStr_setStr]
  split
  · rename_i e
    rw [e, h] at hg
    exact Option.noConfusion hg
  · exact hg

theorem keeps_setInt (r : MP3FILE) (f : IntField) (v : Nat) (h : r.getInt f = 0) :
    keeps r (r.setInt f v) := by
  refine ⟨fun g w hg => by rw [getStr_setInt]; exact hg, fun g hg => ?_⟩
  rw [getInt_setInt]
  split
  · rename_i e
    rw [e] at hg
    exact absurd h hg
  · rfl

theorem keeps_strdup_once (r : MP3FILE) (f : StrField) (v : List Char) :
    keeps r (strdup_once r f v) := by
  unfold strdup_once
  split
  · exact keeps_refl r
  · rename_i h
    exact keeps_setStr r f v h

theorem keeps_year_once (env : Env) (r : MP3FILE) (l : List Char) :
    keeps r (year_once env r l) := by
  unfold year_once
  split
  · rename_i h
    split
    · exact keeps_refl r
    · rename_i n _
      exact keeps_setInt r IntField.year n h
  · exact keeps_refl r

theorem keeps_msf (tok : List Char) (pmp3 r : MP3FILE) :
    keeps r (msf_to_sample_offset tok pmp3 { r with subtrack := 1 }) := by
  apply keeps_of_fields
  · intro f
    unfold msf_to_sample_offset
    repeat' split
    all_goals cases f <;> rfl
  · intro f
    unfold msf_to_sample_offset
    repeat' split
    all_goals cases f <;> rfl

theorem keeps_set_length (pmp3 r : MP3FILE) (x : Int) :
    keeps r (set_length pmp3 { r with sample_count := x }) := by
  apply keeps_of_fields
  · intro f
    unfold set_length
    split <;> cases f <;> rfl
  · intro f
    unfold set_length
    split <;> cases f <;> rfl

theorem keeps_apply_entry (env : Env) (e : metadata_map) (hd : e.handler_function = none)
    (r r1 : MP3FILE) (sval ival : Option (List Char))
    (h : apply_entry env e r sval ival = some r1) : keeps r r1 := by
  unfold apply_entry at h
  rw [hd] at h
  simp only [] at h
  split at h
  · rename_i f _
    unfold assign_str at h
    split at h
    · cases h
      exact keeps_refl r
    · rename_i hn
      split at h
      · exact Option.noConfusion h
      · cases h
        exact keeps_setStr r f _ hn
  · rename_i f _
    unfold assign_int at h
    split at h
    · rename_i h0
      split at h
      · exact Option.noConfusion h
      · split at h
        · cases h
          exact keeps_refl r
        · cases h
          exact keeps_setInt r f _ h0
    · cases h
      exact keeps_refl r

theorem keeps_album (env : Env) : AlbumRel env keeps where
  refl := keeps_refl
  trans := keeps_trans
  strdup := keeps_strdup_once
  year := keeps_year_once env

theorem keeps_track (env : Env)
    (hdirect : ∀ e, e ∈ env.md_map_generic ∨ e ∈ env.md_map_vorbis →
      e.handler_function = none) : TrackRel env keeps where
  toAlbumRel := keeps_album env
  disabled := fun r => keeps_of_fields _ _ (fun f => by cases f <;> rfl)
    (fun f => by cases f <;> rfl)
  index := fun r tok pmp3 => keeps_msf tok pmp3 r
  count := fun r x pmp3 => keeps_set_length pmp3 r x
  track := fun r v h => keeps_setInt r IntField.track v h
  entry := fun e he r r1 sval ival h => keeps_apply_entry env e (hdirect e he) r r1 sval ival h

/-- C3.  Write-once invariant of the line step: when the key tables hold direct assignments
only, every descriptive field (title, album, artist, album artist, composer, genre, comment,
year, track number) of the album record and of every track record of the table that is set
before a line is processed has the same value after it. -/
theorem write_once_line_step (env : Env) (line after : List Char) (st st1 : ParseState)
    (hdirect : ∀ e, e ∈ env.md_map_generic ∨ e ∈ env.md_map_vorbis →
      e.handler_function = none)
    (h : parse_line env line after st = some st1) :
    keeps st.pmp3 st1.pmp3 ∧
    ∀ (i : Nat) (r : MP3FILE), st.cuesheet_tracks[i]? = some r →
      ∃ r1, st1.cuesheet_tracks[i]? = some r1 ∧ keeps r r1 := by
  have hs := parse_line_rel (keeps_track env hdirect) (keeps_album env) line after st st1 h
  exact ⟨hs.2, hs.1.2⟩

/-- Witness of C3: a second `TITLE` for track 1, whose title is set. -/
theorem write_once_line_step_witness :
    parse_line env_direct "TITLE \"New\"".toList []
        ⟨1, 0, [{ title := some "Old".toList, track := 1 }], { album := some "Album".toList }⟩ =
      some ⟨1, 0, [{ title := some "Old".toList, track := 1 }],
        { album := some "Album".toList }⟩ ∧
    (keeps { album := some "Album".toList } { album := some "Album".toList } ∧
      ∀ (i : Nat) (r : MP3FILE),
        [({ title := some "Old".toList, track := 1 } : MP3FILE)][i]? = some r →
          ∃ r1, [({ title := some "Old".toList, track := 1 } : MP3FILE)][i]? = some r1 ∧
            keeps r r1) :=
  ⟨by rfl,
    write_once_line_step env_direct "TITLE \"New\"".toList []
      ⟨1, 0, [{ title := some "Old".toList, track := 1 }], { album := some "Album".toList }⟩
      ⟨1, 0, [{ title := some "Old".toList, track := 1 }], { album := some "Album".toList }⟩
      (by
        intro e he
        rcases he with he | he
        · simp only [env_direct, List.mem_cons, List.mem_singleton, List.not_mem_nil,
            or_false] at he
          rcases he with rfl | rfl | rfl <;> rfl
        · simp only [env_direct, List.mem_singleton] at he
          rw [he])
      (by rfl)⟩

/-! ### The tokenizer consumes its input: the token loops have fuel enough -/

theorem skip_blank_append (s : List Char) : (skip_blank s).1 ++ (skip_blank s).2 = s := by
  induction s with
  | nil => rfl
  | cons c cs ih =>
    unfold skip_blank
    split
    · simp only [List.cons_append, ih]
    · rfl

theorem scan_plain_append (s : List Char) : (scan_plain s).1 ++ (scan_plain s).2 = s := by
  induction s with
  | nil => rfl
  | cons c cs ih =>
    unfold scan_plain
    split
    · rfl
    · simp only [List.cons_append, ih]

theorem scan_quoted_length (s : List Char) :
    (scan_quoted s).1.length + (scan_quoted s).2.length = s.length := by
  suffices h : ∀ n (l : List Char), l.length ≤ n →
      (scan_quoted l).1.length + (scan_quoted l).2.length = l.length from
    h _ _ (le_refl _)
  intro n
  induction n with
  | zero =>
    intro l hl
    cases l with
    | nil => rfl
    | cons _ _ => simp at hl
  | succ n ih =>
    intro l hl
    cases l with
    | nil => rfl
    | cons x xs =>
      rw [scan_quoted_cons]
      split
      · simp
      · split
        · cases xs with
          | nil => simp
          | cons d ds =>
            have := ih ds (by simp at hl; omega)
            simp only [List.length_cons]
            omega
        · have := ih xs (by simp at hl; omega)
          simp only [List.length_cons]
          omega

theorem token_body_length (c : Char) (cs : List Char) :
    (token_body c cs).1.length + (token_body c cs).2.length = cs.length := by
  unfold token_body
  split
  · have h := scan_quoted_length cs
    split
    · rename_i inner he
      rw [he] at h
      simpa using h
    · rename_i inner q tl he
      rw [he] at h
      simp only [List.length_append, List.length_cons, List.length_nil] at h ⊢
      omega
  · have h := congrArg List.length (scan_plain_append cs)
    simpa using h

/-- A call of `read_token` that returns a token leaves a shorter string. -/
theorem read_token_rest_lt (s : List Char) (t : Token) (h : read_token s = some t) :
    t.rest.length < s.length := by
  have h0 := congrArg List.length (skip_blank_append s)
  simp only [List.length_append] at h0
  unfold read_token at h
  split at h
  · exact Option.noConfusion h
  · rename_i c cs hs
    rw [hs] at h0
    have h1 := token_body_length c cs
    split at h
    · rename_i body hb
      rw [hb] at h1
      cases h
      simp only [List.length_cons, List.length_nil] at h0 ⊢
      omega
    · rename_i body x tl hb
      rw [hb] at h1
      cases h
      have h2 := congrArg List.length (skip_blank_append tl)
      simp only [List.length_append, List.length_cons] at h0 h1 h2 ⊢
      omega

/-- The `FLAGS` loop does not depend on its fuel once the fuel exceeds the length of the
line: it never stops for lack of fuel. -/
theorem flags_loop_fuel (track : Int) (ts : List MP3FILE) (n m : Nat) (line : List Char)
    (hn : line.length < n) (hm : line.length < m) :
    flags_loop track ts n line = flags_loop track ts m line := by
  induction n generalizing m line with
  | zero => omega
  | succ n ih =>
    cases m with
    | zero => omega
    | succ m =>
      simp only [flags_loop]
      cases hr : read_token line with
      | none => rfl
      | some t =>
        simp only []
        have hlt := read_token_rest_lt line t hr
        split
        · rfl
        · exact ih m t.rest (by omega) (by omega)

/-- The key loop of a free-form `REM` does not depend on its fuel once the fuel exceeds the
length of the line. -/
theorem rem_key_loop_fuel (n m : Nat) (key line : List Char)
    (hn : line.length < n) (hm : line.length < m) :
    rem_key_loop n key line = rem_key_loop m key line := by
  induction n generalizing m key line with
  | zero => omega
  | succ n ih =>
    cases m with
    | zero => omega
    | succ m =>
      simp only [rem_key_loop]
      cases hr : read_token line with
      | none => rfl
      | some t =>
        simp only []
        have hlt := read_token_rest_lt line t hr
        split
        · exact ih m _ t.rest (by omega) (by omega)
        · rfl

/-! ### Malformed timecodes -/

theorem strchr_none_of_count (c : Char) (s : List Char) (h : s.count c = 0) :
    strchr c s = none := by
  induction s with
  | nil => rfl
  | cons x xs ih =>
    have hx : x ≠ c := by
      intro e
      rw [e, List.count_cons_self] at h
      omega
    rw [List.count_cons_of_ne (Ne.symm hx)] at h
    simp [strchr, hx, ih h]

theorem strchr_some_count (c : Char) (s a b : List Char) (h : strchr c s = some (a, b)) :
    s.count c = b.count c + 1 := by
  induction s generalizing a with
  | nil => simp [strchr] at h
  | cons x xs ih =>
    unfold strchr at h
    split at h
    · rename_i e
      cases h
      rw [e, List.count_cons_self]
    · rename_i hne
      split at h
      · exact Option.noConfusion h
      · rename_i a1 b1 h1
        cases h
        rw [List.count_cons_of_ne (Ne.symm hne)]
        exact ih a1 h1

/-- C14.  Malformed timecode: on a string with fewer than two `:` characters,
`msf_to_sample_offset` returns the track record as it was, `sample_offset` and every other
field; the album record is only read. -/
theorem msf_to_sample_offset_malformed (msf : List Char) (pmp3 cuesheet_track : MP3FILE)
    (h : msf.count ':' < 2) :
    msf_to_sample_offset msf pmp3 cuesheet_track = cuesheet_track := by
  unfold msf_to_sample_offset
  split
  · rfl
  · rename_i m start h1
    have c1 := strchr_some_count ':' msf m start h1
    have h2 : strchr ':' start = none := strchr_none_of_count ':' start (by omega)
    rw [h2]

/-- Witness of C14: the timecode `03:00`. -/
theorem msf_to_sample_offset_malformed_witness :
    "03:00".toList.count ':' < 2 ∧
    msf_to_sample_offset "03:00".toList { samplerate := 44100 } { track := 1 } =
      { track := 1 } :=
  ⟨by decide,
    msf_to_sample_offset_malformed "03:00".toList { samplerate := 44100 } { track := 1 }
      (by decide)⟩

/-! ### `REM` lines -/

/-- C11.  A `REM GENRE Rock` line processed in album scope (current track 0) with the
album's genre unset sets the album's genre to `Rock`; the track table, every other field of
the album record and the parse state are unchanged. -/
theorem rem_genre_album_scope (env : Env) (after : List Char) (index : Int)
    (cuesheet_tracks : List MP3FILE) (pmp3 : MP3FILE) (h : pmp3.genre = none) :
    parse_line env "REM GENRE Rock".toList after ⟨0, index, cuesheet_tracks, pmp3⟩ =
      some ⟨0, index, cuesheet_tracks, { pmp3 with genre := some "Rock".toList }⟩ := by
  have e : parse_line env "REM GENRE Rock".toList after ⟨0, index, cuesheet_tracks, pmp3⟩ =
      some ⟨0, index, cuesheet_tracks, strdup_once pmp3 StrField.genre "Rock".toList⟩ := by
    rfl
  rw [e]
  simp only [strdup_once, MP3FILE.getStr, h, MP3FILE.setStr]

/-- Witness of C11: an album record with a title and no genre, and an empty table. -/
theorem rem_genre_album_scope_witness :
    ({ album := some "Album".toList } : MP3FILE).genre = none ∧
    parse_line env_direct "REM GENRE Rock".toList [] ⟨0, 0, [], { album := some "Album".toList }⟩ =
      some ⟨0, 0, [], { album := some "Album".toList, genre := some "Rock".toList }⟩ :=
  ⟨rfl, rem_genre_album_scope env_direct [] 0 [] { album := some "Album".toList } rfl⟩

/-- C18 (evaluation).  With track 1 current, the line `REM ARTIST Bob`, whose value token
ends the line, hands the resolver the key `ARTIST` and a value that runs on behind the line:
`Bob`, a space in place of the line's terminator, and the whole text `after` that follows
the line in the buffer. -/
theorem rem_value_runs_on (after : List Char) :
    rem_key_loop ("Bob".toList.length + 1) "ARTIST".toList "Bob".toList =
      ("ARTIST".toList, some ⟨"Bob".toList, none, [], []⟩) ∧
    resplice ⟨"Bob".toList, none, [], []⟩ after = "Bob ".toList ++ after ∧
    parse_line env_direct "REM ARTIST Bob".toList after ⟨1, 0, [{ track := 1 }], {}⟩ =
      some ⟨1, 0, [{ track := 1, artist := some ("Bob ".toList ++ after) }], {}⟩ := by
  refine ⟨by decide, rfl, rfl⟩

/-- C19 (evaluation).  With track 1 current and its artist unset, the lines
`REM "ARTIST"=Bob` and `REM "ARTIST" Bob` leave the state as it is, whatever the key
tables: the artist of track 1 stays unset. -/
theorem rem_quoted_key_no_effect (env : Env) (after : List Char) (st : ParseState) :
    parse_line env "REM \"ARTIST\"=Bob".toList after st = some st ∧
    parse_line env "REM \"ARTIST\" Bob".toList after st = some st := by
  refine ⟨rfl, rfl⟩

/-- C20 (evaluation).  In album scope (current track 0) the free-form line `REM ARTIST Bob`,
whose key is in the generic table, has no defined result: the key loop goes to entry
`track - 1 = -1` of the track table. -/
theorem rem_freeform_album_scope (after : List Char) (index : Int)
    (cuesheet_tracks : List MP3FILE) (pmp3 : MP3FILE) :
    parse_line env_direct "REM ARTIST Bob".toList after ⟨0, index, cuesheet_tracks, pmp3⟩ =
      none := by
  rfl

/-- C13 (evaluation).  After `TRACK 01 AUDIO` and `REM ARTIST Bob`, the unrecognised line
`BOGUS foo` changes the result: with it the artist of track 1 is `Bob BOGUS foo` and a
newline, without it the artist is `Bob` and a space. -/
theorem unrecognised_line_changes_result :
    (parse_cuesheet env_direct "TRACK 01 AUDIO\nREM ARTIST Bob\nBOGUS foo\n".toList [] {}).map
        (fun r => (r.ret, r.cuesheet_tracks.map (fun t => t.artist))) =
      some (1, [some "Bob BOGUS foo\n".toList]) ∧
    (parse_cuesheet env_direct "TRACK 01 AUDIO\nREM ARTIST Bob\n".toList [] {}).map
        (fun r => (r.ret, r.cuesheet_tracks.map (fun t => t.artist))) =
      some (1, [some "Bob ".toList]) := by
  decide

/-! ### `FLAGS` lines -/

theorem parse_line_flags (env : Env) (line after : List Char) (st : ParseState) (d : Token)
    (hd : read_token line = some d) (hc : strcasecmp_eq d.token "flags".toList = true) :
    parse_line env line after st = do_flags d.rest st := by
  have e : ∀ c, strcasecmp_eq d.token c = strcasecmp_eq "flags".toList c :=
    strcasecmp_eq_congr hc
  unfold parse_line
  rw [hd]
  simp only []
  rw [e "catalog".toList, e "cdtextfile".toList, e "file".toList, e "flags".toList]
  rfl

theorem flags_loop_tokens (track : Int) (ts : List MP3FILE) (fuel : Nat) (line : List Char) :
    flags_loop track ts fuel line =
      if (tokens fuel line).any (fun tok => strcasecmp_eq tok "data".toList) = true ∧
          track ≠ 0 then
        updTrack ts (track - 1) (fun r => { r with disabled := 1 })
      else some ts := by
  induction fuel generalizing line with
  | zero => simp [flags_loop, tokens]
  | succ n ih =>
    have key : ∀ o : Option Token,
        (match o with
          | none => some ts
          | some t =>
            if strcasecmp_eq t.token "data".toList && decide (track ≠ 0) then
              updTrack ts (track - 1) (fun r => { r with disabled := 1 })
            else flags_loop track ts n t.rest) =
        if ((match o with
              | none => []
              | some t => t.token :: tokens n t.rest).any
            (fun tok => strcasecmp_eq tok "data".toList)) = true ∧ track ≠ 0 then
          updTrack ts (track - 1) (fun r => { r with disabled := 1 })
        else some ts := by
      intro o
      cases o with
      | none => simp
      | some t =>
        simp only [List.any_cons, Bool.and_eq_true, Bool.or_eq_true, decide_eq_true_eq]
        rw [ih t.rest]
        split_ifs <;> first | rfl | (exfalso; tauto)
    exact key (read_token line)

/-- C12.  `FLAGS` handling.  A `FLAGS` line one of whose tokens is `DATA` (in any case),
processed while the current track `k ≥ 1` lies in the table, sets `disabled` of track `k`
and changes nothing else: the table is the old one with that one field of entry `k - 1`
set, and the album record and the parse state are the same.  A `FLAGS` line processed in
album scope or without a `DATA` token leaves the state as it is. -/
theorem flags_line (env : Env) (line after : List Char) (st : ParseState) (d : Token)
    (hd : read_token line = some d) (hc : strcasecmp_eq d.token "flags".toList = true) :
    (has_data d.rest = true → 1 ≤ st.track → st.track ≤ st.cuesheet_tracks.length →
      ∃ r st1, getTrack st.cuesheet_tracks (st.track - 1) = some r ∧
        parse_line env line after st = some st1 ∧
        st1.cuesheet_tracks =
          st.cuesheet_tracks.set (st.track - 1).toNat { r with disabled := 1 } ∧
        st1.cuesheet_tracks.length = st.cuesheet_tracks.length ∧
        st1.pmp3 = st.pmp3 ∧ st1.track = st.track ∧ st1.index = st.index) ∧
    (has_data d.rest = false ∨ st.track = 0 → parse_line env line after st = some st) := by
  rw [parse_line_flags env line after st d hd hc]
  unfold do_flags
  rw [flags_loop_tokens]
  refine ⟨fun h1 h2 h3 => ?_, fun h => ?_⟩
  · obtain ⟨r, hr⟩ := getTrack_of_range st.cuesheet_tracks (st.track - 1) (by omega) (by omega)
    have hdata : (tokens (d.rest.length + 1) d.rest).any
        (fun tok => strcasecmp_eq tok "data".toList) = true := h1
    have h0 : st.track ≠ 0 := by omega
    refine ⟨r, ⟨st.track, st.index,
      st.cuesheet_tracks.set (st.track - 1).toNat { r with disabled := 1 }, st.pmp3⟩,
      hr, ?_, rfl, ?_, rfl, rfl, rfl⟩
    · rw [if_pos ⟨hdata, h0⟩]
      simp only [updTrack, hr, setTrack]
    · simp
  · have hn : ¬((tokens (d.rest.length + 1) d.rest).any
        (fun tok => strcasecmp_eq tok "data".toList) = true ∧ st.track ≠ 0) := by
      rintro ⟨a, b⟩
      rcases h with h | h
      · unfold has_data at h
        rw [a] at h
        exact Bool.noConfusion h
      · exact b h
    rw [if_neg hn]

/-- Witness of C12: `FLAGS DCP data` while track 2 of 2 is current. -/
theorem flags_line_witness :
    ∃ r st1, getTrack [({ track := 1 } : MP3FILE), { track := 2 }] ((2 : Int) - 1) = some r ∧
      parse_line env_direct "FLAGS DCP data".toList []
        ⟨2, 1, [{ track := 1 }, { track := 2 }], {}⟩ = some st1 ∧
      st1.cuesheet_tracks =
        [({ track := 1 } : MP3FILE), { track := 2 }].set ((2 : Int) - 1).toNat
          { r with disabled := 1 } ∧
      st1.cuesheet_tracks.length = [({ track := 1 } : MP3FILE), { track := 2 }].length ∧
      st1.pmp3 = {} ∧ st1.track = 2 ∧ st1.index = 1 :=
  (flags_line env_direct "FLAGS DCP data".toList []
    ⟨2, 1, [{ track := 1 }, { track := 2 }], {}⟩
    ⟨"FLAGS".toList, some ' ', [], "DCP data".toList⟩ (by decide) (by decide)).1
    (by decide) (by decide) (by decide)

/-! ### Precedence of the key tables -/

theorem key_loop_first_match (env : Env) (key : List Char) (sval ival : Option (List Char))
    (track : Int) (ts : List MP3FILE) (tbl : List metadata_map) :
    key_loop env key sval ival track ts tbl =
      apply_match env (first_match tbl key) sval ival track ts := by
  induction tbl with
  | nil => rfl
  | cons e es ih =>
    unfold key_loop first_match
    rw [List.find?_cons]
    by_cases h : strcasecmp_eq e.key key = true
    · simp only [h, if_true]
      rfl
    · have hf : strcasecmp_eq e.key key = false := by
        cases hb : strcasecmp_eq e.key key
        · rfl
        · exact absurd hb h
      simp only [hf]
      exact ih

theorem cue_track_loop_first_match (env : Env) (name val : List Char) (track : Int)
    (ts : List MP3FILE) (tbl : List metadata_map) :
    cue_track_loop env name val track ts tbl =
      match first_match tbl name with
      | none => some ts
      | some e => apply_match env (some e) (some val) (some val) track (grown ts track) := by
  induction tbl with
  | nil => rfl
  | cons e es ih =>
    unfold cue_track_loop first_match
    rw [List.find?_cons]
    by_cases h : strcasecmp_eq e.key name = true
    · simp only [h, if_true]
      rfl
    · have hf : strcasecmp_eq e.key name = false := by
        cases hb : strcasecmp_eq e.key name
        · rfl
        · exact absurd hb h
      simp only [hf]
      exact ih

/-- C15 (amended).  For arbitrary key tables, the resolver of a `REM` key consults both
tables, the generic one first: the first entry of the generic table that matches the key,
if there is one, is applied to the record of the current track, and then the first matching
entry of the format-specific table, if there is one, is applied to the record the first
step left.  The comment scan does the same, growing the table before each application.
When the format-specific table has no entry for the key, the result is that of the first
matching generic entry alone. -/
theorem resolver_consults_both_tables (env : Env) (key : List Char)
    (sval ival ival2 : Option (List Char)) (val : List Char) (track : Int)
    (ts : List MP3FILE) :
    resolve_key env key sval ival ival2 track ts =
      (apply_match env (first_match env.md_map_generic key) sval ival track ts).bind
        (fun ts1 => apply_match env (first_match env.md_map_vorbis key) sval ival2 track ts1) ∧
    (first_match env.md_map_vorbis key = none →
      resolve_key env key sval ival ival2 track ts =
        apply_match env (first_match env.md_map_generic key) sval ival track ts) ∧
    (cue_track_loop env key val track ts env.md_map_generic).bind
        (fun ts1 => cue_track_loop env key val track ts1 env.md_map_vorbis) =
      ((match first_match env.md_map_generic key with
        | none => some ts
        | some e =>
          apply_match env (some e) (some val) (some val) track (grown ts track)).bind
        (fun ts1 =>
          match first_match env.md_map_vorbis key with
          | none => some ts1
          | some e =>
            apply_match env (some e) (some val) (some val) track (grown ts1 track))) := by
  have h1 : resolve_key env key sval ival ival2 track ts =
      (apply_match env (first_match env.md_map_generic key) sval ival track ts).bind
        (fun ts1 =>
          apply_match env (first_match env.md_map_vorbis key) sval ival2 track ts1) := by
    unfold resolve_key
    rw [key_loop_first_match]
    cases apply_match env (first_match env.md_map_generic key) sval ival track ts with
    | none => rfl
    | some ts1 =>
      simp only [Option.bind]
      exact key_loop_first_match env key sval ival2 track ts1 _
  refine ⟨h1, fun hv => ?_, ?_⟩
  · rw [h1, hv]
    cases apply_match env (first_match env.md_map_generic key) sval ival track ts <;> rfl
  · rw [cue_track_loop_first_match]
    congr 1
    funext ts1
    exact cue_track_loop_first_match env key val track ts1 _

/-- Counterexample to C15 as stated: with `artist` in both tables, the key `ARTIST` resolved
for track 1 sets the artist through the generic table and the album artist through the
format-specific table, while the generic entry alone sets the artist only; the line
`REM ARTIST Bob x` and the comment entry `CUE_TRACK01_ARTIST=Bob` show the same. -/
theorem both_tables_applied :
    resolve_key env_both "ARTIST".toList (some "Bob".toList) (some "Bob".toList)
        (some "Bob".toList) 1 [{ track := 1 }] =
      some [{ track := 1, artist := some "Bob".toList, album_artist := some "Bob".toList }] ∧
    apply_match env_both (first_match env_both.md_map_generic "ARTIST".toList)
        (some "Bob".toList) (some "Bob".toList) 1 [{ track := 1 }] =
      some [{ track := 1, artist := some "Bob".toList }] ∧
    (parse_line env_both "REM ARTIST Bob x".toList [] ⟨1, 0, [{ track := 1 }], {}⟩).map
        (fun s => s.cuesheet_tracks) =
      some [{ track := 1, artist := some "Bob x".toList,
              album_artist := some "Bob x".toList }] ∧
    scan_comment env_both "CUE_TRACK01_ARTIST=Bob".toList ⟨[], none⟩ =
      some ⟨[{ artist := some "Bob".toList, album_artist := some "Bob".toList }], none⟩ ∧
    resolve_key env_both "ARTIST".toList (some "Bob".toList) (some "Bob".toList)
        (some "Bob".toList) 1 [{ track := 1 }] ≠
      apply_match env_both (first_match env_both.md_map_generic "ARTIST".toList)
        (some "Bob".toList) (some "Bob".toList) 1 [{ track := 1 }] := by
  decide

/-! ### The comment scan -/

theorem getTrack_cast (ts : List MP3FILE) (T : Nat) (hT : 1 ≤ T) :
    getTrack ts ((T : Int) - 1) = ts[T - 1]? := by
  have e : ((T : Int) - 1).toNat = T - 1 := by omega
  unfold getTrack
  rw [if_pos (by omega), e]

theorem setTrack_cast (ts : List MP3FILE) (T : Nat) (hT : 1 ≤ T) (r : MP3FILE) :
    setTrack ts ((T : Int) - 1) r = ts.set (T - 1) r := by
  have e : ((T : Int) - 1).toNat = T - 1 := by omega
  unfold setTrack
  rw [e]

theorem grown_cast (ts : List MP3FILE) (T : Nat) :
    grown ts (T : Int) = ts ++ List.replicate (T - ts.length) MP3FILE.zero := by
  unfold grown
  split
  · simp
  · rename_i h
    have e : T - ts.length = 0 := by omega
    rw [e]
    simp

theorem grown_cast_getElem (ts : List MP3FILE) (T : Nat) (j : Nat) :
    (grown ts (T : Int))[j]? =
      if j < ts.length then ts[j]? else if j < T then some MP3FILE.zero else none := by
  rw [grown_cast]
  split
  · rename_i h
    exact List.getElem?_append_left h
  · rename_i h
    rw [List.getElem?_append_right (by omega), List.getElem?_replicate]
    split <;> split <;> first | rfl | omega

theorem grown_cast_length (ts : List MP3FILE) (T : Nat) :
    (grown ts (T : Int)).length = max ts.length T := by
  rw [grown_cast]
  simp
  omega

theorem grown_of_le (ts : List MP3FILE) (T : Nat) (h : T ≤ ts.length) :
    grown ts (T : Int) = ts := by
  unfold grown
  rw [if_neg (by omega)]

theorem apply_entry_some (env : Env) (e : metadata_map) (r : MP3FILE) (v : List Char) :
    ∃ r1, apply_entry env e r (some v) (some v) = some r1 := by
  unfold apply_entry
  split
  · exact ⟨_, rfl⟩
  · split
    · unfold assign_str
      split
      · exact ⟨_, rfl⟩
      · exact ⟨_, rfl⟩
    · unfold assign_int
      split
      · simp only []
        split <;> exact ⟨_, rfl⟩
      · exact ⟨_, rfl⟩

theorem apply_entry_getStr (env : Env) (e : metadata_map) (hd : e.handler_function = none)
    (r r1 : MP3FILE) (v : List Char) (h : apply_entry env e r (some v) (some v) = some r1)
    (f : StrField) :
    r1.getStr f =
      if e.field = FieldRef.str f ∧ r.getStr f = none then some v else r.getStr f := by
  unfold apply_entry at h
  rw [hd] at h
  simp only [] at h
  split at h
  · rename_i g hg
    rw [hg]
    unfold assign_str at h
    split at h
    · rename_i w hw
      cases h
      split
      · rename_i hc
        have e1 : g = f := by
          have := hc.1
          cases this
          rfl
        rw [e1, hc.2] at hw
        exact Option.noConfusion hw
      · rfl
    · rename_i hn
      simp only [] at h
      cases h
      rw [getStr_setStr]
      by_cases hfg : f = g
      · subst hfg
        simp [hn]
      · have : ¬ (FieldRef.str g = FieldRef.str f) := by
          intro hc
          cases hc
          exact hfg rfl
        simp [hfg, this]
  · rename_i g hg
    rw [hg]
    have hne : ¬ (FieldRef.int g = FieldRef.str f ∧ r.getStr f = none) := by
      rintro ⟨hc, _⟩
      cases hc
    rw [if_neg hne]
    unfold assign_int at h
    split at h
    · simp only [] at h
      split at h
      · cases h
        rfl
      · cases h
        exact getStr_setInt r g f _
    · cases h
      rfl

theorem cue_track_loop_match (env : Env) (name val : List Char) (T : Nat) (hT : 1 ≤ T)
    (ts : List MP3FILE) (tbl : List metadata_map) (e : metadata_map)
    (hm : first_match tbl name = some e) :
    ∃ r r1, (grown ts (T : Int))[T - 1]? = some r ∧
      apply_entry env e r (some val) (some val) = some r1 ∧
      cue_track_loop env name val T ts tbl = some ((grown ts (T : Int)).set (T - 1) r1) := by
  have hlen := grown_cast_length ts T
  have hlt : T - 1 < (grown ts (T : Int)).length := by omega
  obtain ⟨r1, hr1⟩ := apply_entry_some env e ((grown ts (T : Int))[T - 1]) val
  refine ⟨_, r1, List.getElem?_eq_getElem hlt, hr1, ?_⟩
  rw [cue_track_loop_first_match, hm]
  simp only [apply_match, getTrack_cast _ T hT, List.getElem?_eq_getElem hlt, hr1,
    setTrack_cast _ T hT]

theorem isDigit_range (c : Char) (h : c.isDigit = true) :
    (decide ('0' ≤ c) && decide (c ≤ '9')) = true := by
  simp only [Char.isDigit, Bool.and_eq_true, decide_eq_true_eq] at h
  simp only [Bool.and_eq_true, decide_eq_true_eq]
  exact ⟨h.1, h.2⟩

theorem scan_comment_cue_track (env : Env) (pre digits field value : List Char)
    (st : ScanState)
    (hpre : strcasecmp_eq pre "cue_track".toList = true)
    (hd : digits ≠ []) (hdig : ∀ c ∈ digits, c.isDigit = true)
    (h2 : decimal digits < 2147483648)
    (hf : field ≠ []) (hfe : ∀ c ∈ field, c ≠ '=') :
    scan_comment env (pre ++ (digits ++ '_' :: (field ++ '=' :: value))) st =
      match cue_track_loop env field value (decimal digits) st.cuesheet_tracks
          env.md_map_generic with
      | none => none
      | some ts =>
        match cue_track_loop env field value (decimal digits) ts env.md_map_vorbis with
        | none => none
        | some ts1 => some { st with cuesheet_tracks := ts1 } := by
  have hmap : pre.map Char.toLower = "cue_track".toList.map Char.toLower := by
    simpa [strcasecmp_eq] using hpre
  have hlen : pre.length = 9 := by
    have := congrArg List.length hmap
    simpa using this
  have hpfx : strncasecmp_eq "cue_track".toList
      (pre ++ (digits ++ '_' :: (field ++ '=' :: value))) 9 = true := by
    unfold strncasecmp_eq strcasecmp_eq
    rw [List.take_left' hlen, hmap]
    decide
  have htw : List.takeWhile (fun c => decide ('0' ≤ c) && decide (c ≤ '9'))
      (digits ++ '_' :: (field ++ '=' :: value)) = digits := by
    rw [List.takeWhile_append_of_pos (fun c hc => isDigit_range c (hdig c hc))]
    simp [List.takeWhile]
  have hdw : List.dropWhile (fun c => decide ('0' ≤ c) && decide (c ≤ '9'))
      (digits ++ '_' :: (field ++ '=' :: value)) = '_' :: (field ++ '=' :: value) := by
    rw [List.dropWhile_append_of_pos (fun c hc => isDigit_range c (hdig c hc))]
    simp [List.dropWhile]
  have hatoi : atoi digits = (decimal digits : Int) := by
    rw [atoi_of_digits digits hdig (by omega)]
    exact wrapInt32_of_range _ (by omega) (by omega)
  unfold scan_comment
  rw [if_pos hpfx]
  simp only [List.drop_left' hlen, htw, hdw, hatoi, strchr_append '=' field value hfe]
  simp [hd, hf]

theorem grown_set_props (ts : List MP3FILE) (T : Nat) (hT : 1 ≤ T) (r1 : MP3FILE) :
    ((grown ts (T : Int)).set (T - 1) r1).length = max ts.length T ∧
    (∀ j, j < ts.length → j ≠ T - 1 →
      ((grown ts (T : Int)).set (T - 1) r1)[j]? = ts[j]?) ∧
    (∀ j, ts.length ≤ j → j < T → j ≠ T - 1 →
      ((grown ts (T : Int)).set (T - 1) r1)[j]? = some MP3FILE.zero) ∧
    ((grown ts (T : Int)).set (T - 1) r1)[T - 1]? = some r1 := by
  have hlen := grown_cast_length ts T
  refine ⟨by simp [hlen], fun j hj hne => ?_, fun j hj hjT hne => ?_, ?_⟩
  · rw [List.getElem?_set_ne (Ne.symm hne), grown_cast_getElem, if_pos hj]
  · rw [List.getElem?_set_ne (Ne.symm hne), grown_cast_getElem, if_neg (by omega), if_pos hjT]
  · rw [List.getElem?_set_self (by omega)]

theorem grown_base_unset (ts : List MP3FILE) (T : Nat) (r0 : MP3FILE) (f : StrField)
    (h0 : (grown ts (T : Int))[T - 1]? = some r0)
    (hu : ∀ r, ts[T - 1]? = some r → r.getStr f = none) : r0.getStr f = none := by
  rw [grown_cast_getElem] at h0
  split at h0
  · exact hu r0 h0
  · split at h0
    · cases h0
      cases f <;> rfl
    · exact Option.noConfusion h0

/-- C17 (amended).  The comment scan on an entry `CUE_TRACK<NN>_<FIELD>=<value>`: prefix in
any case, `NN` one or more digits with `1 ≤ NN < 2^31`, `FIELD` not empty and without `=`.
If `FIELD` matches no entry of either key table, the table is left as it is.  If it matches
an entry, the table afterwards has `max(n, NN)` entries, the old entries other than track
`NN` are as before and the new ones other than track `NN` are all-zero; and, when the first
entry that matches in one of the tables assigns a string field which track `NN` has not
set, and neither that entry nor the first entry that matches in the other table has a
handler, that field of track `NN` becomes `<value>`. -/
theorem comment_entry_scan (env : Env) (pre digits field value : List Char) (st : ScanState)
    (hpre : strcasecmp_eq pre "cue_track".toList = true)
    (hd : digits ≠ []) (hdig : ∀ c ∈ digits, c.isDigit = true)
    (h1 : 1 ≤ decimal digits) (h2 : decimal digits < 2147483648)
    (hf : field ≠ []) (hfe : ∀ c ∈ field, c ≠ '=') :
    ∃ ts1, scan_comment env (pre ++ (digits ++ '_' :: (field ++ '=' :: value))) st =
        some ⟨ts1, st.cuesheet⟩ ∧
      (first_match env.md_map_generic field = none →
        first_match env.md_map_vorbis field = none → ts1 = st.cuesheet_tracks) ∧
      ((first_match env.md_map_generic field).isSome = true ∨
          (first_match env.md_map_vorbis field).isSome = true →
        ts1.length = max st.cuesheet_tracks.length (decimal digits) ∧
        (∀ j, j < st.cuesheet_tracks.length → j ≠ decimal digits - 1 →
          ts1[j]? = st.cuesheet_tracks[j]?) ∧
        (∀ j, st.cuesheet_tracks.length ≤ j → j < decimal digits → j ≠ decimal digits - 1 →
          ts1[j]? = some MP3FILE.zero) ∧
        ((∀ e, first_match env.md_map_generic field = some e ∨
              first_match env.md_map_vorbis field = some e → e.handler_function = none) →
          ∀ e f, first_match env.md_map_generic field = some e ∨
              first_match env.md_map_vorbis field = some e →
            e.field = FieldRef.str f →
            (∀ r, st.cuesheet_tracks[decimal digits - 1]? = some r → r.getStr f = none) →
            ∃ r, ts1[decimal digits - 1]? = some r ∧ r.getStr f = some value)) := by
  rw [scan_comment_cue_track env pre digits field value st hpre hd hdig h2 hf hfe]
  generalize decimal digits = T at h1
  have hform : ∀ rf,
      ((grown st.cuesheet_tracks (T : Int)).set (T - 1) rf).length =
          max st.cuesheet_tracks.length T ∧
        (∀ j, j < st.cuesheet_tracks.length → j ≠ T - 1 →
          ((grown st.cuesheet_tracks (T : Int)).set (T - 1) rf)[j]? =
            st.cuesheet_tracks[j]?) ∧
        (∀ j, st.cuesheet_tracks.length ≤ j → j < T → j ≠ T - 1 →
          ((grown st.cuesheet_tracks (T : Int)).set (T - 1) rf)[j]? = some MP3FILE.zero) :=
    fun rf =>
      ⟨(grown_set_props _ T h1 rf).1, (grown_set_props _ T h1 rf).2.1,
        (grown_set_props _ T h1 rf).2.2.1⟩
  cases hg : first_match env.md_map_generic field with
  | none =>
    have lg : cue_track_loop env field value T st.cuesheet_tracks env.md_map_generic =
        some st.cuesheet_tracks := by
      rw [cue_track_loop_first_match, hg]
    rw [lg]
    simp only []
    cases hv : first_match env.md_map_vorbis field with
    | none =>
      have lv : cue_track_loop env field value T st.cuesheet_tracks env.md_map_vorbis =
          some st.cuesheet_tracks := by
        rw [cue_track_loop_first_match, hv]
      rw [lv]
      refine ⟨st.cuesheet_tracks, rfl, fun _ _ => rfl, fun h => ?_⟩
      simp at h
    | some ev =>
      obtain ⟨r0, r1, hr, ha, hl⟩ :=
        cue_track_loop_match env field value T h1 st.cuesheet_tracks _ ev hv
      rw [hl]
      refine ⟨_, rfl, fun _ h => Option.noConfusion h, fun h => ?_⟩
      obtain ⟨p1, p2, p3⟩ := hform r1
      refine ⟨p1, p2, p3, fun hdir e f he hef hu => ?_⟩
      refine ⟨r1, (grown_set_props _ T h1 r1).2.2.2, ?_⟩
      have he1 : e = ev := by
        rcases he with he | he
        · exact Option.noConfusion he
        · cases he
          rfl
      subst he1
      rw [apply_entry_getStr env e (hdir e (Or.inr rfl)) r0 r1 value ha f]
      rw [if_pos ⟨hef, grown_base_unset _ T r0 f hr hu⟩]
  | some eg =>
    obtain ⟨r0, rA, hr, ha, hl⟩ :=
      cue_track_loop_match env field value T h1 st.cuesheet_tracks _ eg hg
    rw [hl]
    simp only []
    have hA := grown_set_props st.cuesheet_tracks T h1 rA
    cases hv : first_match env.md_map_vorbis field with
    | none =>
      have lv : cue_track_loop env field value T
          ((grown st.cuesheet_tracks (T : Int)).set (T - 1) rA) env.md_map_vorbis =
          some ((grown st.cuesheet_tracks (T : Int)).set (T - 1) rA) := by
        rw [cue_track_loop_first_match, hv]
      rw [lv]
      refine ⟨_, rfl, fun h _ => Option.noConfusion h, fun h => ?_⟩
      obtain ⟨p1, p2, p3⟩ := hform rA
      refine ⟨p1, p2, p3, fun hdir e f he hef hu => ?_⟩
      refine ⟨rA, hA.2.2.2, ?_⟩
      have he1 : e = eg := by
        rcases he with he | he
        · cases he
          rfl
        · exact Option.noConfusion he
      subst he1
      rw [apply_entry_getStr env e (hdir e (Or.inl rfl)) r0 rA value ha f]
      rw [if_pos ⟨hef, grown_base_unset _ T r0 f hr hu⟩]
    | some ev =>
      obtain ⟨rA1, rB, hr2, hb, hl2⟩ :=
        cue_track_loop_match env field value T h1
          ((grown st.cuesheet_tracks (T : Int)).set (T - 1) rA) _ ev hv
      have hgro : grown ((grown st.cuesheet_tracks (T : Int)).set (T - 1) rA) (T : Int) =
          (grown st.cuesheet_tracks (T : Int)).set (T - 1) rA :=
        grown_of_le _ T (by rw [hA.1]; omega)
      rw [hgro] at hr2 hl2
      rw [hA.2.2.2] at hr2
      cases hr2
      rw [hl2, List.set_set]
      refine ⟨_, rfl, fun h _ => Option.noConfusion h, fun h => ?_⟩
      obtain ⟨p1, p2, p3⟩ := hform rB
      refine ⟨p1, p2, p3, fun hdir e f he hef hu => ?_⟩
      refine ⟨rB, (grown_set_props _ T h1 rB).2.2.2, ?_⟩
      have dA := apply_entry_getStr env eg (hdir eg (Or.inl rfl)) r0 rA value ha f
      have dB := apply_entry_getStr env ev (hdir ev (Or.inr rfl)) rA rB value hb f
      have h0 := grown_base_unset _ T r0 f hr hu
      rcases he with he | he
      · cases he
        rw [if_pos ⟨hef, h0⟩] at dA
        rw [dB, dA]
        simp
      · cases he
        rw [dB]
        by_cases hAn : rA.getStr f = none
        · rw [if_pos ⟨hef, hAn⟩]
        · rw [if_neg (fun hc => hAn hc.2), dA]
          by_cases hc : eg.field = FieldRef.str f ∧ r0.getStr f = none
          · rw [if_pos hc]
          · rw [if_neg hc] at dA
            rw [dA] at hAn
            exact absurd h0 hAn

/-- Witness of C17 (amended): the entry `CUE_TRACK02_TITLE=Song` against an empty table. -/
theorem comment_entry_scan_witness :
    ∃ ts1, scan_comment env_direct
        ("CUE_TRACK".toList ++ ("02".toList ++ '_' :: ("TITLE".toList ++ '=' :: "Song".toList)))
        ⟨[], none⟩ = some ⟨ts1, none⟩ ∧
      ts1 = [{}, { title := some "Song".toList }] := by
  obtain ⟨ts1, e, _, _⟩ := comment_entry_scan env_direct "CUE_TRACK".toList "02".toList
    "TITLE".toList "Song".toList ⟨[], none⟩ (by decide) (by decide) (by decide) (by decide)
    (by decide) (by decide) (by decide)
  refine ⟨ts1, e, ?_⟩
  have e1 : scan_comment env_direct
      ("CUE_TRACK".toList ++ ("02".toList ++ '_' :: ("TITLE".toList ++ '=' :: "Song".toList)))
      ⟨[], none⟩ = some ⟨[{}, { title := some "Song".toList }], none⟩ := by
    decide
  rw [e1] at e
  cases e
  rfl

/-- Counterexample to C17 as stated: the entry `CUE_TRACK05_BOGUS=x`, whose field is in no
key table, leaves an empty table empty instead of growing it to 5 entries; the entry
`CUE_TRACK4294967297_TITLE=x`, whose number leaves the range of `int`, yields a table of
one entry; with `title` a direct assignment in the generic table and a handler entry in
the format-specific table, the entry `CUE_TRACK01_TITLE=x` leaves the title the handler
stores, not `x`; and with two entries for `title` in the generic table, the entry is applied
through the first one only, which assigns the artist, and the title stays unset. -/
theorem comment_entry_no_growth :
    scan_comment env_direct "CUE_TRACK05_BOGUS=x".toList ⟨[], none⟩ = some ⟨[], none⟩ ∧
    scan_comment env_direct "CUE_TRACK4294967297_TITLE=x".toList ⟨[], none⟩ =
      some ⟨[{ title := some "x".toList }], none⟩ ∧
    scan_comment env_handler "CUE_TRACK01_TITLE=x".toList ⟨[], none⟩ =
      some ⟨[{ title := some "handled".toList }], none⟩ ∧
    scan_comment env_shadow "CUE_TRACK01_TITLE=x".toList ⟨[], none⟩ =
      some ⟨[{ artist := some "x".toList }], none⟩ := by
  decide

/-! ### The cue-block scan -/

/-- Counterexample to C16 as stated: in a block with an audio track at 0, a track that is
not audio at 1000, an audio track at 2000 + 500 and the lead-out at 4000, the scan stores
the offsets 0, 1000, 2500, and gives track 2 the sample count 2500 = 2500 - 0, measured
from the last audio track, not 2500 - 1000. -/
theorem cue_block_non_audio :
    (scan_cue_block { samplerate := 44100 } block_mixed []).map
        (fun ts => ts.map (fun t => (t.sample_offset, t.sample_count, t.disabled))) =
      some [(0, 1000, 0), (1000, 2500, 1), (2500, 1500, 0)] := by
  decide

theorem getTrack_nat (ts : List MP3FILE) (i : Nat) : getTrack ts (i : Int) = ts[i]? := by
  unfold getTrack
  rw [if_pos (by omega)]
  rfl

theorem updTrack_nat (ts : List MP3FILE) (i : Nat) (f : MP3FILE → MP3FILE) (r : MP3FILE)
    (h : ts[i]? = some r) : updTrack ts (i : Int) f = some (ts.set i (f r)) := by
  unfold updTrack
  rw [getTrack_nat, h]
  rfl

theorem updTrack_pred (ts : List MP3FILE) (i : Nat) (hi : 1 ≤ i) (f : MP3FILE → MP3FILE)
    (r : MP3FILE) (h : ts[i - 1]? = some r) :
    updTrack ts ((i : Int) - 1) f = some (ts.set (i - 1) (f r)) := by
  have e : ((i : Int) - 1) = ((i - 1 : Nat) : Int) := by omega
  rw [e]
  exact updTrack_nat ts (i - 1) f r h

theorem cue_block_loop_cons (pmp3 : MP3FILE) (c : CueTrack) (cs : List CueTrack)
    (lead : CueTrack) (i : Nat) (prev_offset : Int) (ts : List MP3FILE) :
    cue_block_loop pmp3 (c :: (cs ++ [lead])) i prev_offset ts =
      match getTrack ts i with
      | none => none
      | some r =>
        let r1 := if r.track = 0 then { r with track := i + 1 } else r
        let r2 := { r1 with subtrack := 1, sample_offset := stored_offset c }
        let ts1 := setTrack ts i r2
        let prev :=
          if i ≠ 0 then
            updTrack ts1 ((i : Int) - 1)
              (fun p => set_length pmp3
                { p with sample_count := r2.sample_offset - prev_offset })
          else some ts1
        match prev with
        | none => none
        | some ts2 =>
          if c.type = 1 then
            match updTrack ts2 i (fun r => { r with disabled := 1 }) with
            | none => none
            | some ts3 => cue_block_loop pmp3 (cs ++ [lead]) (i + 1) prev_offset ts3
          else cue_block_loop pmp3 (cs ++ [lead]) (i + 1) r2.sample_offset ts2 := by
  cases cs <;> rfl

theorem last_audio_concat (prev : Int) (cs : List CueTrack) (c : CueTrack) :
    last_audio prev (cs ++ [c]) =
      if c.type = 1 then last_audio prev cs else stored_offset c := by
  induction cs generalizing prev with
  | nil => rfl
  | cons d ds ih =>
    simp only [List.cons_append, last_audio]
    exact ih _

theorem setTrack_nat (ts : List MP3FILE) (i : Nat) (r : MP3FILE) :
    setTrack ts (i : Int) r = ts.set i r := rfl

theorem cue_block_loop_spec (pmp3 : MP3FILE) (lead : CueTrack) :
    ∀ (cs : List CueTrack) (i : Nat) (prev : Int) (ts : List MP3FILE),
      i + cs.length ≤ ts.length → 1 ≤ i + cs.length →
      ∃ ts1, cue_block_loop pmp3 (cs ++ [lead]) i prev ts = some ts1 ∧
        ts1.length = ts.length ∧
        (∀ j, j + 1 < i → ts1[j]? = ts[j]?) ∧
        (1 ≤ i → ∃ r0 r, ts[i - 1]? = some r0 ∧ ts1[i - 1]? = some r ∧
          r.sample_offset = r0.sample_offset ∧
          r.sample_count =
            (match cs with
              | [] => (lead.offset : Int)
              | c :: _ => stored_offset c) - prev) ∧
        (∀ k c, cs[k]? = some c → ∃ r, ts1[i + k]? = some r ∧
          r.sample_offset = stored_offset c ∧
          r.sample_count = next_offset cs lead k - last_audio prev (cs.take (k + 1))) := by
  intro cs
  induction cs with
  | nil =>
    intro i prev ts hlen hpos
    simp only [List.length_nil, Nat.add_zero] at hlen hpos
    have hlt : i - 1 < ts.length := by omega
    have hr0 : ts[i - 1]? = some ts[i - 1] := List.getElem?_eq_getElem hlt
    refine ⟨ts.set (i - 1) { ts[i - 1] with sample_count := (lead.offset : Int) - prev },
      ?_, by simp, fun j hj => ?_,
      fun _ => ⟨ts[i - 1], { ts[i - 1] with sample_count := (lead.offset : Int) - prev },
        hr0, ?_, rfl, rfl⟩,
      fun k c hk => ?_⟩
    · show updTrack ts ((i : Int) - 1) _ = _
      rw [updTrack_pred ts i hpos _ _ hr0]
    · rw [List.getElem?_set_ne (by omega)]
    · rw [List.getElem?_set_self hlt]
    · simp at hk
  | cons c cs ih =>
    intro i prev ts hlen hpos
    simp only [List.length_cons] at hlen
    have hi : i < ts.length := by omega
    have hr : ts[i]? = some ts[i] := List.getElem?_eq_getElem hi
    rw [List.cons_append, cue_block_loop_cons, getTrack_nat, hr]
    simp only [setTrack_nat]
    generalize hr2 : ({ (if ts[i].track = 0 then { ts[i] with track := i + 1 } else ts[i]) with
      subtrack := 1, sample_offset := stored_offset c } : MP3FILE) = r2
    have hso : r2.sample_offset = stored_offset c := by
      rw [← hr2]
    -- the store into the previous track
    have hprev : ∃ ts2,
        (if i ≠ 0 then
          updTrack (ts.set i r2) ((i : Int) - 1)
            (fun p => set_length pmp3 { p with sample_count := stored_offset c - prev })
        else some (ts.set i r2)) = some ts2 ∧
        ts2.length = ts.length ∧ ts2[i]? = some r2 ∧
        (∀ j, j + 1 < i → ts2[j]? = ts[j]?) ∧
        (1 ≤ i → ∃ r0 r, ts[i - 1]? = some r0 ∧ ts2[i - 1]? = some r ∧
          r.sample_offset = r0.sample_offset ∧ r.sample_count = stored_offset c - prev) := by
      by_cases h0 : i = 0
      · subst h0
        refine ⟨ts.set 0 r2, by simp, by simp, ?_, fun j hj => by omega, fun h => by omega⟩
        exact List.getElem?_set_self hi
      · have hlt : i - 1 < ts.length := by omega
        have hp : (ts.set i r2)[i - 1]? = some ts[i - 1] := by
          rw [List.getElem?_set_ne (by omega)]
          exact List.getElem?_eq_getElem hlt
        have hf := set_length_fields pmp3
          { ts[i - 1] with sample_count := stored_offset c - prev }
        refine ⟨(ts.set i r2).set (i - 1)
          (set_length pmp3 { ts[i - 1] with sample_count := stored_offset c - prev }),
          ?_, by simp, ?_, fun j hj => ?_,
          fun _ => ⟨ts[i - 1], _, List.getElem?_eq_getElem hlt, ?_, hf.1, ?_⟩⟩
        · rw [if_pos h0, updTrack_pred _ i (by omega) _ _ hp]
        · rw [List.getElem?_set_ne (by omega)]
          exact List.getElem?_set_self hi
        · rw [List.getElem?_set_ne (by omega), List.getElem?_set_ne (by omega)]
        · exact List.getElem?_set_self (by simp; omega)
        · rw [hf.2.1]
    obtain ⟨ts2, e2, l2, g2, p2, q2⟩ := hprev
    rw [e2]
    simp only []
    -- the type flag
    have htype : ∃ ts3 r3,
        (if c.type = 1 then
          match updTrack ts2 (i : Int) (fun r => { r with disabled := 1 }) with
          | none => none
          | some ts3 => cue_block_loop pmp3 (cs ++ [lead]) (i + 1) prev ts3
        else cue_block_loop pmp3 (cs ++ [lead]) (i + 1) (stored_offset c) ts2) =
          cue_block_loop pmp3 (cs ++ [lead]) (i + 1)
            (if c.type = 1 then prev else stored_offset c) ts3 ∧
        ts3.length = ts.length ∧ ts3[i]? = some r3 ∧ r3.sample_offset = stored_offset c ∧
        (∀ j, j ≠ i → ts3[j]? = ts2[j]?) := by
      by_cases ht : c.type = 1
      · refine ⟨ts2.set i { r2 with disabled := 1 }, { r2 with disabled := 1 }, ?_,
          by simp [l2], List.getElem?_set_self (by omega), hso,
          fun j hj => List.getElem?_set_ne (Ne.symm hj)⟩
        rw [if_pos ht, if_pos ht, updTrack_nat ts2 i _ r2 g2]
      · refine ⟨ts2, r2, ?_, l2, g2, hso, fun _ _ => rfl⟩
        rw [if_neg ht, if_neg ht]
    obtain ⟨ts3, r3, e3, l3, g3, s3, p3⟩ := htype
    rw [e3]
    obtain ⟨ts4, e4, l4, early, entry, later⟩ :=
      ih (i + 1) (if c.type = 1 then prev else stored_offset c) ts3 (by omega) (by omega)
    refine ⟨ts4, e4, by omega, fun j hj => ?_, fun h1 => ?_, fun k d hk => ?_⟩
    · rw [early j (by omega), p3 j (by omega), p2 j hj]
    · obtain ⟨r0, r, a1, a2, a3, a4⟩ := q2 h1
      refine ⟨r0, r, a1, ?_, a3, a4⟩
      rw [early (i - 1) (by omega), p3 (i - 1) (by omega)]
      exact a2
    · cases k with
      | zero =>
        simp only [List.getElem?_cons_zero, Option.some.injEq] at hk
        subst hk
        obtain ⟨r0, r, a1, a2, a3, a4⟩ := entry (by omega)
        simp only [Nat.add_sub_cancel] at a1 a2
        rw [g3] at a1
        cases a1
        refine ⟨r, a2, by rw [a3, s3], ?_⟩
        rw [a4]
        simp only [Nat.zero_add, List.take_succ_cons, List.take_zero, last_audio]
        unfold next_offset
        cases cs with
        | nil => simp
        | cons e es => simp
      | succ k =>
        simp only [List.getElem?_cons_succ] at hk
        obtain ⟨r, b1, b2, b3⟩ := later k d hk
        have eidx : i + (k + 1) = i + 1 + k := by omega
        refine ⟨r, by rw [eidx]; exact b1, b2, ?_⟩
        rw [b3]
        simp only [List.take_succ_cons, last_audio]
        unfold next_offset
        simp only [List.getElem?_cons_succ]

/-- C16 (amended).  Native cue-block scan durations: for every block of real tracks `1..n`
(`n ≥ 1`) followed by a lead-out, the scan runs through, leaves a table of `max(m, n)`
entries, stores for each real track its offset (track offset plus the offset of its index
point 1), and gives it the sample count `next - base`, where `next` is the offset stored for
the following track, or the offset of the lead-out for track `n`, and `base` is the track's
own stored offset when the track is audio, and the offset stored for the last audio track
before it (0 when there is none) when it is not. -/
theorem cue_block_durations (pmp3 : MP3FILE) (real : List CueTrack) (lead : CueTrack)
    (ts : List MP3FILE) (hn : 1 ≤ real.length) :
    ∃ ts1, scan_cue_block pmp3 (real ++ [lead]) ts = some ts1 ∧
      ts1.length = max ts.length real.length ∧
      ∀ i c, real[i]? = some c → ∃ r, ts1[i]? = some r ∧
        r.sample_offset = stored_offset c ∧
        r.sample_count =
          next_offset real lead i -
            (if c.type = 1 then last_audio 0 (real.take i) else stored_offset c) := by
  have hgl := grown_cast_length ts real.length
  obtain ⟨ts1, e1, l1, _, _, later⟩ :=
    cue_block_loop_spec pmp3 lead real 0 0 (grown ts (real.length : Int))
      (by omega) (by omega)
  have hblock : scan_cue_block pmp3 (real ++ [lead]) ts =
      cue_block_loop pmp3 (real ++ [lead]) 0 0 (grown ts (real.length : Int)) := by
    cases real with
    | nil => simp at hn
    | cons c cs =>
      simp only [scan_cue_block, List.cons_append, List.length_cons, List.length_append,
        List.length_nil]
      congr 2
      push_cast
      omega
  refine ⟨ts1, by rw [hblock, e1], by omega, fun i c hc => ?_⟩
  obtain ⟨r, b1, b2, b3⟩ := later i c hc
  refine ⟨r, by simpa using b1, b2, ?_⟩
  rw [b3, List.take_succ, hc]
  simp only [Option.toList]
  rw [last_audio_concat]

/-- Witness of C16 (amended): the block with an audio track, a track that is not audio, an
audio track and the lead-out. -/
theorem cue_block_durations_witness :
    ∃ ts1, scan_cue_block { samplerate := 44100 } block_mixed [] = some ts1 ∧
      ts1.map (fun t => (t.sample_offset, t.sample_count)) =
        [(0, 1000), (1000, 2500), (2500, 1500)] := by
  obtain ⟨ts1, e, _, _⟩ := cue_block_durations { samplerate := 44100 }
    [⟨0, 0, []⟩, ⟨1000, 1, []⟩, ⟨2000, 0, [⟨0, 0⟩, ⟨500, 1⟩]⟩] ⟨4000, 0, []⟩ [] (by decide)
  refine ⟨ts1, e, ?_⟩
  have e1 : scan_cue_block { samplerate := 44100 } block_mixed [] =
      some [{ track := 1, subtrack := 1, sample_count := 1000, song_length := 22 },
        { track := 2, subtrack := 1, sample_offset := 1000, sample_count := 2500,
          song_length := 56, disabled := 1 },
        { track := 3, subtrack := 1, sample_offset := 2500, sample_count := 1500 }] := by
    decide
  have e2 : scan_cue_block { samplerate := 44100 }
      ([⟨0, 0, []⟩, ⟨1000, 1, []⟩, ⟨2000, 0, [⟨0, 0⟩, ⟨500, 1⟩]⟩] ++ [⟨4000, 0, []⟩]) [] =
      scan_cue_block { samplerate := 44100 } block_mixed [] := rfl
  rw [e2, e1] at e
  cases e
  rfl

/-! ### Unrecognised directives and the text behind a token -/

/-- A line whose first token is none of the recognised directives leaves the state as it
is. -/
theorem parse_line_unrecognised (env : Env) (line after : List Char) (st : ParseState)
    (d : Token) (hd : read_token line = some d)
    (h : ∀ n ∈ directives, strcasecmp_eq d.token n = false) :
    parse_line env line after st = some st := by
  have c (n : String) (hn : n.toList ∈ directives) :
      strcasecmp_eq d.token n.toList = false := h _ hn
  unfold parse_line
  rw [hd]
  simp only [c "catalog" (by decide), c "cdtextfile" (by decide), c "file" (by decide),
    c "flags" (by decide), c "index" (by decide), c "isrc" (by decide),
    c "performer" (by decide), c "postgap" (by decide), c "pregap" (by decide),
    c "rem" (by decide), c "songwriter" (by decide), c "title" (by decide),
    c "track" (by decide), Bool.false_eq_true, if_false]

theorem cut_lines_cons (c : Char) (cs : List Char) :
    cut_lines (c :: cs) =
      if c = '\n' then ([], cs) :: cut_lines cs
      else
        match cut_lines cs with
        | [] => []
        | (l, after) :: more => (c :: l, after) :: more := by
  rw [cut_lines]

theorem cut_lines_line (l s : List Char) (hl : ∀ c ∈ l, c ≠ '\n') :
    cut_lines (l ++ '\n' :: s) = (l, s) :: cut_lines s := by
  induction l with
  | nil => simp [cut_lines_cons]
  | cons x xs ih =>
    have hx : x ≠ '\n' := hl x (List.mem_cons_self _ _)
    have ih1 := ih (fun c hc => hl c (List.mem_cons_of_mem _ hc))
    rw [List.cons_append, cut_lines_cons, if_neg hx, ih1]

/-- An unrecognised line in front of a cuesheet is skipped: the parse of the text behind it
goes on from the same state. -/
theorem parse_lines_skip_unrecognised (env : Env) (l s : List Char) (st : ParseState)
    (d : Token) (hl : ∀ c ∈ l, c ≠ '\n') (hd : read_token l = some d)
    (h : ∀ n ∈ directives, strcasecmp_eq d.token n = false) :
    parse_lines env (cut_lines (l ++ '\n' :: s)) st = parse_lines env (cut_lines s) st := by
  rw [cut_lines_line l s hl]
  simp only [parse_lines, parse_line_unrecognised env l s st d hd h]

theorem scan_quoted_append (s : List Char) : (scan_quoted s).1 ++ (scan_quoted s).2 = s := by
  suffices h : ∀ n (l : List Char), l.length ≤ n →
      (scan_quoted l).1 ++ (scan_quoted l).2 = l from
    h _ _ (le_refl _)
  intro n
  induction n with
  | zero =>
    intro l hl
    cases l with
    | nil => rfl
    | cons _ _ => simp at hl
  | succ n ih =>
    intro l hl
    cases l with
    | nil => rfl
    | cons x xs =>
      rw [scan_quoted_cons]
      split
      · simp
      · split
        · cases xs with
          | nil => simp
          | cons d ds =>
            have := ih ds (by simp at hl; omega)
            simp only [List.cons_append, this]
        · have := ih xs (by simp at hl; omega)
          simp only [List.cons_append, this]

theorem token_body_append (c : Char) (cs : List Char) :
    (token_body c cs).1 ++ (token_body c cs).2 = cs := by
  unfold token_body
  split
  · have h := scan_quoted_append cs
    split
    · rename_i inner he
      rw [he] at h
      simpa using h
    · rename_i inner q tl he
      rw [he] at h
      simpa using h
  · exact scan_plain_append cs

/-- The buffer under a call of `read_token` that returns a token: skipped white space, the
token and, when the token does not end the string, the character that was overwritten, the
white space skipped behind it and the string left. -/
theorem read_token_decompose (s : List Char) (t : Token) (h : read_token s = some t) :
    s = (skip_blank s).1 ++ (t.token ++
      (match t.term with
        | some c => c :: (t.gap ++ t.rest)
        | none => [])) ∧
    (t.term = none → t.gap = [] ∧ t.rest = []) := by
  have h0 := skip_blank_append s
  unfold read_token at h
  split at h
  · exact Option.noConfusion h
  · rename_i c cs hs
    rw [hs] at h0
    have h1 := token_body_append c cs
    split at h
    · rename_i body hb
      rw [hb] at h1
      cases h
      simp only [List.append_nil] at h1
      refine ⟨?_, fun _ => ⟨rfl, rfl⟩⟩
      simp only [List.append_nil]
      rw [h1]
      exact h0.symm
    · rename_i body x tl hb
      rw [hb] at h1
      cases h
      simp only [] at h1 ⊢
      refine ⟨?_, fun hc => Option.noConfusion hc⟩
      rw [skip_blank_append tl, List.cons_append, h1]
      exact h0.symm

/-- When a space ended the value token of a free-form `REM`, the value handed to the
resolver is the text of the line from the first character of the token on. -/
theorem resplice_of_space (s : List Char) (t : Token) (after : List Char)
    (h : read_token s = some t) (hs : t.term = some ' ') :
    s = (skip_blank s).1 ++ resplice t after := by
  have hd := (read_token_decompose s t h).1
  rw [hs] at hd
  unfold resplice
  rw [hs]
  exact hd

/-- A free-form `REM` key that is in neither key table leaves the state as it is, also in
album scope. -/
theorem rem_freeform_no_match (env : Env) (val line after : List Char) (st : ParseState)
    (hg : first_match env.md_map_generic
      (rem_key_loop (line.length + 1) val line).1 = none)
    (hv : first_match env.md_map_vorbis
      (rem_key_loop (line.length + 1) val line).1 = none) :
    rem_freeform env val line after st = some st := by
  unfold rem_freeform resolve_key
  simp only [key_loop_first_match, hg, hv, apply_match]

/-- Witness of C15 (amended): the key `TITLE`, which only the generic table of `env_direct`
holds, resolved for track 1. -/
theorem resolver_consults_both_tables_witness :
    first_match env_direct.md_map_vorbis "TITLE".toList = none ∧
    resolve_key env_direct "TITLE".toList (some "Song".toList) (some "Song".toList)
        (some "Song".toList) 1 [{ track := 1 }] =
      apply_match env_direct (first_match env_direct.md_map_generic "TITLE".toList)
        (some "Song".toList) (some "Song".toList) 1 [{ track := 1 }] :=
  ⟨rfl,
    (resolver_consults_both_tables env_direct "TITLE".toList (some "Song".toList)
      (some "Song".toList) (some "Song".toList) [] 1 [{ track := 1 }]).2.1 rfl⟩

/-! ### Cuesheets without a `TRACK` line -/

/-- C21.  For every cuesheet with no `TRACK` line that carries an argument, every track table
and every album record whose sample count is known (`> 0`), `parse_cuesheet` has no defined
result: either a line of the cuesheet already goes outside the table or the line loop ends
with `track = 0`, and the final fix of the sample count then goes to entry
`track - 1 = -1` of the table. -/
theorem no_track_known_sample_count (env : Env) (cuesheet : List Char)
    (cuesheet_tracks : List MP3FILE) (pmp3 : MP3FILE)
    (hno : track_numbers cuesheet = []) (hN : pmp3.sample_count > 0) :
    parse_cuesheet env cuesheet cuesheet_tracks pmp3 = none := by
  unfold parse_cuesheet
  cases hloop : parse_lines env (cut_lines cuesheet) ⟨0, 0, cuesheet_tracks, pmp3⟩ with
  | none => rfl
  | some st =>
    have ht := (parse_lines_track env _ _ _ hloop).1
    have hno1 : (cut_lines cuesheet).filterMap (fun l => track_number l.1) = [] := hno
    rw [hno1] at ht
    simp only [List.getLast?_nil, Option.getD_none] at ht
    have hcount := (parse_lines_rel (anyRel_track env) (sameTiming_album env) _ _ _ hloop).2.2
    simp only [] at hcount
    have hN1 : st.pmp3.sample_count > 0 := by
      rw [hcount]
      exact hN
    simp only [finish, hN1, if_true, ht, getTrack]
    rfl

/-- Witness of C21: an album title and a blank line, an empty table and the 6-minute album
record. -/
theorem no_track_known_sample_count_witness :
    track_numbers "TITLE \"Album\"\n\n".toList = [] ∧ album_scenario.sample_count > 0 ∧
    parse_cuesheet env_direct "TITLE \"Album\"\n\n".toList [] album_scenario = none :=
  ⟨by decide, by decide,
    no_track_known_sample_count env_direct "TITLE \"Album\"\n\n".toList [] album_scenario
      (by decide) (by decide)⟩

/-! ### Accesses to the track table stay inside it -/

theorem in_table_iff (i : Int) (n : Nat) :
    (⟨i, n⟩ : Access).in_table = true ↔ 0 ≤ i ∧ i < (n : Int) := by
  simp [Access.in_table]

theorem grown_length (ts : List MP3FILE) (K : Int) :
    (grown ts K).length = max ts.length K.toNat := by
  unfold grown
  split
  · rename_i h
    rw [List.length_append, List.length_replicate]
    omega
  · rename_i h
    omega

theorem current_entry_in_table (st : ParseState) (hin : TrackInTable st) :
    ∀ a ∈ current_entry st, a.in_table = true := by
  intro a ha
  unfold current_entry at ha
  split at ha
  · rename_i h0
    simp only [List.mem_singleton] at ha
    subst ha
    rw [in_table_iff]
    rcases hin with h | h
    · exact absurd h h0
    · omega
  · simp at ha

theorem key_loop_accesses_in_table (key : List Char) (track : Int) (tracks : Nat)
    (h1 : 1 ≤ track) (h2 : track ≤ (tracks : Int)) (tbl : List metadata_map) :
    ∀ a ∈ key_loop_accesses key track tracks tbl, a.in_table = true := by
  induction tbl with
  | nil =>
    intro a ha
    simp [key_loop_accesses] at ha
  | cons e es ih =>
    intro a ha
    simp only [key_loop_accesses] at ha
    split at ha
    · simp only [List.mem_singleton] at ha
      subst ha
      rw [in_table_iff]
      omega
    · exact ih a ha

theorem resolve_key_accesses_in_table (env : Env) (key : List Char) (track : Int)
    (tracks : Nat) (h1 : 1 ≤ track) (h2 : track ≤ (tracks : Int)) :
    ∀ a ∈ resolve_key_accesses env key track tracks, a.in_table = true := by
  intro a ha
  unfold resolve_key_accesses at ha
  rcases List.mem_append.mp ha with h | h
  · exact key_loop_accesses_in_table key track tracks h1 h2 _ a h
  · exact key_loop_accesses_in_table key track tracks h1 h2 _ a h

theorem flags_accesses_in_table (track : Int) (tracks : Nat)
    (hin : track = 0 ∨ (1 ≤ track ∧ track ≤ (tracks : Int))) (fuel : Nat) :
    ∀ (line : List Char), ∀ a ∈ flags_accesses track tracks fuel line, a.in_table = true := by
  induction fuel with
  | zero =>
    intro line a ha
    simp [flags_accesses] at ha
  | succ n ih =>
    intro line a ha
    simp only [flags_accesses] at ha
    split at ha
    · simp at ha
    · split at ha
      · rename_i hc
        simp only [Bool.and_eq_true, decide_eq_true_eq] at hc
        simp only [List.mem_singleton] at ha
        subst ha
        rw [in_table_iff]
        omega
      · exact ih _ a ha

theorem index_accesses_in_table (line : List Char) (st : ParseState) (hin : TrackInTable st) :
    ∀ a ∈ index_accesses line st, a.in_table = true := by
  intro a ha
  unfold TrackInTable at hin
  unfold index_accesses at ha
  split at ha
  · rename_i hc
    split at ha
    · simp at ha
    · split at ha
      · simp at ha
      · split at ha
        · split at ha
          · simp at ha
          · rcases List.mem_cons.mp ha with h | h
            · subst h
              rw [in_table_iff]
              omega
            · split at h
              · simp only [List.mem_singleton] at h
                subst h
                rw [in_table_iff]
                omega
              · simp at h
        · simp at ha
  · simp at ha

theorem text_accesses_in_table (line : List Char) (st : ParseState) (hin : TrackInTable st) :
    ∀ a ∈ text_accesses line st, a.in_table = true := by
  intro a ha
  unfold text_accesses at ha
  split at ha
  · simp at ha
  · exact current_entry_in_table st hin a ha

theorem track_accesses_in_table (line : List Char) (st : ParseState)
    (h : ∀ t, read_token line = some t → 1 ≤ atoi t.token) :
    ∀ a ∈ track_accesses line st, a.in_table = true := by
  intro a ha
  unfold track_accesses at ha
  split at ha
  · simp at ha
  · rename_i t ht
    have hK := h t ht
    simp only [] at ha
    have hlen := grown_length st.cuesheet_tracks (atoi t.token)
    rcases List.mem_append.mp ha with h1 | h1
    · split at h1
      · rename_i hgt
        obtain ⟨i, hi, rfl⟩ := List.mem_map.mp h1
        rw [List.mem_range'_1] at hi
        rw [in_table_iff, hlen]
        omega
      · simp at h1
    · simp only [List.mem_singleton] at h1
      subst h1
      rw [in_table_iff, hlen]
      omega

theorem rem_quoted_accesses_in_table (env : Env) (val : List Char) (st : ParseState)
    (h1 : 1 ≤ st.track) (h2 : st.track ≤ (st.cuesheet_tracks.length : Int)) :
    ∀ a ∈ rem_quoted_accesses env val st, a.in_table = true := by
  intro a ha
  unfold rem_quoted_accesses at ha
  split at ha
  · split at ha
    · exact resolve_key_accesses_in_table env _ _ _ h1 h2 a ha
    · simp at ha
  · simp at ha

theorem rem_accesses_in_table (env : Env) (line : List Char) (st : ParseState)
    (hin : TrackInTable st)
    (hk : st.track = 0 →
      ∀ t, read_token line = some t → (freeform_key t.token || quoted_key t.token) = false) :
    ∀ a ∈ rem_accesses env line st, a.in_table = true := by
  intro a ha
  unfold rem_accesses at ha
  split at ha
  · simp at ha
  · rename_i t ht
    by_cases hcaps : all_caps t.token = true
    · rw [if_pos hcaps] at ha
      by_cases c0 : strcasecmp_eq t.token "comment".toList = true
      · rw [if_pos c0] at ha
        exact current_entry_in_table st hin a ha
      rw [if_neg c0] at ha
      by_cases c1 : strcasecmp_eq t.token "date".toList = true
      · rw [if_pos c1] at ha
        exact current_entry_in_table st hin a ha
      rw [if_neg c1] at ha
      by_cases c2 : strcasecmp_eq t.token "discid".toList = true
      · rw [if_pos c2] at ha
        simp at ha
      rw [if_neg c2] at ha
      by_cases c3 : strcasecmp_eq t.token "genre".toList = true
      · rw [if_pos c3] at ha
        exact current_entry_in_table st hin a ha
      rw [if_neg c3] at ha
      rcases hin with h0 | ⟨h1, h2⟩
      · have hf := hk h0 t ht
        simp only [freeform_key, hcaps, c0, c1, c2, c3, Bool.or_eq_false_iff] at hf
        simp at hf
      · exact resolve_key_accesses_in_table env _ _ _ h1 h2 a ha
    · rw [if_neg hcaps] at ha
      split at ha
      · rename_i hq
        rcases hin with h0 | ⟨h1, h2⟩
        · have hf := hk h0 t ht
          simp only [quoted_key, hcaps, hq, Bool.or_eq_false_iff] at hf
          simp at hf
        · exact rem_quoted_accesses_in_table env _ st h1 h2 a ha
      · simp at ha

theorem line_accesses_in_table (env : Env) (line : List Char) (st : ParseState)
    (hin : TrackInTable st) (hrem : st.track = 0 → keyed_rem line = false)
    (hnum : ∀ K, track_number line = some K → 1 ≤ K) :
    ∀ a ∈ line_accesses env line st, a.in_table = true := by
  intro a ha
  unfold line_accesses at ha
  cases hd : read_token line with
  | none =>
    rw [hd] at ha
    simp at ha
  | some d =>
    rw [hd] at ha
    simp only [] at ha
    by_cases c0 : strcasecmp_eq d.token "catalog".toList = true
    · rw [if_pos c0] at ha
      simp at ha
    rw [if_neg c0] at ha
    by_cases c1 : strcasecmp_eq d.token "cdtextfile".toList = true
    · rw [if_pos c1] at ha
      simp at ha
    rw [if_neg c1] at ha
    by_cases c2 : strcasecmp_eq d.token "file".toList = true
    · rw [if_pos c2] at ha
      simp at ha
    rw [if_neg c2] at ha
    by_cases c3 : strcasecmp_eq d.token "flags".toList = true
    · rw [if_pos c3] at ha
      exact flags_accesses_in_table _ _ hin _ _ a ha
    rw [if_neg c3] at ha
    by_cases c4 : strcasecmp_eq d.token "index".toList = true
    · rw [if_pos c4] at ha
      exact index_accesses_in_table _ st hin a ha
    rw [if_neg c4] at ha
    by_cases c5 : strcasecmp_eq d.token "isrc".toList = true
    · rw [if_pos c5] at ha
      simp at ha
    rw [if_neg c5] at ha
    by_cases c6 : strcasecmp_eq d.token "performer".toList = true
    · rw [if_pos c6] at ha
      exact text_accesses_in_table _ st hin a ha
    rw [if_neg c6] at ha
    by_cases c7 : strcasecmp_eq d.token "postgap".toList = true
    · rw [if_pos c7] at ha
      simp at ha
    rw [if_neg c7] at ha
    by_cases c8 : strcasecmp_eq d.token "pregap".toList = true
    · rw [if_pos c8] at ha
      simp at ha
    rw [if_neg c8] at ha
    by_cases c9 : strcasecmp_eq d.token "rem".toList = true
    · rw [if_pos c9] at ha
      refine rem_accesses_in_table env _ st hin (fun h0 t ht => ?_) a ha
      have hk := hrem h0
      simp only [keyed_rem, rem_token, hd, c9, if_true, ht, Option.map_some'] at hk
      exact hk
    rw [if_neg c9] at ha
    by_cases c10 : strcasecmp_eq d.token "songwriter".toList = true
    · rw [if_pos c10] at ha
      exact text_accesses_in_table _ st hin a ha
    rw [if_neg c10] at ha
    by_cases c11 : strcasecmp_eq d.token "title".toList = true
    · rw [if_pos c11] at ha
      exact text_accesses_in_table _ st hin a ha
    rw [if_neg c11] at ha
    by_cases c12 : strcasecmp_eq d.token "track".toList = true
    · rw [if_pos c12] at ha
      refine track_accesses_in_table _ st (fun t ht => ?_) a ha
      apply hnum
      simp only [track_number, hd, c12, if_true, ht, Option.map_some']
    rw [if_neg c12] at ha
    simp at ha

theorem finish_accesses_in_table (st : ParseState) (hin : TrackInTable st)
    (hfin : st.track ≠ 0 ∨ st.pmp3.sample_count ≤ 0) :
    ∀ a ∈ finish_accesses st, a.in_table = true := by
  intro a ha
  unfold finish_accesses at ha
  split at ha
  · rename_i hN
    simp only [List.mem_singleton] at ha
    subst ha
    rw [in_table_iff]
    rcases hfin with h | h
    · rcases hin with h0 | h1
      · exact absurd h0 h
      · omega
    · omega
  · simp at ha

/-- The accesses of the line loop and of the end of `parse_cuesheet`, from a state whose
current track is 0 or inside the table, all lie inside the table. -/
theorem lines_accesses_in_table (env : Env) (ls : List (List Char × List Char)) :
    ∀ (st : ParseState), TrackInTable st →
    (∀ K ∈ ls.filterMap (fun l => track_number l.1), 1 ≤ K) →
    (st.track = 0 → album_scope_plain (ls.map Prod.fst) = true) →
    (st.track ≠ 0 ∨ ls.filterMap (fun l => track_number l.1) ≠ [] ∨
      st.pmp3.sample_count ≤ 0) →
    ∀ a ∈ lines_accesses env ls st, a.in_table = true := by
  induction ls with
  | nil =>
    intro st hin _ _ hfin a ha
    simp only [lines_accesses] at ha
    refine finish_accesses_in_table st hin ?_ a ha
    rcases hfin with h | h | h
    · exact Or.inl h
    · simp at h
    · exact Or.inr h
  | cons l more ih =>
    obtain ⟨line, after⟩ := l
    intro st hin hnum hscope hfin a ha
    simp only [lines_accesses] at ha
    have hnum0 : ∀ K, track_number line = some K → 1 ≤ K := by
      intro K hK
      apply hnum
      simp only [List.filterMap_cons, hK]
      exact List.mem_cons_self _ _
    have hnum1 : ∀ K ∈ more.filterMap (fun l => track_number l.1), 1 ≤ K := by
      intro K hK
      apply hnum
      cases hk : track_number line with
      | none =>
        simp only [List.filterMap_cons, hk]
        exact hK
      | some K0 =>
        simp only [List.filterMap_cons, hk]
        exact List.mem_cons_of_mem _ hK
    have hrem0 : st.track = 0 → keyed_rem line = false := by
      intro h0
      have hs := hscope h0
      simp only [List.map_cons, album_scope_plain] at hs
      cases hk : track_number line with
      | none =>
        rw [hk] at hs
        simp only [Option.isSome_none, Bool.false_eq_true, if_false, Bool.and_eq_true,
          Bool.not_eq_true'] at hs
        exact hs.1
      | some K0 =>
        have h1 := hnum0 K0 hk
        cases hkr : keyed_rem line with
        | false => rfl
        | true =>
          exfalso
          simp only [keyed_rem, rem_token] at hkr
          simp only [track_number] at hk
          cases hd : read_token line with
          | none =>
            rw [hd] at hk
            exact Option.noConfusion hk
          | some d =>
            rw [hd] at hk hkr
            simp only [] at hk hkr
            by_cases ct : strcasecmp_eq d.token "track".toList = true
            · have e := strcasecmp_eq_congr ct "rem".toList
              rw [e] at hkr
              have e2 : strcasecmp_eq "track".toList "rem".toList = false := by decide
              rw [e2] at hkr
              simp at hkr
            · rw [if_neg ct] at hk
              exact Option.noConfusion hk
    rcases List.mem_append.mp ha with h | h
    · exact line_accesses_in_table env line st hin hrem0 hnum0 a h
    · cases hp : parse_line env line after st with
      | none =>
        rw [hp] at h
        simp at h
      | some st1 =>
        rw [hp] at h
        simp only [] at h
        have htr := (parse_line_track env line after st st1 hp).1
        have hin1 := parse_line_inTable env line after st st1 hp hin
        have hcount :=
          (parse_line_rel (anyRel_track env) (sameTiming_album env) line after st st1 hp).2.2
        refine ih st1 hin1 hnum1 ?_ ?_ a h
        · intro h0
          cases hk : track_number line with
          | none =>
            rw [hk] at htr
            simp only [Option.getD_none] at htr
            have hs := hscope (htr ▸ h0)
            simp only [List.map_cons, album_scope_plain, hk, Option.isSome_none,
              Bool.false_eq_true, if_false, Bool.and_eq_true] at hs
            exact hs.2
          | some K0 =>
            rw [hk] at htr
            simp only [Option.getD_some] at htr
            have := hnum0 K0 hk
            omega
        · cases hk : track_number line with
          | none =>
            rw [hk] at htr
            simp only [Option.getD_none] at htr
            rcases hfin with hf | hf | hf
            · exact Or.inl (htr ▸ hf)
            · simp only [List.filterMap_cons, hk] at hf
              exact Or.inr (Or.inl hf)
            · refine Or.inr (Or.inr ?_)
              rw [hcount]
              exact hf
          | some K0 =>
            rw [hk] at htr
            simp only [Option.getD_some] at htr
            have := hnum0 K0 hk
            left
            omega

/-- C22 (amended).  Table accesses of `parse_cuesheet` under well-formedness, for every
cuesheet, key tables, table passed in and album record.  If every newline-terminated `TRACK`
line with an argument carries a number that `atoi` reads as `≥ 1`, no `REM` line with a
free-form or quoted key stands before the first such `TRACK` line, and the cuesheet has such
a `TRACK` line or the album's sample count is not `> 0`, then in every state the line loop
reaches the current track `t` is 0 or `1 ≤ t ≤` table length, and every access to the track
table -- entry `t - 1`, entry `t - 2` of the `INDEX` branch, the entries cleared when the
table grows -- lies inside the table. -/
theorem table_accesses_in_table (env : Env) (cuesheet : List Char)
    (cuesheet_tracks : List MP3FILE) (pmp3 : MP3FILE)
    (hnum : ∀ K ∈ track_numbers cuesheet, 1 ≤ K)
    (hscope : album_scope_plain ((cut_lines cuesheet).map Prod.fst) = true)
    (hfin : track_numbers cuesheet ≠ [] ∨ pmp3.sample_count ≤ 0) :
    (∀ pre post st, cut_lines cuesheet = pre ++ post →
      parse_lines env pre ⟨0, 0, cuesheet_tracks, pmp3⟩ = some st → TrackInTable st) ∧
    (parse_cuesheet_accesses env cuesheet cuesheet_tracks pmp3).all Access.in_table = true := by
  constructor
  · intro pre post st _ hp
    exact (parse_lines_track env pre _ st hp).2 (Or.inl rfl)
  · rw [List.all_eq_true]
    refine lines_accesses_in_table env (cut_lines cuesheet) ⟨0, 0, cuesheet_tracks, pmp3⟩
      (Or.inl rfl) hnum (fun _ => hscope) ?_
    rcases hfin with h | h
    · exact Or.inr (Or.inl h)
    · exact Or.inr (Or.inr h)

/-- Witness of C22: the cuesheet of the end-to-end scenario, parsed from an empty table with
the 6-minute album record. -/
theorem table_accesses_in_table_witness :
    (∀ K ∈ track_numbers cue_scenario, 1 ≤ K) ∧
    album_scope_plain ((cut_lines cue_scenario).map Prod.fst) = true ∧
    track_numbers cue_scenario ≠ [] ∧
    (parse_cuesheet_accesses env_direct cue_scenario [] album_scenario).all Access.in_table =
      true :=
  ⟨by decide, by decide, by decide,
    (table_accesses_in_table env_direct cue_scenario [] album_scenario (by decide) (by decide)
      (Or.inl (by decide))).2⟩

/-- C22 (counterexample).  The cuesheet `TRACK 01 AUDIO` without a newline at its end is a
`TRACK` line carrying the number 1, but the line loop visits no line of it: with an album
sample count of 1 the end of `parse_cuesheet` goes to entry `-1` of the empty table.  The
line `TRACK 4294967296` carries a number `≥ 1` that `atoi` reads as 0: the `TRACK` branch
goes to entry `-1` of the empty table.  The line `TRACK 18446744073709551617` carries a
number `≥ 1` that `atoi` reads as `-1`: the `TRACK` branch goes to entry `-2`. -/
theorem unterminated_track_line_out_of_table :
    track_number "TRACK 01 AUDIO".toList = some 1 ∧
    cut_lines "TRACK 01 AUDIO".toList = [] ∧
    parse_cuesheet_accesses env_direct "TRACK 01 AUDIO".toList [] { sample_count := 1 } =
      [⟨-1, 0⟩] ∧
    (⟨-1, 0⟩ : Access).in_table = false ∧
    parse_cuesheet env_direct "TRACK 01 AUDIO".toList [] { sample_count := 1 } = none ∧
    track_numbers "TRACK 4294967296\n".toList = [0] ∧
    parse_cuesheet_accesses env_direct "TRACK 4294967296\n".toList [] {} = [⟨-1, 0⟩] ∧
    track_numbers "TRACK 18446744073709551617\n".toList = [-1] ∧
    parse_cuesheet_accesses env_direct "TRACK 18446744073709551617\n".toList []
        { sample_count := 1 } = [⟨-2, 0⟩] ∧
    parse_cuesheet env_direct "TRACK 18446744073709551617\n".toList [] { sample_count := 1 } =
      none := by
  decide

/-! ### Text behind the last newline -/

theorem cut_lines_no_newline (t : List Char) (ht : ∀ x ∈ t, x ≠ '\n') : cut_lines t = [] := by
  induction t with
  | nil => rfl
  | cons x xs ih =>
    have hx : x ≠ '\n' := ht x (List.mem_cons_self _ _)
    rw [cut_lines_cons, if_neg hx, ih (fun y hy => ht y (List.mem_cons_of_mem _ hy))]

/-- Text without a newline appended to a cuesheet adds no line: the lines are the same, each
followed in the buffer by the appended text as well. -/
theorem cut_lines_append_tail (c t : List Char) (ht : ∀ x ∈ t, x ≠ '\n') :
    cut_lines (c ++ t) = (cut_lines c).map (fun l => (l.1, l.2 ++ t)) := by
  induction c with
  | nil =>
    rw [List.nil_append, cut_lines_no_newline t ht]
    rfl
  | cons x xs ih =>
    rw [List.cons_append, cut_lines_cons, cut_lines_cons, ih]
    by_cases hx : x = '\n'
    · rw [if_pos hx, if_pos hx]
      rfl
    · rw [if_neg hx, if_neg hx]
      cases cut_lines xs with
      | nil => rfl
      | cons l more => rfl

/-- Only a free-form key makes branch `REM` read the text behind the line. -/
theorem do_rem_after (env : Env) (line after after1 : List Char) (st : ParseState)
    (h : ∀ t, read_token line = some t → freeform_key t.token = false) :
    do_rem env line after st = do_rem env line after1 st := by
  unfold do_rem
  cases ht : read_token line with
  | none => rfl
  | some t =>
    simp only []
    by_cases hcaps : all_caps t.token = true
    · rw [if_pos hcaps, if_pos hcaps]
      by_cases c0 : strcasecmp_eq t.token "comment".toList = true
      · rw [if_pos c0, if_pos c0]
      rw [if_neg c0, if_neg c0]
      by_cases c1 : strcasecmp_eq t.token "date".toList = true
      · rw [if_pos c1, if_pos c1]
      rw [if_neg c1, if_neg c1]
      by_cases c2 : strcasecmp_eq t.token "discid".toList = true
      · rw [if_pos c2, if_pos c2]
      rw [if_neg c2, if_neg c2]
      by_cases c3 : strcasecmp_eq t.token "genre".toList = true
      · rw [if_pos c3, if_pos c3]
      rw [if_neg c3, if_neg c3]
      have hf := h t ht
      simp only [freeform_key, hcaps, c0, c1, c2, c3] at hf
      simp at hf
    · rw [if_neg hcaps, if_neg hcaps]

/-- A line step reads the text behind the line only for a `REM` line with a free-form key. -/
theorem parse_line_after (env : Env) (line after after1 : List Char) (st : ParseState)
    (h : freeform_rem line = false) :
    parse_line env line after st = parse_line env line after1 st := by
  unfold parse_line
  cases hd : read_token line with
  | none => rfl
  | some d =>
    simp only []
    by_cases c9 : strcasecmp_eq d.token "rem".toList = true
    · have e : do_rem env d.rest after st = do_rem env d.rest after1 st := by
        refine do_rem_after env d.rest after after1 st (fun t ht => ?_)
        simp only [freeform_rem, rem_token, hd, c9, if_true, ht, Option.map_some'] at h
        exact h
      rw [e]
    · rw [if_neg c9, if_neg c9]

theorem parse_lines_after (env : Env) (t : List Char) (ls : List (List Char × List Char))
    (h : ∀ l ∈ ls, freeform_rem l.1 = false) (st : ParseState) :
    parse_lines env (ls.map (fun l => (l.1, l.2 ++ t))) st = parse_lines env ls st := by
  induction ls generalizing st with
  | nil => rfl
  | cons l more ih =>
    obtain ⟨line, after⟩ := l
    simp only [List.map_cons, parse_lines]
    rw [parse_line_after env line (after ++ t) after st (h _ (List.mem_cons_self _ _))]
    cases parse_line env line after st with
    | none => rfl
    | some st1 =>
      simp only []
      exact ih (fun l hl => h l (List.mem_cons_of_mem _ hl)) st1

/-- C23.  Text behind the last newline is never dispatched.  For every cuesheet `c` none of
whose newline-terminated lines is a `REM` line with a free-form key, and every text `t`
without a newline character, `parse_cuesheet` on `c ++ t` has the same result as on `c`:
the same return value, album record and track table, or no defined result in both cases. -/
theorem unterminated_last_line_not_dispatched (env : Env) (c t : List Char)
    (cuesheet_tracks : List MP3FILE) (pmp3 : MP3FILE)
    (ht : ∀ x ∈ t, x ≠ '\n')
    (hfree : ∀ l ∈ cut_lines c, freeform_rem l.1 = false) :
    parse_cuesheet env (c ++ t) cuesheet_tracks pmp3 =
      parse_cuesheet env c cuesheet_tracks pmp3 := by
  unfold parse_cuesheet
  rw [cut_lines_append_tail c t ht, parse_lines_after env t (cut_lines c) hfree]

/-- Witness of C23: the cuesheet of the end-to-end scenario followed by an `INDEX` line
without a newline.  The result is the one of the scenario alone, which is defined. -/
theorem unterminated_last_line_not_dispatched_witness :
    (∀ x ∈ "INDEX 02 04:00:00".toList, x ≠ '\n') ∧
    (∀ l ∈ cut_lines cue_scenario, freeform_rem l.1 = false) ∧
    (parse_cuesheet env_direct cue_scenario [] album_scenario).isSome = true ∧
    parse_cuesheet env_direct (cue_scenario ++ "INDEX 02 04:00:00".toList) [] album_scenario =
      parse_cuesheet env_direct cue_scenario [] album_scenario :=
  ⟨by decide, by decide, by decide,
    unterminated_last_line_not_dispatched env_direct cue_scenario "INDEX 02 04:00:00".toList []
      album_scenario (by decide) (by decide)⟩

/-! ### Album scope: lines before the first `TRACK` line -/

theorem flags_loop_album (ts : List MP3FILE) (tracks fuel : Nat) :
    ∀ line : List Char, flags_loop 0 ts fuel line = some ts ∧
      flags_accesses 0 tracks fuel line = [] := by
  induction fuel with
  | zero =>
    intro line
    exact ⟨rfl, rfl⟩
  | succ n ih =>
    intro line
    simp only [flags_loop, flags_accesses]
    cases read_token line with
    | none => exact ⟨rfl, rfl⟩
    | some t =>
      simp only [ne_eq, not_true_eq_false, decide_False, Bool.and_false, Bool.false_eq_true,
        if_false]
      exact ih t.rest

/-- In album scope a line that is neither a `TRACK` line with a number nor a `REM` line with
a free-form or quoted key has a defined result, which leaves the current track at 0 and the
track table as it is. -/
theorem parse_line_album_scope (env : Env) (line after : List Char) (index : Int)
    (ts : List MP3FILE) (pmp3 : MP3FILE)
    (hk : track_number line = none) (hr : keyed_rem line = false) :
    ∃ index1 pmp31, parse_line env line after ⟨0, index, ts, pmp3⟩ =
      some ⟨0, index1, ts, pmp31⟩ := by
  unfold parse_line
  cases hd : read_token line with
  | none => exact ⟨_, _, rfl⟩
  | some d =>
    simp only []
    by_cases c0 : strcasecmp_eq d.token "catalog".toList = true
    · rw [if_pos c0]
      exact ⟨_, _, rfl⟩
    rw [if_neg c0]
    by_cases c1 : strcasecmp_eq d.token "cdtextfile".toList = true
    · rw [if_pos c1]
      exact ⟨_, _, rfl⟩
    rw [if_neg c1]
    by_cases c2 : strcasecmp_eq d.token "file".toList = true
    · rw [if_pos c2]
      exact ⟨_, _, rfl⟩
    rw [if_neg c2]
    by_cases c3 : strcasecmp_eq d.token "flags".toList = true
    · rw [if_pos c3]
      simp only [do_flags, (flags_loop_album ts 0 _ d.rest).1]
      exact ⟨_, _, rfl⟩
    rw [if_neg c3]
    by_cases c4 : strcasecmp_eq d.token "index".toList = true
    · rw [if_pos c4]
      simp only [do_index, ne_eq, not_true_eq_false, false_and, if_false]
      exact ⟨_, _, rfl⟩
    rw [if_neg c4]
    by_cases c5 : strcasecmp_eq d.token "isrc".toList = true
    · rw [if_pos c5]
      exact ⟨_, _, rfl⟩
    rw [if_neg c5]
    by_cases c6 : strcasecmp_eq d.token "performer".toList = true
    · rw [if_pos c6]
      unfold do_performer
      cases unquote ((read_token d.rest).map Token.token) with
      | none => exact ⟨_, _, rfl⟩
      | some val =>
        simp only [ne_eq, not_true_eq_false, if_false]
        exact ⟨_, _, rfl⟩
    rw [if_neg c6]
    by_cases c7 : strcasecmp_eq d.token "postgap".toList = true
    · rw [if_pos c7]
      exact ⟨_, _, rfl⟩
    rw [if_neg c7]
    by_cases c8 : strcasecmp_eq d.token "pregap".toList = true
    · rw [if_pos c8]
      exact ⟨_, _, rfl⟩
    rw [if_neg c8]
    by_cases c9 : strcasecmp_eq d.token "rem".toList = true
    · rw [if_pos c9]
      unfold do_rem
      cases ht : read_token d.rest with
      | none => exact ⟨_, _, rfl⟩
      | some t =>
        simp only [keyed_rem, rem_token, hd, c9, if_true, ht, Option.map_some',
          Bool.or_eq_false_iff] at hr
        simp only []
        by_cases hcaps : all_caps t.token = true
        · rw [if_pos hcaps]
          by_cases r0 : strcasecmp_eq t.token "comment".toList = true
          · rw [if_pos r0]
            simp only [rem_text, ne_eq, not_true_eq_false, if_false]
            exact ⟨_, _, rfl⟩
          rw [if_neg r0]
          by_cases r1 : strcasecmp_eq t.token "date".toList = true
          · rw [if_pos r1]
            simp only [rem_date, ne_eq, not_true_eq_false, if_false]
            exact ⟨_, _, rfl⟩
          rw [if_neg r1]
          by_cases r2 : strcasecmp_eq t.token "discid".toList = true
          · rw [if_pos r2]
            exact ⟨_, _, rfl⟩
          rw [if_neg r2]
          by_cases r3 : strcasecmp_eq t.token "genre".toList = true
          · rw [if_pos r3]
            simp only [rem_text, ne_eq, not_true_eq_false, if_false]
            exact ⟨_, _, rfl⟩
          rw [if_neg r3]
          have hf := hr.1
          simp only [freeform_key, hcaps, r0, r1, r2, r3] at hf
          simp at hf
        · rw [if_neg hcaps]
          by_cases hq : t.token.head? = some '"'
          · have hf := hr.2
            simp only [quoted_key, hcaps, hq] at hf
            simp at hf
          · rw [if_neg hq]
            exact ⟨_, _, rfl⟩
    rw [if_neg c9]
    by_cases c10 : strcasecmp_eq d.token "songwriter".toList = true
    · rw [if_pos c10]
      unfold do_songwriter
      cases unquote ((read_token d.rest).map Token.token) with
      | none => exact ⟨_, _, rfl⟩
      | some val =>
        simp only [ne_eq, not_true_eq_false, if_false]
        exact ⟨_, _, rfl⟩
    rw [if_neg c10]
    by_cases c11 : strcasecmp_eq d.token "title".toList = true
    · rw [if_pos c11]
      unfold do_title
      cases unquote ((read_token d.rest).map Token.token) with
      | none => exact ⟨_, _, rfl⟩
      | some val =>
        simp only [ne_eq, not_true_eq_false, if_false]
        exact ⟨_, _, rfl⟩
    rw [if_neg c11]
    by_cases c12 : strcasecmp_eq d.token "track".toList = true
    · rw [if_pos c12]
      simp only [track_number, hd, c12, if_true, Option.map_eq_none'] at hk
      simp only [do_track, hk]
      exact ⟨_, _, rfl⟩
    rw [if_neg c12]
    exact ⟨_, _, rfl⟩

/-- In album scope a line that is neither a `TRACK` line with a number nor a `REM` line with
a free-form or quoted key goes to no entry of the track table. -/
theorem line_accesses_album_scope (env : Env) (line : List Char) (index : Int)
    (ts : List MP3FILE) (pmp3 : MP3FILE)
    (hk : track_number line = none) (hr : keyed_rem line = false) :
    line_accesses env line ⟨0, index, ts, pmp3⟩ = [] := by
  unfold line_accesses
  cases hd : read_token line with
  | none => rfl
  | some d =>
    simp only []
    by_cases c0 : strcasecmp_eq d.token "catalog".toList = true
    · rw [if_pos c0]
    rw [if_neg c0]
    by_cases c1 : strcasecmp_eq d.token "cdtextfile".toList = true
    · rw [if_pos c1]
    rw [if_neg c1]
    by_cases c2 : strcasecmp_eq d.token "file".toList = true
    · rw [if_pos c2]
    rw [if_neg c2]
    by_cases c3 : strcasecmp_eq d.token "flags".toList = true
    · rw [if_pos c3]
      exact (flags_loop_album ts _ _ d.rest).2
    rw [if_neg c3]
    by_cases c4 : strcasecmp_eq d.token "index".toList = true
    · rw [if_pos c4]
      simp only [index_accesses, ne_eq, not_true_eq_false, false_and, if_false]
    rw [if_neg c4]
    by_cases c5 : strcasecmp_eq d.token "isrc".toList = true
    · rw [if_pos c5]
    rw [if_neg c5]
    have htext : ∀ l : List Char, text_accesses l ⟨0, index, ts, pmp3⟩ = [] := by
      intro l
      unfold text_accesses current_entry
      cases unquote ((read_token l).map Token.token) with
      | none => rfl
      | some val => simp
    by_cases c6 : strcasecmp_eq d.token "performer".toList = true
    · rw [if_pos c6]
      exact htext _
    rw [if_neg c6]
    by_cases c7 : strcasecmp_eq d.token "postgap".toList = true
    · rw [if_pos c7]
    rw [if_neg c7]
    by_cases c8 : strcasecmp_eq d.token "pregap".toList = true
    · rw [if_pos c8]
    rw [if_neg c8]
    by_cases c9 : strcasecmp_eq d.token "rem".toList = true
    · rw [if_pos c9]
      unfold rem_accesses
      cases ht : read_token d.rest with
      | none => rfl
      | some t =>
        simp only [keyed_rem, rem_token, hd, c9, if_true, ht, Option.map_some',
          Bool.or_eq_false_iff] at hr
        simp only []
        have hcur : current_entry ⟨0, index, ts, pmp3⟩ = [] := by
          simp [current_entry]
        by_cases hcaps : all_caps t.token = true
        · rw [if_pos hcaps]
          by_cases r0 : strcasecmp_eq t.token "comment".toList = true
          · rw [if_pos r0]
            exact hcur
          rw [if_neg r0]
          by_cases r1 : strcasecmp_eq t.token "date".toList = true
          · rw [if_pos r1]
            exact hcur
          rw [if_neg r1]
          by_cases r2 : strcasecmp_eq t.token "discid".toList = true
          · rw [if_pos r2]
          rw [if_neg r2]
          by_cases r3 : strcasecmp_eq t.token "genre".toList = true
          · rw [if_pos r3]
            exact hcur
          rw [if_neg r3]
          have hf := hr.1
          simp only [freeform_key, hcaps, r0, r1, r2, r3] at hf
          simp at hf
        · rw [if_neg hcaps]
          by_cases hq : t.token.head? = some '"'
          · have hf := hr.2
            simp only [quoted_key, hcaps, hq] at hf
            simp at hf
          · rw [if_neg hq]
    rw [if_neg c9]
    by_cases c10 : strcasecmp_eq d.token "songwriter".toList = true
    · rw [if_pos c10]
      exact htext _
    rw [if_neg c10]
    by_cases c11 : strcasecmp_eq d.token "title".toList = true
    · rw [if_pos c11]
      exact htext _
    rw [if_neg c11]
    by_cases c12 : strcasecmp_eq d.token "track".toList = true
    · rw [if_pos c12]
      simp only [track_number, hd, c12, if_true, Option.map_eq_none'] at hk
      simp only [track_accesses, hk]
    rw [if_neg c12]

/-- The line loop over lines that hold no `TRACK` line with a number and no `REM` line with a
free-form or quoted key, from album scope: the result is defined, the current track is
still 0, the track table is as it was, the timing fields of the album record are as they
were, and no entry of the table has been touched. -/
theorem parse_lines_album_scope (env : Env) (ls : List (List Char × List Char))
    (ts : List MP3FILE)
    (hk : ∀ l ∈ ls, track_number l.1 = none) (hr : ∀ l ∈ ls, keyed_rem l.1 = false) :
    ∀ (index : Int) (pmp3 : MP3FILE), ∃ index1 pmp31,
      parse_lines env ls ⟨0, index, ts, pmp3⟩ = some ⟨0, index1, ts, pmp31⟩ ∧
      sameTiming pmp3 pmp31 ∧
      lines_accesses env ls ⟨0, index, ts, pmp3⟩ =
        finish_accesses ⟨0, index1, ts, pmp31⟩ := by
  induction ls with
  | nil =>
    intro index pmp3
    exact ⟨index, pmp3, rfl, ⟨rfl, rfl⟩, rfl⟩
  | cons l more ih =>
    obtain ⟨line, after⟩ := l
    intro index pmp3
    have hk0 := hk _ (List.mem_cons_self _ _)
    have hr0 := hr _ (List.mem_cons_self _ _)
    obtain ⟨i1, p1, h1⟩ := parse_line_album_scope env line after index ts pmp3 hk0 hr0
    have ht1 := (parse_line_rel (anyRel_track env) (sameTiming_album env) _ _ _ _ h1).2
    obtain ⟨i2, p2, h2, ht2, h3⟩ := ih (fun l hl => hk l (List.mem_cons_of_mem _ hl))
      (fun l hl => hr l (List.mem_cons_of_mem _ hl)) i1 p1
    refine ⟨i2, p2, ?_, (sameTiming_album env).trans _ _ _ ht1 ht2, ?_⟩
    · simp only [parse_lines, h1]
      exact h2
    · simp only [lines_accesses, h1, line_accesses_album_scope env line index ts pmp3 hk0 hr0,
        List.nil_append]
      exact h3

/-- A cuesheet with no `TRACK` line that carries a number and no `REM` line with a free-form
or quoted key, parsed with an album record whose sample count is not `> 0`: `parse_cuesheet`
returns 0, hands the track table back as it was passed in and touches no entry of it. -/
theorem no_track_unknown_sample_count (env : Env) (cuesheet : List Char)
    (cuesheet_tracks : List MP3FILE) (pmp3 : MP3FILE)
    (hno : track_numbers cuesheet = [])
    (hr : ∀ l ∈ cut_lines cuesheet, keyed_rem l.1 = false)
    (hN : pmp3.sample_count ≤ 0) :
    (∃ res, parse_cuesheet env cuesheet cuesheet_tracks pmp3 = some res ∧ res.ret = 0 ∧
      res.cuesheet_tracks = cuesheet_tracks) ∧
    parse_cuesheet_accesses env cuesheet cuesheet_tracks pmp3 = [] := by
  have hk : ∀ l ∈ cut_lines cuesheet, track_number l.1 = none := by
    intro l hl
    cases h : track_number l.1 with
    | none => rfl
    | some K =>
      have hm : K ∈ track_numbers cuesheet := by
        unfold track_numbers
        exact List.mem_filterMap.mpr ⟨l, hl, h⟩
      rw [hno] at hm
      simp at hm
  obtain ⟨i1, p1, h1, ht, h3⟩ :=
    parse_lines_album_scope env (cut_lines cuesheet) cuesheet_tracks hk hr 0 pmp3
  have hN1 : ¬ p1.sample_count > 0 := by
    rw [ht.2]
    omega
  constructor
  · refine ⟨⟨0, cuesheet_tracks, { p1 with total_tracks := toUInt32 0 }⟩, ?_, rfl, rfl⟩
    simp only [parse_cuesheet, h1, finish, hN1, if_false]
  · simp only [parse_cuesheet_accesses, h3, finish_accesses, hN1, if_false]

/-! ### Well-formed cuesheets have a defined result -/

theorem updTrack_defined (ts : List MP3FILE) (i : Int) (f : MP3FILE → MP3FILE)
    (h0 : 0 ≤ i) (h1 : i < ts.length) :
    ∃ ts1, updTrack ts i f = some ts1 ∧ ts1.length = ts.length := by
  obtain ⟨r, hr⟩ := getTrack_of_range ts i h0 h1
  refine ⟨setTrack ts i (f r), ?_, ?_⟩
  · simp only [updTrack, hr]
  · simp [setTrack]

theorem flags_loop_defined (track : Int) (ts : List MP3FILE)
    (hin : track = 0 ∨ (1 ≤ track ∧ track ≤ (ts.length : Int))) (fuel : Nat) :
    ∀ line : List Char, ∃ ts1, flags_loop track ts fuel line = some ts1 := by
  induction fuel with
  | zero =>
    intro line
    exact ⟨_, rfl⟩
  | succ n ih =>
    intro line
    simp only [flags_loop]
    cases read_token line with
    | none => exact ⟨_, rfl⟩
    | some t =>
      simp only []
      split
      · rename_i hc
        simp only [Bool.and_eq_true, decide_eq_true_eq] at hc
        obtain ⟨ts1, h1, _⟩ := updTrack_defined ts (track - 1)
          (fun r => { r with disabled := 1 }) (by omega) (by omega)
        exact ⟨ts1, h1⟩
      · exact ih t.rest

theorem do_index_defined (line : List Char) (st : ParseState) (hin : TrackInTable st)
    (h : ∀ t1, read_token line = some t1 → (read_token t1.rest).isSome = true) :
    ∃ st1, do_index line st = some st1 := by
  unfold TrackInTable at hin
  unfold do_index
  split
  · rename_i hc
    cases h1 : read_token line with
    | none => exact ⟨_, rfl⟩
    | some t1 =>
      simp only []
      have h2 := h t1 h1
      cases h3 : read_token t1.rest with
      | none =>
        rw [h3] at h2
        exact absurd h2 (by simp)
      | some t2 =>
        simp only []
        split
        · cases read_token t2.rest with
          | none => exact ⟨_, rfl⟩
          | some t3 =>
            simp only []
            obtain ⟨cur, hcur⟩ := getTrack_of_range st.cuesheet_tracks (st.track - 1)
              (by omega) (by omega)
            rw [hcur]
            simp only []
            split
            · rename_i hgt
              obtain ⟨prev, hprev⟩ := getTrack_of_range
                (setTrack st.cuesheet_tracks (st.track - 1)
                  (msf_to_sample_offset t3.token st.pmp3 { cur with subtrack := 1 }))
                (st.track - 2) (by omega) (by simp only [setTrack, List.length_set]; omega)
              rw [hprev]
              exact ⟨_, rfl⟩
            · exact ⟨_, rfl⟩
        · exact ⟨_, rfl⟩
  · exact ⟨_, rfl⟩

theorem do_performer_defined (line : List Char) (st : ParseState) (hin : TrackInTable st) :
    ∃ st1, do_performer line st = some st1 := by
  unfold TrackInTable at hin
  unfold do_performer
  cases unquote ((read_token line).map Token.token) with
  | none => exact ⟨_, rfl⟩
  | some val =>
    simp only []
    split
    · rename_i h0
      obtain ⟨ts1, h1, _⟩ := updTrack_defined st.cuesheet_tracks (st.track - 1)
        (fun r => strdup_once r StrField.artist val) (by omega) (by omega)
      rw [h1]
      exact ⟨_, rfl⟩
    · exact ⟨_, rfl⟩

theorem do_songwriter_defined (line : List Char) (st : ParseState) (hin : TrackInTable st) :
    ∃ st1, do_songwriter line st = some st1 := by
  unfold TrackInTable at hin
  unfold do_songwriter
  cases unquote ((read_token line).map Token.token) with
  | none => exact ⟨_, rfl⟩
  | some val =>
    simp only []
    split
    · rename_i h0
      obtain ⟨ts1, h1, _⟩ := updTrack_defined st.cuesheet_tracks (st.track - 1)
        (fun r => strdup_once r StrField.composer val) (by omega) (by omega)
      rw [h1]
      exact ⟨_, rfl⟩
    · exact ⟨_, rfl⟩

theorem do_title_defined (line : List Char) (st : ParseState) (hin : TrackInTable st) :
    ∃ st1, do_title line st = some st1 := by
  unfold TrackInTable at hin
  unfold do_title
  cases unquote ((read_token line).map Token.token) with
  | none => exact ⟨_, rfl⟩
  | some val =>
    simp only []
    split
    · rename_i h0
      obtain ⟨ts1, h1, _⟩ := updTrack_defined st.cuesheet_tracks (st.track - 1)
        (fun r => strdup_once r StrField.title val) (by omega) (by omega)
      rw [h1]
      exact ⟨_, rfl⟩
    · exact ⟨_, rfl⟩

theorem do_track_defined (line : List Char) (st : ParseState)
    (h : ∀ t, read_token line = some t → 1 ≤ atoi t.token) :
    ∃ st1, do_track line st = some st1 := by
  rw [do_track_eq]
  cases ht : read_token line with
  | none => exact ⟨_, rfl⟩
  | some t =>
    simp only []
    have hK := h t ht
    have hlen := grown_length st.cuesheet_tracks (atoi t.token)
    obtain ⟨r, hr⟩ := getTrack_of_range (grown st.cuesheet_tracks (atoi t.token))
      (atoi t.token - 1) (by omega) (by rw [hlen]; omega)
    rw [hr]
    exact ⟨_, rfl⟩

theorem rem_text_defined (f : StrField) (line : List Char) (st : ParseState)
    (hin : TrackInTable st) : ∃ st1, rem_text f line st = some st1 := by
  unfold TrackInTable at hin
  unfold rem_text
  split
  · rename_i h0
    obtain ⟨ts1, h1, _⟩ := updTrack_defined st.cuesheet_tracks (st.track - 1)
      (fun r => strdup_once r f line) (by omega) (by omega)
    rw [h1]
    exact ⟨_, rfl⟩
  · exact ⟨_, rfl⟩

theorem rem_date_defined (env : Env) (line : List Char) (st : ParseState)
    (hin : TrackInTable st) : ∃ st1, rem_date env line st = some st1 := by
  unfold TrackInTable at hin
  unfold rem_date
  split
  · rename_i h0
    obtain ⟨ts1, h1, _⟩ := updTrack_defined st.cuesheet_tracks (st.track - 1)
      (fun r => year_once env r line) (by omega) (by omega)
    rw [h1]
    exact ⟨_, rfl⟩
  · exact ⟨_, rfl⟩

theorem apply_entry_defined (env : Env) (e : metadata_map) (r : MP3FILE) (v w : List Char) :
    ∃ r1, apply_entry env e r (some v) (some w) = some r1 := by
  unfold apply_entry
  split
  · exact ⟨_, rfl⟩
  · split
    · unfold assign_str
      split
      · exact ⟨_, rfl⟩
      · exact ⟨_, rfl⟩
    · unfold assign_int
      split
      · simp only []
        split <;> exact ⟨_, rfl⟩
      · exact ⟨_, rfl⟩

theorem key_loop_defined (env : Env) (key v w : List Char) (track : Int) (ts : List MP3FILE)
    (h1 : 1 ≤ track) (h2 : track ≤ (ts.length : Int)) (tbl : List metadata_map) :
    ∃ ts1, key_loop env key (some v) (some w) track ts tbl = some ts1 ∧
      ts1.length = ts.length := by
  induction tbl with
  | nil => exact ⟨ts, rfl, rfl⟩
  | cons e es ih =>
    simp only [key_loop]
    split
    · obtain ⟨r, hr⟩ := getTrack_of_range ts (track - 1) (by omega) (by omega)
      obtain ⟨r1, hr1⟩ := apply_entry_defined env e r v w
      rw [hr]
      simp only [hr1]
      exact ⟨_, rfl, by simp [setTrack]⟩
    · exact ih

theorem resolve_key_defined (env : Env) (key v w w2 : List Char) (track : Int)
    (ts : List MP3FILE) (h1 : 1 ≤ track) (h2 : track ≤ (ts.length : Int)) :
    ∃ ts1, resolve_key env key (some v) (some w) (some w2) track ts = some ts1 := by
  unfold resolve_key
  obtain ⟨ts1, e1, hl⟩ := key_loop_defined env key v w track ts h1 h2 env.md_map_generic
  rw [e1]
  simp only []
  obtain ⟨ts2, e2, _⟩ := key_loop_defined env key v w2 track ts1 h1 (by rw [hl]; exact h2)
    env.md_map_vorbis
  exact ⟨ts2, e2⟩

theorem rem_freeform_defined (env : Env) (val line after : List Char) (st : ParseState)
    (h1 : 1 ≤ st.track) (h2 : st.track ≤ (st.cuesheet_tracks.length : Int))
    (hv : (rem_key_loop (line.length + 1) val line).2.isSome = true) :
    ∃ st1, rem_freeform env val line after st = some st1 := by
  unfold rem_freeform
  simp only []
  cases hr : (rem_key_loop (line.length + 1) val line).2 with
  | none =>
    rw [hr] at hv
    exact absurd hv (by simp)
  | some t =>
    simp only [Option.map_some']
    obtain ⟨ts1, e1⟩ := resolve_key_defined env (rem_key_loop (line.length + 1) val line).1
      (resplice t after) (resplice t after) (resplice t after) st.track st.cuesheet_tracks h1 h2
    rw [e1]
    exact ⟨_, rfl⟩

theorem rem_quoted_defined (env : Env) (val : List Char) (st : ParseState)
    (h1 : 1 ≤ st.track) (h2 : st.track ≤ (st.cuesheet_tracks.length : Int)) :
    ∃ st1, rem_quoted env val st = some st1 := by
  unfold rem_quoted
  split
  · rename_i q x tail hq
    split
    · have hu : ∀ s : List Char, ∃ k, unquote (some s) = some k := by
        intro s
        unfold unquote
        cases s with
        | nil => exact ⟨_, rfl⟩
        | cons c cs =>
          simp only []
          split <;> exact ⟨_, rfl⟩
      obtain ⟨k, hk⟩ := hu (val.take (val.length - (tail.length + 1)))
      simp only [hk]
      obtain ⟨ts1, e1⟩ := resolve_key_defined env ((some k).getD []) tail tail k st.track
        st.cuesheet_tracks h1 h2
      rw [e1]
      exact ⟨_, rfl⟩
    · exact ⟨_, rfl⟩
  · exact ⟨_, rfl⟩

theorem do_rem_defined (env : Env) (line after : List Char) (st : ParseState)
    (hin : TrackInTable st)
    (hk : st.track = 0 →
      ∀ t, read_token line = some t → (freeform_key t.token || quoted_key t.token) = false)
    (hv : ∀ t, read_token line = some t → freeform_key t.token = true →
      (rem_key_loop (t.rest.length + 1) t.token t.rest).2.isSome = true) :
    ∃ st1, do_rem env line after st = some st1 := by
  unfold do_rem
  cases ht : read_token line with
  | none => exact ⟨_, rfl⟩
  | some t =>
    simp only []
    by_cases hcaps : all_caps t.token = true
    · rw [if_pos hcaps]
      by_cases c0 : strcasecmp_eq t.token "comment".toList = true
      · rw [if_pos c0]
        exact rem_text_defined _ _ st hin
      rw [if_neg c0]
      by_cases c1 : strcasecmp_eq t.token "date".toList = true
      · rw [if_pos c1]
        exact rem_date_defined env _ st hin
      rw [if_neg c1]
      by_cases c2 : strcasecmp_eq t.token "discid".toList = true
      · rw [if_pos c2]
        exact ⟨_, rfl⟩
      rw [if_neg c2]
      by_cases c3 : strcasecmp_eq t.token "genre".toList = true
      · rw [if_pos c3]
        exact rem_text_defined _ _ st hin
      rw [if_neg c3]
      have hfk : freeform_key t.token = true := by
        simp only [freeform_key, hcaps, c0, c1, c2, c3]
        rfl
      rcases hin with h0 | ⟨h1, h2⟩
      · have hf := hk h0 t ht
        rw [hfk] at hf
        simp at hf
      · exact rem_freeform_defined env _ _ _ st h1 h2 (hv t ht hfk)
    · rw [if_neg hcaps]
      split
      · rename_i hq
        rcases hin with h0 | ⟨h1, h2⟩
        · have hf := hk h0 t ht
          simp only [quoted_key, hcaps, hq, Bool.or_eq_false_iff] at hf
          simp at hf
        · exact rem_quoted_defined env _ st h1 h2
      · exact ⟨_, rfl⟩

/-- A line step from a state whose current track is 0 or inside the table has a defined
result when the line is no keyed `REM` in album scope, no `TRACK` with a number below 1 and
lacks no token. -/
theorem parse_line_defined (env : Env) (line after : List Char) (st : ParseState)
    (hin : TrackInTable st) (hrem : st.track = 0 → keyed_rem line = false)
    (hnum : ∀ K, track_number line = some K → 1 ≤ K) (hargs : args_present line = true) :
    ∃ st1, parse_line env line after st = some st1 := by
  unfold parse_line
  cases hd : read_token line with
  | none => exact ⟨_, rfl⟩
  | some d =>
    simp only []
    by_cases c0 : strcasecmp_eq d.token "catalog".toList = true
    · rw [if_pos c0]
      exact ⟨_, rfl⟩
    rw [if_neg c0]
    by_cases c1 : strcasecmp_eq d.token "cdtextfile".toList = true
    · rw [if_pos c1]
      exact ⟨_, rfl⟩
    rw [if_neg c1]
    by_cases c2 : strcasecmp_eq d.token "file".toList = true
    · rw [if_pos c2]
      exact ⟨_, rfl⟩
    rw [if_neg c2]
    by_cases c3 : strcasecmp_eq d.token "flags".toList = true
    · rw [if_pos c3]
      obtain ⟨ts1, h1⟩ := flags_loop_defined st.track st.cuesheet_tracks hin
        (d.rest.length + 1) d.rest
      simp only [do_flags, h1]
      exact ⟨_, rfl⟩
    rw [if_neg c3]
    by_cases c4 : strcasecmp_eq d.token "index".toList = true
    · rw [if_pos c4]
      refine do_index_defined _ st hin (fun t1 h1 => ?_)
      simp only [args_present, hd, c4, if_true, h1] at hargs
      exact hargs
    rw [if_neg c4]
    by_cases c5 : strcasecmp_eq d.token "isrc".toList = true
    · rw [if_pos c5]
      exact ⟨_, rfl⟩
    rw [if_neg c5]
    by_cases c6 : strcasecmp_eq d.token "performer".toList = true
    · rw [if_pos c6]
      exact do_performer_defined _ st hin
    rw [if_neg c6]
    by_cases c7 : strcasecmp_eq d.token "postgap".toList = true
    · rw [if_pos c7]
      exact ⟨_, rfl⟩
    rw [if_neg c7]
    by_cases c8 : strcasecmp_eq d.token "pregap".toList = true
    · rw [if_pos c8]
      exact ⟨_, rfl⟩
    rw [if_neg c8]
    by_cases c9 : strcasecmp_eq d.token "rem".toList = true
    · rw [if_pos c9]
      refine do_rem_defined env _ _ st hin (fun h0 t ht => ?_) (fun t ht hf => ?_)
      · have hk := hrem h0
        simp only [keyed_rem, rem_token, hd, c9, if_true, ht, Option.map_some'] at hk
        exact hk
      · simp only [args_present, hd, c4, c9, if_true, ht, hf, Bool.false_eq_true, if_false,
          Bool.not_true, Bool.false_or] at hargs
        exact hargs
    rw [if_neg c9]
    by_cases c10 : strcasecmp_eq d.token "songwriter".toList = true
    · rw [if_pos c10]
      exact do_songwriter_defined _ st hin
    rw [if_neg c10]
    by_cases c11 : strcasecmp_eq d.token "title".toList = true
    · rw [if_pos c11]
      exact do_title_defined _ st hin
    rw [if_neg c11]
    by_cases c12 : strcasecmp_eq d.token "track".toList = true
    · rw [if_pos c12]
      refine do_track_defined _ st (fun t ht => ?_)
      apply hnum
      simp only [track_number, hd, c12, if_true, ht, Option.map_some']
    rw [if_neg c12]
    exact ⟨_, rfl⟩

theorem track_line_not_keyed_rem (line : List Char) (K : Int)
    (hk : track_number line = some K) : keyed_rem line = false := by
  cases hkr : keyed_rem line with
  | false => rfl
  | true =>
    exfalso
    simp only [keyed_rem, rem_token] at hkr
    simp only [track_number] at hk
    cases hd : read_token line with
    | none =>
      rw [hd] at hk
      exact Option.noConfusion hk
    | some d =>
      rw [hd] at hk hkr
      simp only [] at hk hkr
      by_cases ct : strcasecmp_eq d.token "track".toList = true
      · have e := strcasecmp_eq_congr ct "rem".toList
        rw [e] at hkr
        have e2 : strcasecmp_eq "track".toList "rem".toList = false := by decide
        rw [e2] at hkr
        simp at hkr
      · rw [if_neg ct] at hk
        exact Option.noConfusion hk

/-- The line loop over well-formed lines has a defined result; the state it ends in has a
current track inside the table, or current track 0 with a sample count of the album that
is not `> 0`. -/
theorem parse_lines_defined (env : Env) (ls : List (List Char × List Char)) :
    ∀ (st : ParseState), TrackInTable st →
    (∀ K ∈ ls.filterMap (fun l => track_number l.1), 1 ≤ K) →
    (st.track = 0 → album_scope_plain (ls.map Prod.fst) = true) →
    (st.track ≠ 0 ∨ ls.filterMap (fun l => track_number l.1) ≠ [] ∨
      st.pmp3.sample_count ≤ 0) →
    (∀ l ∈ ls, args_present l.1 = true) →
    ∃ st1, parse_lines env ls st = some st1 ∧ TrackInTable st1 ∧
      (st1.track ≠ 0 ∨ st1.pmp3.sample_count ≤ 0) := by
  induction ls with
  | nil =>
    intro st hin _ _ hfin _
    refine ⟨st, rfl, hin, ?_⟩
    rcases hfin with h | h | h
    · exact Or.inl h
    · simp at h
    · exact Or.inr h
  | cons l more ih =>
    obtain ⟨line, after⟩ := l
    intro st hin hnum hscope hfin hargs
    have hnum0 : ∀ K, track_number line = some K → 1 ≤ K := by
      intro K hK
      apply hnum
      simp only [List.filterMap_cons, hK]
      exact List.mem_cons_self _ _
    have hnum1 : ∀ K ∈ more.filterMap (fun l => track_number l.1), 1 ≤ K := by
      intro K hK
      apply hnum
      cases hk : track_number line with
      | none =>
        simp only [List.filterMap_cons, hk]
        exact hK
      | some K0 =>
        simp only [List.filterMap_cons, hk]
        exact List.mem_cons_of_mem _ hK
    have hrem0 : st.track = 0 → keyed_rem line = false := by
      intro h0
      have hs := hscope h0
      simp only [List.map_cons, album_scope_plain] at hs
      cases hk : track_number line with
      | none =>
        rw [hk] at hs
        simp only [Option.isSome_none, Bool.false_eq_true, if_false, Bool.and_eq_true,
          Bool.not_eq_true'] at hs
        exact hs.1
      | some K0 => exact track_line_not_keyed_rem line K0 hk
    obtain ⟨st1, hp⟩ := parse_line_defined env line after st hin hrem0 hnum0
      (hargs _ (List.mem_cons_self _ _))
    have htr := (parse_line_track env line after st st1 hp).1
    have hin1 := parse_line_inTable env line after st st1 hp hin
    have hcount :=
      (parse_line_rel (anyRel_track env) (sameTiming_album env) line after st st1 hp).2.2
    have hscope1 : st1.track = 0 → album_scope_plain (more.map Prod.fst) = true := by
      intro h0
      cases hk : track_number line with
      | none =>
        rw [hk] at htr
        simp only [Option.getD_none] at htr
        have hs := hscope (htr ▸ h0)
        simp only [List.map_cons, album_scope_plain, hk, Option.isSome_none,
          Bool.false_eq_true, if_false, Bool.and_eq_true] at hs
        exact hs.2
      | some K0 =>
        rw [hk] at htr
        simp only [Option.getD_some] at htr
        have := hnum0 K0 hk
        omega
    have hfin1 : st1.track ≠ 0 ∨ more.filterMap (fun l => track_number l.1) ≠ [] ∨
        st1.pmp3.sample_count ≤ 0 := by
      cases hk : track_number line with
      | none =>
        rw [hk] at htr
        simp only [Option.getD_none] at htr
        rcases hfin with hf | hf | hf
        · exact Or.inl (htr ▸ hf)
        · simp only [List.filterMap_cons, hk] at hf
          exact Or.inr (Or.inl hf)
        · refine Or.inr (Or.inr ?_)
          rw [hcount]
          exact hf
      | some K0 =>
        rw [hk] at htr
        simp only [Option.getD_some] at htr
        have := hnum0 K0 hk
        left
        omega
    obtain ⟨st2, hp2, hin2, hfin2⟩ := ih st1 hin1 hnum1 hscope1 hfin1
      (fun l hl => hargs l (List.mem_cons_of_mem _ hl))
    refine ⟨st2, ?_, hin2, hfin2⟩
    simp only [parse_lines, hp]
    exact hp2

/-- A well-formed cuesheet in which no `INDEX` line and no free-form `REM` line lacks a token
has a defined result: under the conditions of the theorem on table accesses, no step of
`parse_cuesheet` goes outside the track table or dereferences `NULL`. -/
theorem parse_cuesheet_defined (env : Env) (cuesheet : List Char)
    (cuesheet_tracks : List MP3FILE) (pmp3 : MP3FILE)
    (hnum : ∀ K ∈ track_numbers cuesheet, 1 ≤ K)
    (hscope : album_scope_plain ((cut_lines cuesheet).map Prod.fst) = true)
    (hfin : track_numbers cuesheet ≠ [] ∨ pmp3.sample_count ≤ 0)
    (hargs : ∀ l ∈ cut_lines cuesheet, args_present l.1 = true) :
    ∃ res, parse_cuesheet env cuesheet cuesheet_tracks pmp3 = some res := by
  obtain ⟨st, hp, hin, hf⟩ := parse_lines_defined env (cut_lines cuesheet)
    ⟨0, 0, cuesheet_tracks, pmp3⟩ (Or.inl rfl) hnum (fun _ => hscope)
    (by
      rcases hfin with h | h
      · exact Or.inr (Or.inl h)
      · exact Or.inr (Or.inr h))
    hargs
  unfold parse_cuesheet
  rw [hp]
  simp only [finish]
  split
  · rename_i hN
    rcases hf with h0 | h0
    · rcases hin with h | ⟨h1, h2⟩
      · exact absurd h h0
      · obtain ⟨r, hr⟩ := getTrack_of_range st.cuesheet_tracks (st.track - 1)
          (by omega) (by omega)
        rw [hr]
        exact ⟨_, rfl⟩
    · exfalso
      have : st.pmp3.sample_count > 0 := hN
      omega
  · exact ⟨_, rfl⟩

end ScanCue
